import Mathlib

/-!
# browsea: form monitor

A shallow embedding of `main.go`: the form snapshot `FormData`, the change
detector `hasChanged`, the reader `collectFormData`, the poll loop
`monitorFormInput`, the writer `saveToJSON` and the map conversion at the end of
`collectFormDataDynamic`.

`saveToJSON` is two calls into the Go standard library, `json.MarshalIndent` and
`os.WriteFile`.  The part of `encoding/json`, `unicode/utf8`, `unicode/utf16`
and `time` that those calls run for a `FormData` is embedded here as well, one
Lean function per Go function, under the Go names.  Reading the file back is
`json.Unmarshal` into a `FormData`; its decoder is embedded in the same way,
with `(*time.Time).UnmarshalJSON` and the case-folding table of package
`unicode` as parameters (`Host`).

Conventions.  A Go `string` is a list of bytes (Go strings need not be valid
UTF-8).  A `rune`/`int` is a `Nat` or `Int`; `byte(x)` is reduction modulo 256.
A Go `for` loop that advances an index by a computed amount is a recursion on
the part of the input not yet consumed, driven by a fuel argument that the
callers set to the length of the input.
-/

namespace Browsea

/-! ## Bytes and strings -/

/-- A Go `byte`. -/
abbrev Byte := Fin 256

/-- Go conversion `byte(x)`: the low eight bits. -/
def byte (n : Nat) : Byte := ⟨n % 256, Nat.mod_lt n (by decide)⟩

/-- A Go `string` (equally a `[]byte`): a sequence of bytes. -/
abbrev GoString := List Byte

/-- The bytes of a string literal of the source (all of them are ASCII). -/
def lit (s : String) : GoString := s.toList.map (fun c => byte c.toNat)

/-- Go `error` values are kept as the text that identifies them. -/
abbrev Error := String

/-! ## unicode/utf8 -/

/-- Rune returned for a decoding error, `utf8.RuneError` (U+FFFD). -/
def RuneError : Nat := 0xFFFD

/-- Table `first` of `unicode/utf8`: information about the first byte of a
sequence (`xx = 0xF1` invalid, `as = 0xF0` ASCII, otherwise the accept-range
index in the high nibble and the size in the low one). -/
def first (b : Nat) : Nat :=
  if b < 0x80 then 0xF0
  else if b < 0xC2 then 0xF1
  else if b < 0xE0 then 0x02
  else if b = 0xE0 then 0x13
  else if b < 0xED then 0x03
  else if b = 0xED then 0x23
  else if b < 0xF0 then 0x03
  else if b = 0xF0 then 0x34
  else if b < 0xF4 then 0x04
  else if b = 0xF4 then 0x44
  else 0xF1

/-- Table `acceptRanges` of `unicode/utf8`: the range allowed for the second
byte, as `(lo, hi)`; the entries past index 4 are the zero value. -/
def acceptRanges (i : Nat) : Nat × Nat :=
  match i with
  | 0 => (0x80, 0xBF)
  | 1 => (0xA0, 0xBF)
  | 2 => (0x80, 0x9F)
  | 3 => (0x90, 0xBF)
  | 4 => (0x80, 0x8F)
  | _ => (0, 0)

/-- Go `utf8.DecodeRuneInString` (and `utf8.DecodeRune`): the first rune of `s`
and its width in bytes; `(RuneError, 0)` on empty input and `(RuneError, 1)` on
an invalid encoding. -/
def DecodeRuneInString (s : List Byte) : Nat × Nat :=
  match s with
  | [] => (RuneError, 0)
  | s0 :: t =>
    let x := first s0.val
    if x ≥ 0xF0 then
      -- mask := rune(x) << 31 >> 31 is all ones exactly when the low bit of x is set
      if x &&& 1 = 1 then (RuneError, 1) else (s0.val, 1)
    else
      let sz := x &&& 7
      let accept := acceptRanges (x >>> 4)
      if s.length < sz then (RuneError, 1)
      else
        match t with
        | [] => (RuneError, 1)
        | s1 :: t1 =>
          if s1.val < accept.1 ∨ accept.2 < s1.val then (RuneError, 1)
          else if sz ≤ 2 then (((s0.val &&& 0x1F) <<< 6) ||| (s1.val &&& 0x3F), 2)
          else
            match t1 with
            | [] => (RuneError, 1)
            | s2 :: t2 =>
              if s2.val < 0x80 ∨ 0xBF < s2.val then (RuneError, 1)
              else if sz ≤ 3 then
                (((s0.val &&& 0x0F) <<< 12) ||| ((s1.val &&& 0x3F) <<< 6) ||| (s2.val &&& 0x3F), 3)
              else
                match t2 with
                | [] => (RuneError, 1)
                | s3 :: _ =>
                  if s3.val < 0x80 ∨ 0xBF < s3.val then (RuneError, 1)
                  else
                    (((s0.val &&& 0x07) <<< 18) ||| ((s1.val &&& 0x3F) <<< 12)
                      ||| ((s2.val &&& 0x3F) <<< 6) ||| (s3.val &&& 0x3F), 4)

/-- Go `utf8.EncodeRune` (as used through `utf8.AppendRune`): the UTF-8 bytes of
rune `r`, an out-of-range or surrogate rune being written as U+FFFD. -/
def EncodeRune (r : Nat) : List Byte :=
  if r ≤ 0x7F then [byte r]
  else if r ≤ 0x7FF then [byte (0xC0 ||| (byte (r >>> 6)).val), byte (0x80 ||| ((byte r).val &&& 0x3F))]
  else
    let r := if r > 0x10FFFF ∨ (0xD800 ≤ r ∧ r ≤ 0xDFFF) then RuneError else r
    if r ≤ 0xFFFF then
      [byte (0xE0 ||| (byte (r >>> 12)).val),
       byte (0x80 ||| ((byte (r >>> 6)).val &&& 0x3F)),
       byte (0x80 ||| ((byte r).val &&& 0x3F))]
    else
      [byte (0xF0 ||| (byte (r >>> 18)).val),
       byte (0x80 ||| ((byte (r >>> 12)).val &&& 0x3F)),
       byte (0x80 ||| ((byte (r >>> 6)).val &&& 0x3F)),
       byte (0x80 ||| ((byte r).val &&& 0x3F))]

/-- Loop of Go `utf8.ValidString`, on the bytes from the current index on. -/
def validLoop : Nat → List Byte → Bool
  | 0, s => s.isEmpty
  | _ + 1, [] => true
  | fuel + 1, si :: t =>
    if si.val < 0x80 then validLoop fuel t
    else
      let x := first si.val
      if x = 0xF1 then false
      else
        let size := x &&& 7
        if size > (si :: t).length then false
        else
          let accept := acceptRanges (x >>> 4)
          match t with
          | [] => false
          | c1 :: t1 =>
            if c1.val < accept.1 ∨ accept.2 < c1.val then false
            else if size = 2 then validLoop fuel t1
            else
              match t1 with
              | [] => false
              | c2 :: t2 =>
                if c2.val < 0x80 ∨ 0xBF < c2.val then false
                else if size = 3 then validLoop fuel t2
                else
                  match t2 with
                  | [] => false
                  | c3 :: t3 =>
                    if c3.val < 0x80 ∨ 0xBF < c3.val then false
                    else validLoop fuel t3

/-- Go `utf8.ValidString`: whether `s` consists entirely of valid UTF-8. -/
def ValidString (s : GoString) : Bool := validLoop s.length s

/-! ## encoding/json: string literals -/

/-- Table `hex` of `encoding/json`. -/
def hex (n : Nat) : Byte := (lit "0123456789abcdef").getD n 0

/-- Table `htmlSafeSet` of `encoding/json`: the ASCII bytes that are written
inside a JSON string without escaping when HTML escaping is on. -/
def htmlSafeSet (b : Nat) : Bool :=
  decide (0x20 ≤ b ∧ b < 0x80 ∧ b ≠ 0x22 ∧ b ≠ 0x26 ∧ b ≠ 0x3C ∧ b ≠ 0x3E ∧ b ≠ 0x5C)

/-- The escape `appendString` writes for an ASCII byte outside `htmlSafeSet`. -/
def escapeByte (b : Byte) : List Byte :=
  if b.val = 0x5C ∨ b.val = 0x22 then [0x5C, b]
  else if b.val = 0x08 then [0x5C, 0x62]
  else if b.val = 0x0C then [0x5C, 0x66]
  else if b.val = 0x0A then [0x5C, 0x6E]
  else if b.val = 0x0D then [0x5C, 0x72]
  else if b.val = 0x09 then [0x5C, 0x74]
  else [0x5C, 0x75, 0x30, 0x30, hex (b.val >>> 4), hex (b.val &&& 0xF)]

/-- Loop of Go `appendString` (with `escapeHTML` set, as `json.Marshal` does):
the bytes written between the two quotes for the source bytes not yet
consumed. -/
def appendStringLoop : Nat → List Byte → List Byte
  | 0, _ => []
  | _ + 1, [] => []
  | fuel + 1, b :: rest =>
    if b.val < 0x80 then
      if htmlSafeSet b.val then b :: appendStringLoop fuel rest
      else escapeByte b ++ appendStringLoop fuel rest
    else
      let cs := DecodeRuneInString ((b :: rest).take 4)
      if cs.1 = RuneError ∧ cs.2 = 1 then
        lit "\\ufffd" ++ appendStringLoop fuel rest
      else if cs.1 = 0x2028 ∨ cs.1 = 0x2029 then
        lit "\\u202" ++ [hex (cs.1 &&& 0xF)] ++ appendStringLoop fuel ((b :: rest).drop cs.2)
      else
        (b :: rest).take cs.2 ++ appendStringLoop fuel ((b :: rest).drop cs.2)

/-- Go `appendString(dst, src, true)`: `src` as a JSON string literal, appended
to `dst`. -/
def appendString (dst : List Byte) (src : GoString) : List Byte :=
  dst ++ [0x22] ++ appendStringLoop src.length src ++ [0x22]

/-- Hexadecimal value of a byte inside `getu4`, `none` for a byte that is not a
hexadecimal digit. -/
def hexValue (c : Byte) : Option Nat :=
  if 0x30 ≤ c.val ∧ c.val ≤ 0x39 then some (c.val - 0x30)
  else if 0x61 ≤ c.val ∧ c.val ≤ 0x66 then some (c.val - 0x61 + 10)
  else if 0x41 ≤ c.val ∧ c.val ≤ 0x46 then some (c.val - 0x41 + 10)
  else none

/-- Loop of Go `getu4` over the four bytes after `\u`. -/
def getu4Loop : List Byte → Int → Int
  | [], r => r
  | c :: cs, r =>
    match hexValue c with
    | none => -1
    | some v => getu4Loop cs (r * 16 + v)

/-- Go `getu4`: the rune of a `\uXXXX` escape at the start of `s`, or `-1`. -/
def getu4 (s : List Byte) : Int :=
  match s with
  | b0 :: b1 :: c0 :: c1 :: c2 :: c3 :: _ =>
    if b0.val ≠ 0x5C ∨ b1.val ≠ 0x75 then -1 else getu4Loop [c0, c1, c2, c3] 0
  | _ => -1

/-- Go `utf16.IsSurrogate`. -/
def IsSurrogate (r : Int) : Bool := decide (0xD800 ≤ r ∧ r < 0xE000)

/-- Go `utf16.DecodeRune`: the code point of a surrogate pair, U+FFFD when the
pair is not valid. -/
def utf16DecodeRune (r1 r2 : Int) : Int :=
  if 0xD800 ≤ r1 ∧ r1 < 0xDC00 ∧ 0xDC00 ≤ r2 ∧ r2 < 0xE000 then
    Int.ofNat ((((r1 - 0xD800).toNat <<< 10) ||| (r2 - 0xDC00).toNat) + 0x10000)
  else 0xFFFD

/-- First loop of Go `unquoteBytes`: the index of the first byte that needs
unquoting (`r` is the index reached, `s` the bytes from there on). -/
def unquoteScan : Nat → List Byte → Nat → Nat
  | _, [], r => r
  | 0, _ :: _, r => r
  | fuel + 1, c :: t, r =>
    if c.val = 0x5C ∨ c.val = 0x22 ∨ c.val < 0x20 then r
    else if c.val < 0x80 then unquoteScan fuel t (r + 1)
    else
      let rs := DecodeRuneInString (c :: t)
      if rs.1 = RuneError ∧ rs.2 = 1 then r
      else unquoteScan fuel ((c :: t).drop rs.2) (r + rs.2)

/-- Second loop of Go `unquoteBytes`: the unquoted bytes of the rest of the
literal body, `none` where the Go code returns `ok = false`. -/
def unquoteLoop : Nat → List Byte → Option (List Byte)
  | _, [] => some []
  | 0, _ :: _ => none
  | fuel + 1, c :: t =>
    if c.val = 0x5C then
      match t with
      | [] => none
      | e :: t1 =>
        if e.val = 0x22 ∨ e.val = 0x5C ∨ e.val = 0x2F ∨ e.val = 0x27 then
          (unquoteLoop fuel t1).map (fun out => e :: out)
        else if e.val = 0x62 then (unquoteLoop fuel t1).map (fun out => 0x08 :: out)
        else if e.val = 0x66 then (unquoteLoop fuel t1).map (fun out => 0x0C :: out)
        else if e.val = 0x6E then (unquoteLoop fuel t1).map (fun out => 0x0A :: out)
        else if e.val = 0x72 then (unquoteLoop fuel t1).map (fun out => 0x0D :: out)
        else if e.val = 0x74 then (unquoteLoop fuel t1).map (fun out => 0x09 :: out)
        else if e.val = 0x75 then
          let rr := getu4 (c :: t)
          if rr < 0 then none
          else
            let rest := (c :: t).drop 6
            if IsSurrogate rr then
              let dec := utf16DecodeRune rr (getu4 rest)
              if dec ≠ 0xFFFD then
                (unquoteLoop fuel (rest.drop 6)).map (fun out => EncodeRune dec.toNat ++ out)
              else (unquoteLoop fuel rest).map (fun out => EncodeRune 0xFFFD ++ out)
            else (unquoteLoop fuel rest).map (fun out => EncodeRune rr.toNat ++ out)
        else none
    else if c.val = 0x22 ∨ c.val < 0x20 then none
    else if c.val < 0x80 then (unquoteLoop fuel t).map (fun out => c :: out)
    else
      let rs := DecodeRuneInString (c :: t)
      (unquoteLoop fuel ((c :: t).drop rs.2)).map (fun out => EncodeRune rs.1 ++ out)

/-- Go `unquoteBytes`: the string a quoted JSON string literal stands for,
`none` where the Go code returns `ok = false`. -/
def unquoteBytes (s : List Byte) : Option (List Byte) :=
  if s.length < 2 ∨ s.head? ≠ some 0x22 ∨ s.getLast? ≠ some 0x22 then none
  else
    let body := (s.drop 1).dropLast
    let r := unquoteScan body.length body 0
    if r = body.length then some body
    else (unquoteLoop body.length (body.drop r)).map (fun out => body.take r ++ out)

/-! ## encoding/json: the scanner -/

/-- The state functions of `scanner.go`; a scanner's `step` field holds one. -/
inductive Step where
  | stateBeginValueOrEmpty | stateBeginValue | stateBeginStringOrEmpty | stateBeginString
  | stateEndValue | stateEndTop
  | stateInString | stateInStringEsc | stateInStringEscU | stateInStringEscU1
  | stateInStringEscU12 | stateInStringEscU123
  | stateNeg | state1 | state0 | stateDot | stateDot0 | stateE | stateESign | stateE0
  | stateT | stateTr | stateTru | stateF | stateFa | stateFal | stateFals
  | stateN | stateNu | stateNul | stateError
  deriving DecidableEq, Repr

/-- Go `scanner` (the `bytes` counter, which only feeds the offset of an error
message, is left out; `err` keeps the context part of the message).  The top of
the `parseState` stack is the head of the list. -/
structure Scanner where
  step : Step
  endTop : Bool
  parseState : List Nat
  err : Option Error
  deriving DecidableEq, Repr

def scanContinue : Nat := 0
def scanBeginLiteral : Nat := 1
def scanBeginObject : Nat := 2
def scanObjectKey : Nat := 3
def scanObjectValue : Nat := 4
def scanEndObject : Nat := 5
def scanBeginArray : Nat := 6
def scanArrayValue : Nat := 7
def scanEndArray : Nat := 8
def scanSkipSpace : Nat := 9
def scanEnd : Nat := 10
def scanError : Nat := 11

def parseObjectKey : Nat := 0
def parseObjectValue : Nat := 1
def parseArrayValue : Nat := 2

def maxNestingDepth : Nat := 10000

/-- Go `newScanner` followed by `reset`. -/
def Scanner.reset : Scanner :=
  { step := Step.stateBeginValue, endTop := false, parseState := [], err := none }

/-- Go `(*scanner).error`. -/
def Scanner.error (s : Scanner) (context : String) : Scanner × Nat :=
  ({ s with step := Step.stateError, err := some context }, scanError)

/-- Go `(*scanner).pushParseState`. -/
def Scanner.pushParseState (s : Scanner) (newParseState : Nat) (successState : Nat) :
    Scanner × Nat :=
  let s := { s with parseState := newParseState :: s.parseState }
  if s.parseState.length ≤ maxNestingDepth then (s, successState)
  else s.error "exceeded max depth"

/-- Go `(*scanner).popParseState`. -/
def Scanner.popParseState (s : Scanner) : Scanner :=
  let ps := s.parseState.tail
  if ps.length = 0 then { s with parseState := ps, step := Step.stateEndTop, endTop := true }
  else { s with parseState := ps, step := Step.stateEndValue }

/-- Go `isSpace`. -/
def isSpace (c : Byte) : Bool :=
  decide (c.val ≤ 0x20 ∧ (c.val = 0x20 ∨ c.val = 0x09 ∨ c.val = 0x0D ∨ c.val = 0x0A))

def isDigit09 (c : Byte) : Bool := decide (0x30 ≤ c.val ∧ c.val ≤ 0x39)

def isDigit19 (c : Byte) : Bool := decide (0x31 ≤ c.val ∧ c.val ≤ 0x39)

def isHexDigit (c : Byte) : Bool :=
  decide ((0x30 ≤ c.val ∧ c.val ≤ 0x39) ∨ (0x61 ≤ c.val ∧ c.val ≤ 0x66)
    ∨ (0x41 ≤ c.val ∧ c.val ≤ 0x46))

/-- Go `stateEndTop`. -/
def stateEndTop (s : Scanner) (c : Byte) : Scanner × Nat :=
  if !isSpace c then ((s.error "after top-level value").1, scanEnd) else (s, scanEnd)

/-- Go `stateEndValue`. -/
def stateEndValue (s : Scanner) (c : Byte) : Scanner × Nat :=
  match s.parseState with
  | [] => stateEndTop { s with step := Step.stateEndTop, endTop := true } c
  | ps :: below =>
    if isSpace c then ({ s with step := Step.stateEndValue }, scanSkipSpace)
    else if ps = parseObjectKey then
      if c.val = 0x3A then
        ({ s with parseState := parseObjectValue :: below, step := Step.stateBeginValue },
          scanObjectKey)
      else s.error "after object key"
    else if ps = parseObjectValue then
      if c.val = 0x2C then
        ({ s with parseState := parseObjectKey :: below, step := Step.stateBeginString },
          scanObjectValue)
      else if c.val = 0x7D then (s.popParseState, scanEndObject)
      else s.error "after object key:value pair"
    else if ps = parseArrayValue then
      if c.val = 0x2C then ({ s with step := Step.stateBeginValue }, scanArrayValue)
      else if c.val = 0x5D then (s.popParseState, scanEndArray)
      else s.error "after array element"
    else s.error ""

/-- Go `stateBeginValue`. -/
def stateBeginValue (s : Scanner) (c : Byte) : Scanner × Nat :=
  if isSpace c then (s, scanSkipSpace)
  else if c.val = 0x7B then
    { s with step := Step.stateBeginStringOrEmpty }.pushParseState parseObjectKey scanBeginObject
  else if c.val = 0x5B then
    { s with step := Step.stateBeginValueOrEmpty }.pushParseState parseArrayValue scanBeginArray
  else if c.val = 0x22 then ({ s with step := Step.stateInString }, scanBeginLiteral)
  else if c.val = 0x2D then ({ s with step := Step.stateNeg }, scanBeginLiteral)
  else if c.val = 0x30 then ({ s with step := Step.state0 }, scanBeginLiteral)
  else if c.val = 0x74 then ({ s with step := Step.stateT }, scanBeginLiteral)
  else if c.val = 0x66 then ({ s with step := Step.stateF }, scanBeginLiteral)
  else if c.val = 0x6E then ({ s with step := Step.stateN }, scanBeginLiteral)
  else if isDigit19 c then ({ s with step := Step.state1 }, scanBeginLiteral)
  else s.error "looking for beginning of value"

/-- Go `stateBeginValueOrEmpty`. -/
def stateBeginValueOrEmpty (s : Scanner) (c : Byte) : Scanner × Nat :=
  if isSpace c then (s, scanSkipSpace)
  else if c.val = 0x5D then stateEndValue s c
  else stateBeginValue s c

/-- Go `stateBeginString`. -/
def stateBeginString (s : Scanner) (c : Byte) : Scanner × Nat :=
  if isSpace c then (s, scanSkipSpace)
  else if c.val = 0x22 then ({ s with step := Step.stateInString }, scanBeginLiteral)
  else s.error "looking for beginning of object key string"

/-- Go `stateBeginStringOrEmpty`. -/
def stateBeginStringOrEmpty (s : Scanner) (c : Byte) : Scanner × Nat :=
  if isSpace c then (s, scanSkipSpace)
  else if c.val = 0x7D then
    stateEndValue { s with parseState := parseObjectValue :: s.parseState.tail } c
  else stateBeginString s c

/-- Go `stateInString`. -/
def stateInString (s : Scanner) (c : Byte) : Scanner × Nat :=
  if c.val = 0x22 then ({ s with step := Step.stateEndValue }, scanContinue)
  else if c.val = 0x5C then ({ s with step := Step.stateInStringEsc }, scanContinue)
  else if c.val < 0x20 then s.error "in string literal"
  else (s, scanContinue)

/-- Go `stateInStringEsc`. -/
def stateInStringEsc (s : Scanner) (c : Byte) : Scanner × Nat :=
  if c.val = 0x62 ∨ c.val = 0x66 ∨ c.val = 0x6E ∨ c.val = 0x72 ∨ c.val = 0x74 ∨ c.val = 0x5C
      ∨ c.val = 0x2F ∨ c.val = 0x22 then
    ({ s with step := Step.stateInString }, scanContinue)
  else if c.val = 0x75 then ({ s with step := Step.stateInStringEscU }, scanContinue)
  else s.error "in string escape code"

/-- Go `stateInStringEscU`, `stateInStringEscU1`, `stateInStringEscU12` and
`stateInStringEscU123`: one hexadecimal digit, then on to `next`. -/
def stateInStringEscHex (next : Step) (s : Scanner) (c : Byte) : Scanner × Nat :=
  if isHexDigit c then ({ s with step := next }, scanContinue)
  else s.error "in \\u hexadecimal character escape"

/-- Go `state0`. -/
def state0 (s : Scanner) (c : Byte) : Scanner × Nat :=
  if c.val = 0x2E then ({ s with step := Step.stateDot }, scanContinue)
  else if c.val = 0x65 ∨ c.val = 0x45 then ({ s with step := Step.stateE }, scanContinue)
  else stateEndValue s c

/-- Go `state1`. -/
def state1 (s : Scanner) (c : Byte) : Scanner × Nat :=
  if isDigit09 c then ({ s with step := Step.state1 }, scanContinue) else state0 s c

/-- Go `stateNeg`. -/
def stateNeg (s : Scanner) (c : Byte) : Scanner × Nat :=
  if c.val = 0x30 then ({ s with step := Step.state0 }, scanContinue)
  else if isDigit19 c then ({ s with step := Step.state1 }, scanContinue)
  else s.error "in numeric literal"

/-- Go `stateDot`. -/
def stateDot (s : Scanner) (c : Byte) : Scanner × Nat :=
  if isDigit09 c then ({ s with step := Step.stateDot0 }, scanContinue)
  else s.error "after decimal point in numeric literal"

/-- Go `stateDot0`. -/
def stateDot0 (s : Scanner) (c : Byte) : Scanner × Nat :=
  if isDigit09 c then (s, scanContinue)
  else if c.val = 0x65 ∨ c.val = 0x45 then ({ s with step := Step.stateE }, scanContinue)
  else stateEndValue s c

/-- Go `stateESign`. -/
def stateESign (s : Scanner) (c : Byte) : Scanner × Nat :=
  if isDigit09 c then ({ s with step := Step.stateE0 }, scanContinue)
  else s.error "in exponent of numeric literal"

/-- Go `stateE`. -/
def stateE (s : Scanner) (c : Byte) : Scanner × Nat :=
  if c.val = 0x2B ∨ c.val = 0x2D then ({ s with step := Step.stateESign }, scanContinue)
  else stateESign s c

/-- Go `stateE0`. -/
def stateE0 (s : Scanner) (c : Byte) : Scanner × Nat :=
  if isDigit09 c then (s, scanContinue) else stateEndValue s c

/-- Go `stateT`, `stateTr`, `stateFa`, ...: inside `true`, `false` or `null`,
the byte `want` leads on to `next`. -/
def stateWord (want : Nat) (next : Step) (context : String) (s : Scanner) (c : Byte) :
    Scanner × Nat :=
  if c.val = want then ({ s with step := next }, scanContinue) else s.error context

/-- Go `s.step(s, c)`: the call through the scanner's current state function. -/
def Scanner.run (s : Scanner) (c : Byte) : Scanner × Nat :=
  match s.step with
  | Step.stateBeginValueOrEmpty => stateBeginValueOrEmpty s c
  | Step.stateBeginValue => stateBeginValue s c
  | Step.stateBeginStringOrEmpty => stateBeginStringOrEmpty s c
  | Step.stateBeginString => stateBeginString s c
  | Step.stateEndValue => stateEndValue s c
  | Step.stateEndTop => stateEndTop s c
  | Step.stateInString => stateInString s c
  | Step.stateInStringEsc => stateInStringEsc s c
  | Step.stateInStringEscU => stateInStringEscHex Step.stateInStringEscU1 s c
  | Step.stateInStringEscU1 => stateInStringEscHex Step.stateInStringEscU12 s c
  | Step.stateInStringEscU12 => stateInStringEscHex Step.stateInStringEscU123 s c
  | Step.stateInStringEscU123 => stateInStringEscHex Step.stateInString s c
  | Step.stateNeg => stateNeg s c
  | Step.state1 => state1 s c
  | Step.state0 => state0 s c
  | Step.stateDot => stateDot s c
  | Step.stateDot0 => stateDot0 s c
  | Step.stateE => stateE s c
  | Step.stateESign => stateESign s c
  | Step.stateE0 => stateE0 s c
  | Step.stateT => stateWord 0x72 Step.stateTr "in literal true (expecting r)" s c
  | Step.stateTr => stateWord 0x75 Step.stateTru "in literal true (expecting u)" s c
  | Step.stateTru => stateWord 0x65 Step.stateEndValue "in literal true (expecting e)" s c
  | Step.stateF => stateWord 0x61 Step.stateFa "in literal false (expecting a)" s c
  | Step.stateFa => stateWord 0x6C Step.stateFal "in literal false (expecting l)" s c
  | Step.stateFal => stateWord 0x73 Step.stateFals "in literal false (expecting s)" s c
  | Step.stateFals => stateWord 0x65 Step.stateEndValue "in literal false (expecting e)" s c
  | Step.stateN => stateWord 0x75 Step.stateNu "in literal null (expecting u)" s c
  | Step.stateNu => stateWord 0x6C Step.stateNul "in literal null (expecting l)" s c
  | Step.stateNul => stateWord 0x6C Step.stateEndValue "in literal null (expecting l)" s c
  | Step.stateError => (s, scanError)

/-- Go `(*scanner).eof`: the scanner after the end of input and the opcode
returned (`scanEnd` or `scanError`). -/
def Scanner.eof (s : Scanner) : Scanner × Nat :=
  if s.err.isSome then (s, scanError)
  else if s.endTop then (s, scanEnd)
  else
    let s1 := (s.run 0x20).1
    if s1.endTop then (s1, scanEnd)
    else if s1.err.isNone then ({ s1 with err := some "unexpected end of JSON input" }, scanError)
    else (s1, scanError)

/-! ## encoding/json: compacting and indenting -/

/-- Go slice expression `src[lo:hi]`. -/
def slice (src : List Byte) (lo hi : Nat) : List Byte := (src.drop lo).take (hi - lo)

/-- Local variables of the loop of `appendCompact`. -/
structure CompactState where
  scan : Scanner
  start : Nat
  dst : List Byte
  deriving DecidableEq, Repr

/-- Body of the loop `for i, c := range src` of Go
`appendCompact(dst, src, true)`: the local variables after byte `c` at index
`i`, and whether the loop goes on (`false` after the `break` on `scanError`). -/
def compactByte (src : List Byte) (i : Nat) (st : CompactState) (c : Byte) :
    CompactState × Bool :=
  let st1 : CompactState :=
    if c.val = 0x3C ∨ c.val = 0x3E ∨ c.val = 0x26 then
      { st with
        dst := (if st.start < i then st.dst ++ slice src st.start i else st.dst)
          ++ [0x5C, 0x75, 0x30, 0x30, hex (c.val >>> 4), hex (c.val &&& 0xF)]
        start := i + 1 }
    else st
  let st2 : CompactState :=
    if c.val = 0xE2 ∧ i + 2 < src.length ∧ (src.getD (i + 1) 0).val = 0x80
        ∧ (src.getD (i + 2) 0).val &&& 0xFE = 0xA8 then
      { st1 with
        dst := (if st1.start < i then st1.dst ++ slice src st1.start i else st1.dst)
          ++ [0x5C, 0x75, 0x32, 0x30, 0x32, hex ((src.getD (i + 2) 0).val &&& 0xF)]
        start := i + 3 }
    else st1
  let sv := st2.scan.run c
  if sv.2 ≥ scanSkipSpace then
    if sv.2 = scanError then ({ st2 with scan := sv.1 }, false)
    else
      ({ scan := sv.1
         dst := if st2.start < i then st2.dst ++ slice src st2.start i else st2.dst
         start := i + 1 }, true)
  else ({ st2 with scan := sv.1 }, true)

/-- Loop `for i, c := range src` of Go `appendCompact(dst, src, true)`; the
second argument is `src[i:]`. -/
def compactLoop (src : List Byte) : List Byte → Nat → CompactState → CompactState
  | [], _, st => st
  | c :: rest, i, st =>
    let r := compactByte src i st c
    if r.2 then compactLoop src rest (i + 1) r.1 else r.1

/-- Go `appendCompact(dst, src, true)` on an empty `dst`: `src` without
insignificant space and with `<`, `>`, `&`, U+2028, U+2029 escaped, or the
scanner's error when `src` is not valid JSON. -/
def appendCompact (src : List Byte) : Except Error (List Byte) :=
  let st := compactLoop src src 0 { scan := Scanner.reset, start := 0, dst := [] }
  let e := st.scan.eof
  if e.2 = scanError then Except.error (e.1.err.getD "")
  else if st.start < src.length then Except.ok (st.dst ++ slice src st.start src.length)
  else Except.ok st.dst

/-- Go `appendNewline`. -/
def appendNewline (dst : List Byte) (pfx indent : GoString) (depth : Int) : List Byte :=
  dst ++ [0x0A] ++ pfx ++ (List.replicate depth.toNat indent).flatten

/-- Local variables of the loop of `appendIndent`. -/
structure IndentState where
  scan : Scanner
  needIndent : Bool
  depth : Int
  dst : List Byte
  deriving DecidableEq, Repr

/-- Body of the loop `for _, c := range src` of Go `appendIndent`: the local
variables after byte `c`, and whether the loop goes on (`false` after the
`break` on `scanError`). -/
def indentByte (pfx indent : GoString) (st : IndentState) (c : Byte) : IndentState × Bool :=
  let sv := st.scan.run c
  let v := sv.2
  if v = scanSkipSpace then ({ st with scan := sv.1 }, true)
  else if v = scanError then ({ st with scan := sv.1 }, false)
  else
    let st1 : IndentState :=
      if st.needIndent ∧ v ≠ scanEndObject ∧ v ≠ scanEndArray then
        { scan := sv.1, needIndent := false, depth := st.depth + 1,
          dst := appendNewline st.dst pfx indent (st.depth + 1) }
      else { st with scan := sv.1 }
    if v = scanContinue then ({ st1 with dst := st1.dst ++ [c] }, true)
    else if c.val = 0x7B ∨ c.val = 0x5B then
      ({ st1 with needIndent := true, dst := st1.dst ++ [c] }, true)
    else if c.val = 0x2C then
      ({ st1 with dst := appendNewline (st1.dst ++ [c]) pfx indent st1.depth }, true)
    else if c.val = 0x3A then ({ st1 with dst := st1.dst ++ [c, 0x20] }, true)
    else if c.val = 0x7D ∨ c.val = 0x5D then
      if st1.needIndent then ({ st1 with needIndent := false, dst := st1.dst ++ [c] }, true)
      else
        ({ st1 with
           depth := st1.depth - 1
           dst := appendNewline st1.dst pfx indent (st1.depth - 1) ++ [c] }, true)
    else ({ st1 with dst := st1.dst ++ [c] }, true)

/-- Loop `for _, c := range src` of Go `appendIndent`. -/
def indentLoop (pfx indent : GoString) : List Byte → IndentState → IndentState
  | [], st => st
  | c :: rest, st =>
    let r := indentByte pfx indent st c
    if r.2 then indentLoop pfx indent rest r.1 else r.1

/-- Go `appendIndent(dst, src, pfx, indent)` on an empty `dst`. -/
def appendIndent (src : List Byte) (pfx indent : GoString) : Except Error (List Byte) :=
  let st := indentLoop pfx indent src
    { scan := Scanner.reset, needIndent := false, depth := 0, dst := [] }
  let e := st.scan.eof
  if e.2 = scanError then Except.error (e.1.err.getD "") else Except.ok st.dst

/-! ## time -/

/-- A Go `time.Time`, held as what its accessors report in the time's own
location: `Date()` (year, month, day), `Clock()` (hour, min, sec),
`Nanosecond()` and the offset of `Zone()` in seconds east of UTC. -/
structure Time where
  year : Int
  month : Nat
  day : Nat
  hour : Nat
  min : Nat
  sec : Nat
  nsec : Nat
  offset : Int
  deriving DecidableEq, Repr

/-- The zero `time.Time`: January 1, year 1, 00:00:00.000000000 UTC. -/
def Time.zero : Time :=
  { year := 1, month := 1, day := 1, hour := 0, min := 0, sec := 0, nsec := 0, offset := 0 }

/-- Digit loop of Go `appendInt`: the decimal digits of `u`, most significant
first. -/
def decimalDigits : Nat → Nat → List Byte
  | 0, u => [byte (0x30 + u % 10)]
  | fuel + 1, u =>
    if u ≥ 10 then decimalDigits fuel (u / 10) ++ [byte (0x30 + u % 10)]
    else [byte (0x30 + u)]

/-- Go `appendInt(b, x, width)`: `x` in decimal, zero-padded to `width` digits,
with a leading `-` when negative. -/
def appendInt (b : List Byte) (x : Int) (width : Nat) : List Byte :=
  let b := if x < 0 then b ++ [0x2D] else b
  let ds := decimalDigits x.natAbs x.natAbs
  b ++ List.replicate (width - ds.length) 0x30 ++ ds

/-- Trailing-zero loop of Go `appendNano`. -/
def trimZeros (b : List Byte) : List Byte :=
  (b.reverse.dropWhile (fun c => c.val = 0x30)).reverse

/-- Go `appendNano(b, nanosec, std)` for the layout element `.999999999`: the
fraction with trailing zeros removed, nothing at all for a zero fraction. -/
def appendNano (b : List Byte) (nanosec : Nat) : List Byte :=
  if nanosec = 0 then b
  else
    let b := trimZeros (appendInt (b ++ [0x2E]) nanosec 9)
    if b.getLast? = some 0x2E then b.dropLast else b

/-- Go `Time.appendFormatRFC3339(b, true)`. -/
def appendFormatRFC3339 (b : List Byte) (t : Time) : List Byte :=
  let b := appendInt b t.year 4
  let b := b ++ [0x2D]
  let b := appendInt b t.month 2
  let b := b ++ [0x2D]
  let b := appendInt b t.day 2
  let b := b ++ [0x54]
  let b := appendInt b t.hour 2
  let b := b ++ [0x3A]
  let b := appendInt b t.min 2
  let b := b ++ [0x3A]
  let b := appendInt b t.sec 2
  let b := appendNano b t.nsec
  if t.offset = 0 then b ++ [0x5A]
  else
    let zone := Int.tdiv t.offset 60
    let b := if zone < 0 then b ++ [0x2D] else b ++ [0x2B]
    let zone := if zone < 0 then -zone else zone
    let b := appendInt b (Int.tdiv zone 60) 2
    let b := b ++ [0x3A]
    appendInt b (Int.tmod zone 60) 2

/-- Local function `num2` of Go `Time.appendStrictRFC3339`, in `byte`
arithmetic. -/
def num2 (b : List Byte) : Nat :=
  (10 * ((b.getD 0 0).val + 256 - 0x30) + ((b.getD 1 0).val + 256 - 0x30)) % 256

/-- Go `Time.appendStrictRFC3339(b)`: RFC 3339 text of `t` after `b`, or an
error for a year outside [0,9999] or a zone hour outside [0,23]. -/
def appendStrictRFC3339 (b0 : List Byte) (t : Time) : List Byte × Option Error :=
  let n0 := b0.length
  let b := appendFormatRFC3339 b0 t
  if (b.getD (n0 + 4) 0).val ≠ 0x2D then (b, some "year outside of range [0,9999]")
  else if (b.getD (b.length - 1) 0).val ≠ 0x5A then
    let c := (b.getD (b.length - 6) 0).val
    if (0x30 ≤ c ∧ c ≤ 0x39) ∨ num2 (b.drop (b.length - 5)) ≥ 24 then
      (b, some "timezone hour outside of range [0,23]")
    else (b, none)
  else (b, none)

/-- Go `Time.MarshalJSON`. -/
def Time.MarshalJSON (t : Time) : Except Error (List Byte) :=
  let r := appendStrictRFC3339 [0x22] t
  match r.2 with
  | some e => Except.error ("Time.MarshalJSON: " ++ e)
  | none => Except.ok (r.1 ++ [0x22])

/-! ## main.go: the snapshot and the change detector -/

/-- Go `FormData`: the snapshot of the four tracked fields and the time of
capture. -/
structure FormData where
  Name : GoString
  Email : GoString
  Phone : GoString
  Message : GoString
  Timestamp : Time
  deriving DecidableEq, Repr

/-- The zero value `FormData{}`. -/
def FormData.zero : FormData :=
  { Name := [], Email := [], Phone := [], Message := [], Timestamp := Time.zero }

/-- Go `hasChanged`. -/
def hasChanged (old new : FormData) : Bool :=
  old.Name != new.Name ||
    old.Email != new.Email ||
    old.Phone != new.Phone ||
    old.Message != new.Message

/-! ## encoding/json: marshalling a `FormData` -/

/-- Go `marshalerEncoder` for the `Timestamp` field: the output of
`Time.MarshalJSON`, checked and compacted by `appendCompact`. -/
def marshalerEncoder (t : Time) : Except Error (List Byte) :=
  match t.MarshalJSON with
  | Except.error e => Except.error ("json: error calling MarshalJSON for type time.Time: " ++ e)
  | Except.ok b =>
    match appendCompact b with
    | Except.error e => Except.error ("json: error calling MarshalJSON for type time.Time: " ++ e)
    | Except.ok out => Except.ok out

/-- Go `json.Marshal` on a `FormData`: the struct encoder writes, for each field
in declaration order, the separator, the quoted name from the `json` tag with a
colon, and the field through its encoder (`appendString` for a string). -/
def Marshal (v : FormData) : Except Error (List Byte) :=
  let e := [0x7B] ++ lit "\"name\":"
  let e := appendString e v.Name
  let e := e ++ [0x2C] ++ lit "\"email\":"
  let e := appendString e v.Email
  let e := e ++ [0x2C] ++ lit "\"phone\":"
  let e := appendString e v.Phone
  let e := e ++ [0x2C] ++ lit "\"message\":"
  let e := appendString e v.Message
  let e := e ++ [0x2C] ++ lit "\"timestamp\":"
  match marshalerEncoder v.Timestamp with
  | Except.error err => Except.error err
  | Except.ok ts => Except.ok (e ++ ts ++ [0x7D])

/-- Go `json.MarshalIndent`. -/
def MarshalIndent (v : FormData) (pfx indent : GoString) : Except Error (List Byte) :=
  match Marshal v with
  | Except.error err => Except.error err
  | Except.ok b =>
    match appendIndent b pfx indent with
    | Except.error err => Except.error err
    | Except.ok b2 => Except.ok b2

/-! ## main.go: writing, reading and the poll loop -/

/-- One call `os.WriteFile(name, data, perm)`. -/
structure WriteCall where
  name : GoString
  data : List Byte
  perm : Nat
  deriving DecidableEq, Repr

/-- Go `saveToJSON(data, filename)`.  `WriteFile` is what `os.WriteFile` returns
for a call; the result is the calls of `os.WriteFile` made (none or one) and
the error returned. -/
def saveToJSON (data : FormData) (filename : GoString)
    (WriteFile : GoString → List Byte → Nat → Option Error) : List WriteCall × Option Error :=
  match MarshalIndent data [] (lit "  ") with
  | Except.error err => ([], some err)
  | Except.ok jsonData =>
    ([{ name := filename, data := jsonData, perm := 0o644 }], WriteFile filename jsonData 0o644)

/-- The page as `chromedp.Value(sel, &dst, chromedp.ByQuery)` sees it: the
value of the element selected by `sel`, or the error of the action. -/
abbrev Page := GoString → Except Error GoString

/-- One action `chromedp.Value(sel, &field, chromedp.ByQuery)`; `set` stores
into the field the pointer designates. -/
def Value (page : Page) (sel : GoString) (set : FormData → GoString → FormData)
    (data : FormData) : FormData × Option Error :=
  match page sel with
  | Except.error e => (data, some e)
  | Except.ok v => (set data v, none)

/-- Go `chromedp.Run(ctx, actions...)`: the actions in order, stopping at the
first error. -/
def Run : List (FormData → FormData × Option Error) → FormData → FormData × Option Error
  | [], data => (data, none)
  | a :: rest, data =>
    match a data with
    | (data1, some e) => (data1, some e)
    | (data1, none) => Run rest data1

/-- Go `collectFormData`; `now` is the value of `time.Now()`.  The result is
the pair `(*FormData, error)`, `none` standing for `nil`. -/
def collectFormData (now : Time) (page : Page) : Option FormData × Option Error :=
  let data : FormData := { FormData.zero with Timestamp := now }
  let r := Run
    [ Value page (lit "input[name=\"name\"]") (fun d v => { d with Name := v }),
      Value page (lit "input[name=\"email\"]") (fun d v => { d with Email := v }),
      Value page (lit "input[name=\"phone\"]") (fun d v => { d with Phone := v }),
      Value page (lit "textarea[name=\"message\"]") (fun d v => { d with Message := v }) ]
    data
  match r.2 with
  | some err => (none, some err)
  | none => (some r.1, none)

/-- What one poll tick finds outside the program: the clock, the page, and the
answer `os.WriteFile` gives. -/
structure TickEnv where
  now : Time
  page : Page
  WriteFile : GoString → List Byte → Nat → Option Error

/-- One call `saveToJSON(data, filename)`. -/
structure SaveCall where
  data : FormData
  filename : GoString
  deriving DecidableEq, Repr

/-- The state of `monitorFormInput`: the local `previousData`, and the trace of
what the loop has done so far, oldest first: the calls of `saveToJSON` and the
calls of `os.WriteFile` made inside them. -/
structure Monitor where
  previousData : FormData
  saved : List SaveCall
  disk : List WriteCall
  deriving DecidableEq, Repr

/-- Body of `case <-ticker.C:` in `monitorFormInput`.  (Console output is not
part of the state.) -/
def tick (s : Monitor) (env : TickEnv) : Monitor :=
  match collectFormData env.now env.page with
  | (_, some _) => s
  | (none, none) => s
  | (some currentData, none) =>
    if hasChanged s.previousData currentData then
      let w := saveToJSON currentData (lit "form_data.json") env.WriteFile
      { previousData := currentData
        saved := s.saved ++ [{ data := currentData, filename := lit "form_data.json" }]
        disk := s.disk ++ w.1 }
    else s

/-- What the `select` of `monitorFormInput` receives: a tick of the ticker, or
the cancellation of the context. -/
inductive Event where
  | tick (env : TickEnv)
  | done

/-- The `for { select { ... } }` loop of `monitorFormInput` from state `s`:
the state when the loop returns, or when the events given are used up. -/
def monitorLoop : Monitor → List Event → Monitor
  | s, [] => s
  | s, Event.done :: _ => s
  | s, Event.tick env :: rest => monitorLoop (tick s env) rest

/-- Go `monitorFormInput`, run from its start on the events given. -/
def monitorFormInput (events : List Event) : Monitor :=
  monitorLoop { previousData := FormData.zero, saved := [], disk := [] } events

/-! ## main.go: the map conversion of `collectFormDataDynamic` -/

/-- A Go `interface{}` as `encoding/json` fills it: `nil`, `bool`, `float64`
(kept as its bits), `string`, `[]interface{}` or `map[string]interface{}`. -/
inductive Any where
  | nil
  | bool (b : Bool)
  | float64 (bits : Nat)
  | string (s : GoString)
  | slice (l : List Any)
  | map (m : List (GoString × Any))

/-- A Go `map[string]interface{}`: the value stored under each key, `none` for
a key that is absent. -/
abbrev GoMap := GoString → Option Any

/-- Go `make(map[string]interface{})`. -/
def GoMap.make : GoMap := fun _ => none

/-- Go index expression `m[key]`: `nil` for an absent key. -/
def GoMap.index (m : GoMap) (key : GoString) : Any := (m key).getD Any.nil

/-- Go assignment `m[key] = v`. -/
def GoMap.assign (m : GoMap) (key : GoString) (v : Any) : GoMap :=
  fun k => if k = key then some v else m k

/-- Body of the loop `for _, field := range result` of
`collectFormDataDynamic`. -/
def convertField (formData : GoMap) (field : GoMap) : GoMap :=
  match field.index (lit "name") with
  | Any.string name =>
    if name ≠ [] then formData.assign name (field.index (lit "value")) else formData
  | _ => formData

/-- Go `collectFormDataDynamic`, given the outcome of the `chromedp.Evaluate`
action: the records the page script returned, or the error of the run. -/
def collectFormDataDynamic (evaluated : Except Error (List GoMap)) :
    Option GoMap × Option Error :=
  match evaluated with
  | Except.error err => (none, some err)
  | Except.ok result => (some (result.foldl convertField GoMap.make), none)

/-! ## The specification's vocabulary -/

/-- The four tracked fields of two snapshots agree (the timestamps may
differ). -/
def sameFields (a b : FormData) : Prop :=
  a.Name = b.Name ∧ a.Email = b.Email ∧ a.Phone = b.Phone ∧ a.Message = b.Message

instance sameFieldsDecidable (a b : FormData) : Decidable (sameFields a b) := by
  unfold sameFields; infer_instance

/-- At least one of the four tracked fields differs between two snapshots. -/
def fieldDiffers (a b : FormData) : Prop :=
  a.Name ≠ b.Name ∨ a.Email ≠ b.Email ∨ a.Phone ≠ b.Phone ∨ a.Message ≠ b.Message

instance fieldDiffersDecidable (a b : FormData) : Decidable (fieldDiffers a b) := by
  unfold fieldDiffers; infer_instance

/-- The snapshot a poll tick reads, `none` for a tick whose read fails. -/
def readOf (env : TickEnv) : Option FormData :=
  match collectFormData env.now env.page with
  | (some c, none) => some c
  | _ => none

/-- The successful reads of a sequence of poll ticks, in order. -/
def successfulReads (envs : List TickEnv) : List FormData := envs.filterMap readOf

/-- Those snapshots of a sequence that differ in a tracked field from the
snapshot immediately before them, `pred` standing before the first. -/
def changedReads : FormData → List FormData → List FormData
  | _, [] => []
  | pred, c :: rest =>
    if fieldDiffers pred c then c :: changedReads c rest else changedReads c rest

/-- A record returned by the page script carries the usable name `n`: its
`"name"` is a string, not empty, equal to `n`. -/
def isNamed (n : GoString) (field : GoMap) : Bool :=
  match field.index (lit "name") with
  | Any.string s => decide (s = n ∧ s ≠ [])
  | _ => false

/-- A record returned by the page script has a `"name"` that is a non-empty
string. -/
def hasName (field : GoMap) : Bool :=
  match field.index (lit "name") with
  | Any.string s => decide (s ≠ [])
  | _ => false

/-- A page whose `name` input holds `n` and whose other three fields are
empty. -/
def pageWithName (n : GoString) : Page :=
  fun sel => if sel = lit "input[name=\"name\"]" then Except.ok n else Except.ok []

/-- A page on which reading the `email` input fails. -/
def pageWithoutEmail : Page :=
  fun sel => if sel = lit "input[name=\"email\"]" then Except.error "context canceled"
    else Except.ok (lit "x")

/-- Noon on 9 March 2024, UTC. -/
def sampleTime : Time :=
  { year := 2024, month := 3, day := 9, hour := 12, min := 0, sec := 0, nsec := 0, offset := 0 }

/-- A poll tick at `sampleTime` on `pageWithName n`, with a working disk. -/
def envWithName (n : GoString) : TickEnv :=
  { now := sampleTime, page := pageWithName n, WriteFile := fun _ _ _ => none }

/-- A poll tick on which the read fails. -/
def envFailing : TickEnv :=
  { now := sampleTime, page := pageWithoutEmail, WriteFile := fun _ _ _ => none }

/-- The snapshot read at `sampleTime` from `pageWithName n`. -/
def snapshotNamed (n : GoString) : FormData :=
  { Name := n, Email := [], Phone := [], Message := [], Timestamp := sampleTime }

/-- The snapshot last passed to `saveToJSON`, if any, is the previous
snapshot. -/
def LastSavedIsPrevious (s : Monitor) : Prop :=
  ∀ w, s.saved.getLast? = some w → w.data = s.previousData

/-- The rune of a two-byte sequence. -/
def rune2 (s0 s1 : Byte) : Nat := ((s0.val &&& 0x1F) <<< 6) ||| (s1.val &&& 0x3F)

/-- The rune of a three-byte sequence. -/
def rune3 (s0 s1 s2 : Byte) : Nat :=
  ((s0.val &&& 0x0F) <<< 12) ||| ((s1.val &&& 0x3F) <<< 6) ||| (s2.val &&& 0x3F)

/-- The rune of a four-byte sequence. -/
def rune4 (s0 s1 s2 s3 : Byte) : Nat :=
  ((s0.val &&& 0x07) <<< 18) ||| ((s1.val &&& 0x3F) <<< 12) ||| ((s2.val &&& 0x3F) <<< 6)
    ||| (s3.val &&& 0x3F)

/-- A well-formed two-byte UTF-8 sequence. -/
def Seq2 (s0 s1 : Byte) : Prop :=
  (0xC2 ≤ s0.val ∧ s0.val ≤ 0xDF) ∧ (0x80 ≤ s1.val ∧ s1.val ≤ 0xBF)

/-- A well-formed three-byte UTF-8 sequence. -/
def Seq3 (s0 s1 s2 : Byte) : Prop :=
  (0xE0 ≤ s0.val ∧ s0.val ≤ 0xEF) ∧ (0x80 ≤ s1.val ∧ s1.val ≤ 0xBF) ∧
    (0x80 ≤ s2.val ∧ s2.val ≤ 0xBF) ∧ (s0.val = 0xE0 → 0xA0 ≤ s1.val) ∧
    (s0.val = 0xED → s1.val ≤ 0x9F)

/-- A well-formed four-byte UTF-8 sequence. -/
def Seq4 (s0 s1 s2 s3 : Byte) : Prop :=
  (0xF0 ≤ s0.val ∧ s0.val ≤ 0xF4) ∧ (0x80 ≤ s1.val ∧ s1.val ≤ 0xBF) ∧
    (0x80 ≤ s2.val ∧ s2.val ≤ 0xBF) ∧ (0x80 ≤ s3.val ∧ s3.val ≤ 0xBF) ∧
    (s0.val = 0xF0 → 0x90 ≤ s1.val) ∧ (s0.val = 0xF4 → s1.val ≤ 0x8F)

/-- How `appendString` writes a source string piece by piece: `Encoded v src out`
says `out` is `src` written chunk by chunk, each chunk being one of the cases of
the loop of `appendString`.  With `v = true` no chunk is the replacement of an
invalid byte. -/
inductive Encoded : Bool → List Byte → List Byte → Prop where
  | nil (v : Bool) : Encoded v [] []
  | safe (v : Bool) (b : Byte) (rest out : List Byte) :
      b.val < 0x80 → htmlSafeSet b.val = true → Encoded v rest out →
      Encoded v (b :: rest) (b :: out)
  | esc (v : Bool) (b : Byte) (rest out : List Byte) :
      b.val < 0x80 → htmlSafeSet b.val = false → Encoded v rest out →
      Encoded v (b :: rest) (escapeByte b ++ out)
  | bad (b : Byte) (rest out : List Byte) :
      0x80 ≤ b.val → Encoded false rest out →
      Encoded false (b :: rest) (lit "\\ufffd" ++ out)
  | seq2 (v : Bool) (s0 s1 : Byte) (rest out : List Byte) :
      Seq2 s0 s1 → Encoded v rest out →
      Encoded v (s0 :: s1 :: rest) (s0 :: s1 :: out)
  | seq3 (v : Bool) (s0 s1 s2 : Byte) (rest out : List Byte) :
      Seq3 s0 s1 s2 → rune3 s0 s1 s2 ≠ 0x2028 → rune3 s0 s1 s2 ≠ 0x2029 → Encoded v rest out →
      Encoded v (s0 :: s1 :: s2 :: rest) (s0 :: s1 :: s2 :: out)
  | sep (v : Bool) (s0 s1 s2 : Byte) (rest out : List Byte) :
      Seq3 s0 s1 s2 → (rune3 s0 s1 s2 = 0x2028 ∨ rune3 s0 s1 s2 = 0x2029) → Encoded v rest out →
      Encoded v (s0 :: s1 :: s2 :: rest)
        (lit "\\u202" ++ [hex (rune3 s0 s1 s2 &&& 0xF)] ++ out)
  | seq4 (v : Bool) (s0 s1 s2 s3 : Byte) (rest out : List Byte) :
      Seq4 s0 s1 s2 s3 → Encoded v rest out →
      Encoded v (s0 :: s1 :: s2 :: s3 :: rest) (s0 :: s1 :: s2 :: s3 :: out)

/-- The scanner run over `l` from `s` when every byte is answered with
`scanContinue`; `none` as soon as a byte is answered otherwise. -/
def quiet : Scanner → List Byte → Option Scanner
  | s, [] => some s
  | s, c :: t => if (s.run c).2 = scanContinue then quiet (s.run c).1 t else none

/-- A byte that stands for itself inside a JSON string literal. -/
def plainByte (c : Byte) : Bool := decide (0x20 ≤ c.val ∧ c.val ≠ 0x22 ∧ c.val ≠ 0x5C)

/-- The scanner inside a string literal, with the rest of its state as given. -/
def inString (endTop : Bool) (parseState : List Nat) (err : Option Error) : Scanner :=
  { step := Step.stateInString, endTop := endTop, parseState := parseState, err := err }

/-- The loop of `appendIndent` over `l` when it runs to the end of `l`; `none`
when it breaks off inside `l`. -/
def indentAll (pfx indent : GoString) : List Byte → IndentState → Option IndentState
  | [], st => some st
  | c :: rest, st =>
    if (indentByte pfx indent st c).2 then indentAll pfx indent rest (indentByte pfx indent st c).1
    else none

/-- The local variables of `appendIndent` with `d` put in front of the output
written so far. -/
def IndentState.shift (d : List Byte) (st : IndentState) : IndentState :=
  { st with dst := d ++ st.dst }

/-- A byte of an RFC 3339 timestamp: a digit or one of `-`, `:`, `T`, `.`, `Z`,
`+`. -/
def timeByte (c : Byte) : Bool :=
  decide ((0x30 ≤ c.val ∧ c.val ≤ 0x39) ∨ c.val = 0x2D ∨ c.val = 0x3A ∨ c.val = 0x54 ∨
    c.val = 0x2E ∨ c.val = 0x5A ∨ c.val = 0x2B)
/-- `b1` is `b` followed by bytes of an RFC 3339 timestamp only. -/
def TimeExt (b b1 : List Byte) : Prop := ∃ y, b1 = b ++ y ∧ ∀ c ∈ y, timeByte c = true

/-- The compact JSON text of a snapshot, given the bodies of the four string
literals and of the timestamp literal. -/
def compactDoc (b1 b2 b3 b4 tb : List Byte) : List Byte :=
  lit "\x7b\"name\":\"" ++ (b1 ++ (lit "\",\"email\":\"" ++ (b2 ++ (lit "\",\"phone\":\"" ++
    (b3 ++ (lit "\",\"message\":\"" ++ (b4 ++ (lit "\",\"timestamp\":\"" ++
      (tb ++ lit "\"\x7d")))))))))

/-- The indented JSON text of a snapshot, given the bodies of the four string
literals and of the timestamp literal. -/
def indentedDoc (b1 b2 b3 b4 tb : List Byte) : List Byte :=
  lit "\x7b\n  \"name\": \"" ++ b1 ++ lit "\",\n  \"email\": \"" ++ b2 ++
    lit "\",\n  \"phone\": \"" ++ b3 ++ lit "\",\n  \"message\": \"" ++ b4 ++
    lit "\",\n  \"timestamp\": \"" ++ tb ++ lit "\"\n\x7d"

/-- Loop of Go `checkValid`: the scanner after `data`, and whether a byte was
answered with `scanError`. -/
def checkValidLoop : List Byte → Scanner → Scanner × Bool
  | [], s => (s, false)
  | c :: rest, s =>
    if (s.run c).2 = scanError then ((s.run c).1, true) else checkValidLoop rest (s.run c).1

/-- Go `checkValid(data, scan)`: the syntax error of `data`, `none` when `data`
is one valid JSON value. -/
def checkValid (data : List Byte) : Option Error :=
  let r := checkValidLoop data Scanner.reset
  if r.2 then some (r.1.err.getD "")
  else if r.1.eof.2 = scanError then some (r.1.eof.1.err.getD "")
  else none

/-- Go `decodeState`: `rest` is `d.data[d.off:]` and `last` is
`d.data[d.off-1]`, the byte read last. -/
structure DecodeState where
  rest : List Byte
  last : Byte
  scan : Scanner
  opcode : Nat
  savedError : Option Error
  deriving DecidableEq, Repr

/-- Go `(*decodeState).saveError`: the first error is kept. -/
def DecodeState.saveError (d : DecodeState) (err : Error) : DecodeState :=
  if d.savedError.isNone then { d with savedError := some err } else d

/-- Loop of Go `(*decodeState).scanWhile(op)`. -/
def scanWhileLoop (op : Nat) : List Byte → DecodeState → DecodeState
  | [], d => { d with rest := [], scan := d.scan.eof.1, opcode := d.scan.eof.2 }
  | c :: rest, d =>
    if (d.scan.run c).2 ≠ op then
      { d with rest := rest, last := c, scan := (d.scan.run c).1, opcode := (d.scan.run c).2 }
    else scanWhileLoop op rest { d with scan := (d.scan.run c).1 }

/-- Go `(*decodeState).scanWhile(op)`: reads on while the scanner answers
`op`. -/
def DecodeState.scanWhile (d : DecodeState) (op : Nat) : DecodeState :=
  scanWhileLoop op d.rest d

/-- Go `(*decodeState).scanNext`. -/
def DecodeState.scanNext (d : DecodeState) : DecodeState :=
  match d.rest with
  | c :: rest =>
    { d with rest := rest, last := c, scan := (d.scan.run c).1, opcode := (d.scan.run c).2 }
  | [] => { d with scan := d.scan.eof.1, opcode := d.scan.eof.2 }

/-- Loop of Go `(*decodeState).skip`: reads to the end of the array or object
begun; the bytes read are collected.  `none` stands for the index panic at the
end of the data, which valid JSON does not reach. -/
def skipLoop (depth : Nat) : List Byte → DecodeState → List Byte → Option (List Byte × DecodeState)
  | [], _, _ => none
  | c :: rest, d, seen =>
    if (d.scan.run c).1.parseState.length < depth then
      some (seen ++ [c],
        { d with rest := rest, last := c, scan := (d.scan.run c).1, opcode := (d.scan.run c).2 })
    else skipLoop depth rest { d with scan := (d.scan.run c).1 } (seen ++ [c])

/-- Go `(*decodeState).skip`, with the bytes it read. -/
def DecodeState.skip (d : DecodeState) : Option (List Byte × DecodeState) :=
  skipLoop d.scan.parseState.length d.rest d []

/-- String loop of Go `(*decodeState).rescanLiteral`: the bytes up to and with
the closing quote, and the bytes after them. -/
def rescanString : List Byte → List Byte × List Byte
  | [] => ([], [])
  | c :: t =>
    if c.val = 0x5C then
      match t with
      | [] => ([c], [])
      | e :: t1 => (c :: e :: (rescanString t1).1, (rescanString t1).2)
    else if c.val = 0x22 then ([c], t)
    else (c :: (rescanString t).1, (rescanString t).2)

/-- Number loop of Go `(*decodeState).rescanLiteral`. -/
def rescanNumber : List Byte → List Byte × List Byte
  | [] => ([], [])
  | c :: t =>
    if isDigit09 c ∨ c.val = 0x2E ∨ c.val = 0x65 ∨ c.val = 0x45 ∨ c.val = 0x2B ∨ c.val = 0x2D then
      (c :: (rescanNumber t).1, (rescanNumber t).2)
    else ([], c :: t)

/-- Go `(*decodeState).rescanLiteral`: the literal that begins at `last`
(returned whole) is passed over without the scanner, and the byte after it is
given to `stateEndValue`. -/
def DecodeState.rescanLiteral (d : DecodeState) : List Byte × DecodeState :=
  let r : List Byte × List Byte :=
    if d.last.val = 0x22 then rescanString d.rest
    else if isDigit09 d.last ∨ d.last.val = 0x2D then rescanNumber d.rest
    else if d.last.val = 0x74 then (d.rest.take 3, d.rest.drop 3)
    else if d.last.val = 0x66 then (d.rest.take 4, d.rest.drop 4)
    else if d.last.val = 0x6E then (d.rest.take 3, d.rest.drop 3)
    else ([], d.rest)
  match r.2 with
  | [] => (d.last :: r.1, { d with rest := [], opcode := scanEnd })
  | c :: rest =>
    (d.last :: r.1,
      { d with rest := rest, last := c, scan := (stateEndValue d.scan c).1,
               opcode := (stateEndValue d.scan c).2 })

/-- What the decoder takes from outside `encoding/json`: `foldRune` (the least
rune of the case-folding orbit, from the tables of package `unicode`) and the
method `(*time.Time).UnmarshalJSON` (the new value of the time and the error
returned). -/
structure Host where
  foldRune : Nat → Nat
  UnmarshalJSON : List Byte → Time → Time × Option Error

/-- Loop of Go `appendFoldedName`. -/
def foldNameLoop (foldRune : Nat → Nat) : Nat → List Byte → List Byte
  | _, [] => []
  | 0, _ :: _ => []
  | fuel + 1, c :: t =>
    if c.val < 0x80 then
      (if 0x61 ≤ c.val ∧ c.val ≤ 0x7A then byte (c.val + 256 - 0x20) else c)
        :: foldNameLoop foldRune fuel t
    else
      EncodeRune (foldRune (DecodeRuneInString (c :: t)).1)
        ++ foldNameLoop foldRune fuel ((c :: t).drop (DecodeRuneInString (c :: t)).2)

/-- Go `foldName`. -/
def foldName (foldRune : Nat → Nat) (s : List Byte) : List Byte :=
  foldNameLoop foldRune s.length s

/-- The fields of `FormData`. -/
inductive Field where
  | Name | Email | Phone | Message | Timestamp
  deriving DecidableEq, Repr

/-- The fields of `FormData` with the names of their `json` tags, in
declaration order. -/
def structFields : List (GoString × Field) :=
  [(lit "name", Field.Name), (lit "email", Field.Email), (lit "phone", Field.Phone),
   (lit "message", Field.Message), (lit "timestamp", Field.Timestamp)]

/-- The field a key of a JSON object stands for: the one with exactly this name,
or else the first one with the same folded name. -/
def lookupField (foldRune : Nat → Nat) (key : List Byte) : Option Field :=
  match structFields.find? (fun f => f.1 = key) with
  | some f => some f.2
  | none =>
    (structFields.find? (fun f => foldName foldRune f.1 = foldName foldRune key)).map
      (fun f => f.2)

/-- How a step of the decoder ends: decoding goes on, an error is returned, or
the Go code panics (`phasePanicMsg`, or an index out of range); the value being
filled is given in each case. -/
inductive Decoded where
  | next (d : DecodeState) (v : FormData)
  | stop (err : Error) (v : FormData)
  | panic (v : FormData)

/-- Assignment to a string field of `FormData`. -/
def setString (v : FormData) (f : Field) (s : GoString) : FormData :=
  match f with
  | Field.Name => { v with Name := s }
  | Field.Email => { v with Email := s }
  | Field.Phone => { v with Phone := s }
  | Field.Message => { v with Message := s }
  | Field.Timestamp => v

/-- Go `(*decodeState).literalStore(item, v, false)` for a field of `FormData`
(`f = none`: the key names no field, nothing is stored). -/
def literalStore (h : Host) (d : DecodeState) (item : List Byte) (v : FormData)
    (f : Option Field) : Decoded :=
  match f with
  | none => Decoded.next d v
  | some Field.Timestamp =>
    match h.UnmarshalJSON item v.Timestamp with
    | (t, some err) => Decoded.stop err { v with Timestamp := t }
    | (t, none) => Decoded.next d { v with Timestamp := t }
  | some f =>
    match item with
    | [] => Decoded.next (d.saveError "json: invalid use of ,string struct tag") v
    | c :: _ =>
      if c.val = 0x6E then Decoded.next d v
      else if c.val = 0x74 ∨ c.val = 0x66 then
        Decoded.next (d.saveError "json: cannot unmarshal bool into Go value of type string") v
      else if c.val = 0x22 then
        match unquoteBytes item with
        | none => Decoded.panic v
        | some s => Decoded.next d (setString v f s)
      else if c.val ≠ 0x2D ∧ (c.val < 0x30 ∨ c.val > 0x39) then Decoded.panic v
      else
        Decoded.next (d.saveError "json: cannot unmarshal number into Go value of type string") v

/-- Go `(*decodeState).value(v)` for a field of `FormData` (`f = none`: the
reflect value is invalid and the JSON value is passed over). -/
def fieldValue (h : Host) (d : DecodeState) (v : FormData) (f : Option Field) : Decoded :=
  if d.opcode = scanBeginArray ∨ d.opcode = scanBeginObject then
    match f with
    | some Field.Timestamp =>
      match d.skip with
      | none => Decoded.panic v
      | some (seen, d1) =>
        match h.UnmarshalJSON (d.last :: seen) v.Timestamp with
        | (t, some err) => Decoded.stop err { v with Timestamp := t }
        | (t, none) => Decoded.next d1.scanNext { v with Timestamp := t }
    | some _ =>
      let d0 := d.saveError
        (if d.opcode = scanBeginArray then "json: cannot unmarshal array into Go value of type string"
         else "json: cannot unmarshal object into Go value of type string")
      match d0.skip with
      | none => Decoded.panic v
      | some (_, d1) => Decoded.next d1.scanNext v
    | none =>
      match d.skip with
      | none => Decoded.panic v
      | some (_, d1) => Decoded.next d1.scanNext v
  else if d.opcode = scanBeginLiteral then
    literalStore h (d.rescanLiteral).2 (d.rescanLiteral).1 v f
  else Decoded.panic v

/-- Loop of Go `(*decodeState).object(v)` for the struct `FormData`; each turn
reads one member. -/
def objectLoop (h : Host) : Nat → DecodeState → FormData → Decoded
  | 0, _, v => Decoded.panic v
  | fuel + 1, d, v =>
    let d1 := d.scanWhile scanSkipSpace
    if d1.opcode = scanEndObject then Decoded.next d1 v
    else if d1.opcode ≠ scanBeginLiteral then Decoded.panic v
    else
      let d2 := (d1.rescanLiteral).2
      match unquoteBytes (d1.rescanLiteral).1 with
      | none => Decoded.panic v
      | some key =>
        let f := lookupField h.foldRune key
        let d3 := if d2.opcode = scanSkipSpace then d2.scanWhile scanSkipSpace else d2
        if d3.opcode ≠ scanObjectKey then Decoded.panic v
        else
          match fieldValue h (d3.scanWhile scanSkipSpace) v f with
          | Decoded.next d4 v1 =>
            let d5 := if d4.opcode = scanSkipSpace then d4.scanWhile scanSkipSpace else d4
            if d5.opcode = scanEndObject then Decoded.next d5 v1
            else if d5.opcode ≠ scanObjectValue then Decoded.panic v1
            else objectLoop h fuel d5 v1
          | other => other

/-- Go `(*decodeState).value(rv)` at the top level, `rv` pointing to a
`FormData`. -/
def topValue (h : Host) (d : DecodeState) (v : FormData) : Decoded :=
  if d.opcode = scanBeginArray then
    match (d.saveError "json: cannot unmarshal array into Go value of type main.FormData").skip with
    | none => Decoded.panic v
    | some (_, d1) => Decoded.next d1.scanNext v
  else if d.opcode = scanBeginObject then
    match objectLoop h (d.rest.length + 1) d v with
    | Decoded.next d1 v1 => Decoded.next d1.scanNext v1
    | other => other
  else if d.opcode = scanBeginLiteral then
    let d1 := (d.rescanLiteral).2
    match (d.rescanLiteral).1 with
    | [] => Decoded.next (d1.saveError "json: invalid use of ,string struct tag") v
    | c :: _ =>
      if c.val = 0x6E then Decoded.next d1 v
      else if c.val = 0x74 ∨ c.val = 0x66 then
        Decoded.next
          (d1.saveError "json: cannot unmarshal bool into Go value of type main.FormData") v
      else if c.val = 0x22 then
        match unquoteBytes (d.rescanLiteral).1 with
        | none => Decoded.panic v
        | some _ =>
          Decoded.next
            (d1.saveError "json: cannot unmarshal string into Go value of type main.FormData") v
      else if c.val ≠ 0x2D ∧ (c.val < 0x30 ∨ c.val > 0x39) then Decoded.panic v
      else
        Decoded.next
          (d1.saveError "json: cannot unmarshal number into Go value of type main.FormData") v
  else Decoded.panic v

/-- Go `json.Unmarshal(data, &v)` for `v` a `FormData`: the value of `v` after
the call and the error returned; `none` where the Go code panics (which valid
JSON does not reach). -/
def Unmarshal (h : Host) (data : List Byte) (v : FormData) : Option (FormData × Option Error) :=
  match checkValid data with
  | some err => some (v, some err)
  | none =>
    let d : DecodeState :=
      { rest := data, last := 0, scan := Scanner.reset, opcode := 0, savedError := none }
    match topValue h (d.scanWhile scanSkipSpace) v with
    | Decoded.next d1 v1 => some (v1, d1.savedError)
    | Decoded.stop err v1 => some (v1, some err)
    | Decoded.panic _ => none

/-- The scanner run by `scanWhile(op)` over the bytes `p` when it stops exactly
at the last byte of `p`: that byte, the scanner after it and its opcode. -/
def scanWhilePrefix (op : Nat) : List Byte → Scanner → Option (Byte × Scanner × Nat)
  | [], _ => none
  | c :: t, s =>
    if (s.run c).2 ≠ op then
      (if t = [] then some (c, (s.run c).1, (s.run c).2) else none)
    else scanWhilePrefix op t (s.run c).1

/-- The bytes of the indented text of a snapshot after the opening brace: the
five members and the closing brace, the literals of the four strings and the
text of the time left open. -/
def docMembers (b1 b2 b3 b4 tb : List Byte) : List Byte :=
  [0x0A, 0x20, 0x20, 0x22] ++ (lit "name" ++ 0x22 :: 0x3A ::
    ([0x20, 0x22] ++ (b1 ++ 0x22 :: 0x2C ::
  ([0x0A, 0x20, 0x20, 0x22] ++ (lit "email" ++ 0x22 :: 0x3A ::
    ([0x20, 0x22] ++ (b2 ++ 0x22 :: 0x2C ::
  ([0x0A, 0x20, 0x20, 0x22] ++ (lit "phone" ++ 0x22 :: 0x3A ::
    ([0x20, 0x22] ++ (b3 ++ 0x22 :: 0x2C ::
  ([0x0A, 0x20, 0x20, 0x22] ++ (lit "message" ++ 0x22 :: 0x3A ::
    ([0x20, 0x22] ++ (b4 ++ 0x22 :: 0x2C ::
  ([0x0A, 0x20, 0x20, 0x22] ++ (lit "timestamp" ++ 0x22 :: 0x3A ::
    ([0x20, 0x22] ++ (tb ++ 0x22 :: 0x0A :: [0x7D])))))))))))))))))))

/-- A host for examples: `foldRune` is the identity and `UnmarshalJSON` accepts
every text and leaves the time as it is. -/
def sampleHost : Host :=
  { foldRune := fun r => r, UnmarshalJSON := fun _ t => (t, none) }

/-- A snapshot with a two-byte rune (`Zoë`), characters that `appendString`
escapes (`<`, `&`, `>`, the quote, the backslash, the line feed) and plain
text, read at `sampleTime`. -/
def sampleSnapshot : FormData :=
  { Name := [0x5A, 0x6F, 0xC3, 0xAB], Email := lit "zoe@example.com", Phone := lit "<+1&2>"
    Message := lit "say \"hi\"\\\n", Timestamp := sampleTime }

/-! # Properties -/

/-! ## The change detector -/

theorem hasChanged_eq_true_iff (a b : FormData) :
    hasChanged a b = true ↔ fieldDiffers a b := by
  simp [hasChanged, fieldDiffers, or_assoc]

theorem hasChanged_eq_false_iff (a b : FormData) :
    hasChanged a b = false ↔ sameFields a b := by
  simp [hasChanged, sameFields, and_assoc]

theorem fieldDiffers_iff_not_sameFields (a b : FormData) :
    fieldDiffers a b ↔ ¬ sameFields a b := by
  unfold fieldDiffers sameFields
  constructor
  · rintro (h | h | h | h) ⟨h1, h2, h3, h4⟩ <;> contradiction
  · intro h
    by_contra hc
    simp only [not_or, not_not] at hc
    exact h hc

theorem sameFields_refl (a : FormData) : sameFields a a := ⟨rfl, rfl, rfl, rfl⟩

theorem sameFields_symm {a b : FormData} (h : sameFields a b) : sameFields b a :=
  ⟨h.1.symm, h.2.1.symm, h.2.2.1.symm, h.2.2.2.symm⟩

theorem sameFields_trans {a b c : FormData} (h : sameFields a b) (k : sameFields b c) :
    sameFields a c :=
  ⟨h.1.trans k.1, h.2.1.trans k.2.1, h.2.2.1.trans k.2.2.1, h.2.2.2.trans k.2.2.2⟩

/-- The detector only looks at the four tracked fields of its first argument. -/
theorem hasChanged_congr_left {a b : FormData} (h : sameFields a b) (c : FormData) :
    hasChanged a c = hasChanged b c := by
  obtain ⟨h1, h2, h3, h4⟩ := h
  simp [hasChanged, h1, h2, h3, h4]

/-! ## The reader -/

theorem collectFormData_cases (now : Time) (page : Page) :
    (∃ e, collectFormData now page = (none, some e)) ∨
    (∃ c, collectFormData now page = (some c, none)) := by
  simp only [collectFormData]
  split
  · rename_i err _; exact Or.inl ⟨err, rfl⟩
  · exact Or.inr ⟨_, rfl⟩

theorem collectFormData_ok (now : Time) (page : Page) (n e p m : GoString)
    (hn : page (lit "input[name=\"name\"]") = Except.ok n)
    (he : page (lit "input[name=\"email\"]") = Except.ok e)
    (hp : page (lit "input[name=\"phone\"]") = Except.ok p)
    (hm : page (lit "textarea[name=\"message\"]") = Except.ok m) :
    collectFormData now page =
      (some { Name := n, Email := e, Phone := p, Message := m, Timestamp := now }, none) := by
  simp [collectFormData, Run, Value, hn, he, hp, hm, FormData.zero]

theorem collectFormData_error (now : Time) (page : Page)
    (h : (∃ e, page (lit "input[name=\"name\"]") = Except.error e) ∨
         (∃ e, page (lit "input[name=\"email\"]") = Except.error e) ∨
         (∃ e, page (lit "input[name=\"phone\"]") = Except.error e) ∨
         (∃ e, page (lit "textarea[name=\"message\"]") = Except.error e)) :
    ∃ err, collectFormData now page = (none, some err) := by
  have key : ∀ r : Except Error GoString, (∃ e, r = Except.error e) ∨ (∃ v, r = Except.ok v) := by
    intro r; cases r
    · exact Or.inl ⟨_, rfl⟩
    · exact Or.inr ⟨_, rfl⟩
  rcases key (page (lit "input[name=\"name\"]")) with ⟨e1, h1⟩ | ⟨v1, h1⟩
  · exact ⟨e1, by simp [collectFormData, Run, Value, h1]⟩
  rcases key (page (lit "input[name=\"email\"]")) with ⟨e2, h2⟩ | ⟨v2, h2⟩
  · exact ⟨e2, by simp [collectFormData, Run, Value, h1, h2]⟩
  rcases key (page (lit "input[name=\"phone\"]")) with ⟨e3, h3⟩ | ⟨v3, h3⟩
  · exact ⟨e3, by simp [collectFormData, Run, Value, h1, h2, h3]⟩
  rcases key (page (lit "textarea[name=\"message\"]")) with ⟨e4, h4⟩ | ⟨v4, h4⟩
  · exact ⟨e4, by simp [collectFormData, Run, Value, h1, h2, h3, h4]⟩
  · rcases h with ⟨e, h⟩ | ⟨e, h⟩ | ⟨e, h⟩ | ⟨e, h⟩
    · rw [h1] at h; cases h
    · rw [h2] at h; cases h
    · rw [h3] at h; cases h
    · rw [h4] at h; cases h

theorem readOf_of_read {env : TickEnv} {c : FormData}
    (h : collectFormData env.now env.page = (some c, none)) : readOf env = some c := by
  simp only [readOf, h]

theorem readOf_of_error {env : TickEnv} {e : Error}
    (h : collectFormData env.now env.page = (none, some e)) : readOf env = none := by
  simp only [readOf, h]

/-! ## One poll tick -/

theorem tick_of_error (s : Monitor) (env : TickEnv) (e : Error) (o : Option FormData)
    (h : collectFormData env.now env.page = (o, some e)) : tick s env = s := by
  simp only [tick, h]

theorem tick_of_read (s : Monitor) (env : TickEnv) (c : FormData)
    (h : collectFormData env.now env.page = (some c, none)) :
    tick s env =
      if hasChanged s.previousData c then
        { previousData := c
          saved := s.saved ++ [{ data := c, filename := lit "form_data.json" }]
          disk := s.disk ++ (saveToJSON c (lit "form_data.json") env.WriteFile).1 }
      else s := by
  simp only [tick, h]

theorem saveToJSON_calls_le_one (d : FormData) (f : GoString)
    (w : GoString → List Byte → Nat → Option Error) : (saveToJSON d f w).1.length ≤ 1 := by
  unfold saveToJSON
  split <;> simp

theorem monitorLoop_ticks_append (s : Monitor) (xs ys : List TickEnv) :
    monitorLoop s ((xs ++ ys).map Event.tick) =
      monitorLoop (monitorLoop s (xs.map Event.tick)) (ys.map Event.tick) := by
  induction xs generalizing s with
  | nil => rfl
  | cons x xs ih => simp only [List.cons_append, List.map_cons, monitorLoop]; exact ih _

/-- A state whose previous snapshot already agrees with every read stays as it is. -/
theorem monitorLoop_of_sameFields (v : FormData) (envs : List TickEnv)
    (h : ∀ env ∈ envs, ∀ c, readOf env = some c → sameFields c v)
    (s : Monitor) (hs : sameFields s.previousData v) :
    monitorLoop s (envs.map Event.tick) = s := by
  induction envs with
  | nil => rfl
  | cons env rest ih =>
    simp only [List.map_cons, monitorLoop]
    have hrest : ∀ env ∈ rest, ∀ c, readOf env = some c → sameFields c v :=
      fun e he => h e (List.mem_cons_of_mem _ he)
    rcases collectFormData_cases env.now env.page with ⟨e, he⟩ | ⟨c, hc⟩
    · rw [tick_of_error s env e none he]; exact ih hrest
    · have hcv : sameFields c v := h env (List.mem_cons_self _ _) c (readOf_of_read hc)
      have hno : hasChanged s.previousData c = false :=
        (hasChanged_eq_false_iff _ _).2 (sameFields_trans hs (sameFields_symm hcv))
      rw [tick_of_read s env c hc, hno]
      simpa using ih hrest

theorem monitorLoop_identical_le (v : FormData) (envs : List TickEnv)
    (h : ∀ env ∈ envs, ∀ c, readOf env = some c → sameFields c v) (s : Monitor) :
    (monitorLoop s (envs.map Event.tick)).saved.length ≤ s.saved.length + 1 ∧
    (monitorLoop s (envs.map Event.tick)).disk.length ≤ s.disk.length + 1 := by
  induction envs with
  | nil => simp [monitorLoop]
  | cons env rest ih =>
    simp only [List.map_cons, monitorLoop]
    have hrest : ∀ env ∈ rest, ∀ c, readOf env = some c → sameFields c v :=
      fun e he => h e (List.mem_cons_of_mem _ he)
    rcases collectFormData_cases env.now env.page with ⟨e, he⟩ | ⟨c, hc⟩
    · rw [tick_of_error s env e none he]; exact ih hrest
    · have hcv : sameFields c v := h env (List.mem_cons_self _ _) c (readOf_of_read hc)
      rw [tick_of_read s env c hc]
      by_cases hch : hasChanged s.previousData c = true
      · rw [if_pos hch, monitorLoop_of_sameFields v rest hrest _ hcv]
        have := saveToJSON_calls_le_one c (lit "form_data.json") env.WriteFile
        simp only [List.length_append, List.length_singleton]
        omega
      · rw [if_neg hch]; exact ih hrest


theorem changedReads_congr {p q : FormData} (h : sameFields p q) (l : List FormData) :
    changedReads p l = changedReads q l := by
  cases l with
  | nil => rfl
  | cons c rest =>
    have : fieldDiffers p c ↔ fieldDiffers q c := by
      rw [← hasChanged_eq_true_iff, ← hasChanged_eq_true_iff, hasChanged_congr_left h]
    simp only [changedReads, this]

theorem monitorLoop_saved (envs : List TickEnv) (s : Monitor) :
    (monitorLoop s (envs.map Event.tick)).saved.map SaveCall.data =
      s.saved.map SaveCall.data ++ changedReads s.previousData (successfulReads envs) := by
  induction envs generalizing s with
  | nil => simp [monitorLoop, successfulReads, changedReads]
  | cons env rest ih =>
    simp only [List.map_cons, monitorLoop]
    rcases collectFormData_cases env.now env.page with ⟨e, he⟩ | ⟨c, hc⟩
    · rw [tick_of_error s env e none he, ih]
      simp [successfulReads, List.filterMap_cons, readOf_of_error he]
    · rw [tick_of_read s env c hc]
      have hr : successfulReads (env :: rest) = c :: successfulReads rest := by
        simp [successfulReads, List.filterMap_cons, readOf_of_read hc]
      rw [hr]
      by_cases hch : hasChanged s.previousData c = true
      · have hd : fieldDiffers s.previousData c := (hasChanged_eq_true_iff _ _).1 hch
        rw [if_pos hch, ih]
        simp [changedReads, hd]
      · have hd : ¬ fieldDiffers s.previousData c := fun k => hch ((hasChanged_eq_true_iff _ _).2 k)
        have hs : sameFields s.previousData c := by
          by_contra hn; exact hd ((fieldDiffers_iff_not_sameFields _ _).2 hn)
        rw [if_neg hch, ih]
        simp only [changedReads, hd, if_false]
        rw [changedReads_congr hs]

theorem tick_lastSaved (s : Monitor) (env : TickEnv) (h : LastSavedIsPrevious s) :
    LastSavedIsPrevious (tick s env) := by
  rcases collectFormData_cases env.now env.page with ⟨e, he⟩ | ⟨c, hc⟩
  · rw [tick_of_error s env e none he]; exact h
  · rw [tick_of_read s env c hc]
    split
    · intro w hw
      simp at hw
      rw [← hw]
    · exact h

theorem monitorLoop_lastSaved (envs : List TickEnv) (s : Monitor) (h : LastSavedIsPrevious s) :
    LastSavedIsPrevious (monitorLoop s (envs.map Event.tick)) := by
  induction envs generalizing s with
  | nil => exact h
  | cons env rest ih =>
    simp only [List.map_cons, monitorLoop]
    exact ih _ (tick_lastSaved s env h)

theorem tick_previous_sameFields (s : Monitor) (env : TickEnv) (c : FormData)
    (hc : collectFormData env.now env.page = (some c, none)) :
    sameFields (tick s env).previousData c := by
  rw [tick_of_read s env c hc]
  split
  · exact sameFields_refl c
  · rename_i hn
    have : hasChanged s.previousData c = false := by simpa using hn
    exact (hasChanged_eq_false_iff _ _).1 this

theorem convertField_apply (m field : GoMap) (n : GoString) :
    convertField m field n =
      if isNamed n field then some (field.index (lit "value")) else m n := by
  unfold convertField isNamed
  generalize field.index (lit "name") = x
  generalize field.index (lit "value") = y
  cases x with
  | string s =>
    by_cases hs : s = []
    · simp [hs]
    · by_cases hn : n = s
      · simp [hs, hn, GoMap.assign]
      · have hn2 : ¬ s = n := fun h => hn h.symm
        simp [hs, hn, hn2, GoMap.assign]
  | _ => simp

/-- The value the map built from `result` holds under `n`. -/
theorem foldl_convertField_apply (result : List GoMap) (m : GoMap) (n : GoString) :
    (result.foldl convertField m) n =
      match (result.filter (isNamed n)).getLast? with
      | some field => some (field.index (lit "value"))
      | none => m n := by
  induction result using List.reverseRecOn with
  | nil => simp
  | append_singleton l field ih =>
    rw [List.foldl_append, List.filter_append]
    simp only [List.foldl_cons, List.foldl_nil]
    rw [convertField_apply]
    by_cases hn : isNamed n field = true
    · have hf : List.filter (isNamed n) [field] = [field] := by simp [List.filter, hn]
      rw [hf]
      simp [hn]
    · have hf : List.filter (isNamed n) [field] = [] := by simp [List.filter, hn]
      rw [hf, List.append_nil, ← ih]
      simp [hn]

theorem convertField_of_not_hasName (m field : GoMap) (h : hasName field = false) :
    convertField m field = m := by
  unfold convertField
  unfold hasName at h
  revert h
  generalize field.index (lit "name") = x
  generalize field.index (lit "value") = y
  cases x with
  | string s => intro h; simp at h; simp [h]
  | _ => intro _; rfl

theorem foldl_convertField_filter (result : List GoMap) (m : GoMap) :
    result.foldl convertField m = (result.filter hasName).foldl convertField m := by
  induction result generalizing m with
  | nil => rfl
  | cons field rest ih =>
    by_cases h : hasName field = true
    · simp only [List.foldl_cons, List.filter_cons, h, if_true]; exact ih _
    · have h2 : hasName field = false := by simpa using h
      simp only [List.foldl_cons, List.filter_cons, h2]
      rw [convertField_of_not_hasName _ _ h2]
      simpa using ih m


/-! ## The claims on the detector and the loop -/

/-- C1: `hasChanged a b` is true exactly when at least one of `Name`, `Email`,
`Phone`, `Message` differs between `a` and `b`; in particular changing any
single one of the four fields makes it true. -/
theorem hasChanged_iff_some_field_differs (a b : FormData) :
    (hasChanged a b = true ↔
      (a.Name ≠ b.Name ∨ a.Email ≠ b.Email ∨ a.Phone ≠ b.Phone ∨ a.Message ≠ b.Message)) ∧
    (∀ s : GoString, s ≠ a.Name → hasChanged a { a with Name := s } = true) ∧
    (∀ s : GoString, s ≠ a.Email → hasChanged a { a with Email := s } = true) ∧
    (∀ s : GoString, s ≠ a.Phone → hasChanged a { a with Phone := s } = true) ∧
    (∀ s : GoString, s ≠ a.Message → hasChanged a { a with Message := s } = true) := by
  refine ⟨hasChanged_eq_true_iff a b, ?_, ?_, ?_, ?_⟩ <;>
    · intro s hs
      simp [hasChanged, Ne.symm hs]

/-- C2: replacing the timestamps of the two arguments by any other times never
changes the result of `hasChanged`, and for snapshots equal in the four tracked
fields the result is false whatever the timestamps are. -/
theorem hasChanged_ignores_timestamp (a b : FormData) (t u : Time) :
    hasChanged { a with Timestamp := t } { b with Timestamp := u } = hasChanged a b ∧
    ((a.Name = b.Name ∧ a.Email = b.Email ∧ a.Phone = b.Phone ∧ a.Message = b.Message) →
      hasChanged { a with Timestamp := t } { b with Timestamp := u } = false) := by
  refine ⟨rfl, ?_⟩
  rintro ⟨hN, hE, hP, hM⟩
  simp [hasChanged, hN, hE, hP, hM]

/-- C4: when every poll tick of a run from the start reads a snapshot with the
same four field values as `v` (whatever the timestamps), `saveToJSON` is called
at most once over the run, and so `os.WriteFile` is called at most once. -/
theorem identical_reads_saved_at_most_once (v : FormData) (envs : List TickEnv)
    (h : ∀ env ∈ envs, ∃ c, collectFormData env.now env.page = (some c, none) ∧
      c.Name = v.Name ∧ c.Email = v.Email ∧ c.Phone = v.Phone ∧ c.Message = v.Message) :
    (monitorFormInput (envs.map Event.tick)).saved.length ≤ 1 ∧
    (monitorFormInput (envs.map Event.tick)).disk.length ≤ 1 := by
  have h2 : ∀ env ∈ envs, ∀ c, readOf env = some c → sameFields c v := by
    intro env henv c hc
    obtain ⟨c1, hc1, hf⟩ := h env henv
    rw [readOf_of_read hc1] at hc
    cases hc
    exact hf
  simpa [monitorFormInput] using
    monitorLoop_identical_le v envs h2 { previousData := FormData.zero, saved := [], disk := [] }

theorem identical_reads_saved_at_most_once_witness :
    (monitorFormInput
        ([envWithName (lit "A"), envWithName (lit "A"), envWithName (lit "A")].map
          Event.tick)).saved.length ≤ 1 ∧
    (monitorFormInput
        ([envWithName (lit "A"), envWithName (lit "A"), envWithName (lit "A")].map
          Event.tick)).disk.length ≤ 1 :=
  identical_reads_saved_at_most_once { FormData.zero with Name := lit "A" }
    [envWithName (lit "A"), envWithName (lit "A"), envWithName (lit "A")]
    (by
      intro env henv
      simp only [List.mem_cons, List.mem_singleton, List.not_mem_nil, or_false, or_self] at henv
      subst henv
      exact ⟨{ FormData.zero with Name := lit "A", Timestamp := sampleTime }, by decide, rfl, rfl, rfl, rfl⟩)

/-- C6: a poll tick on which `collectFormData` returns an error returns a nil
snapshot, leaves the whole loop state as it was (no call of `saveToJSON`, no
write, the previous snapshot untouched), and the loop goes on with the next
event; and `collectFormData` returns `(nil, err)` whenever one of the four
reads of the page fails. -/
theorem failed_read_tick_is_skipped (s : Monitor) (env : TickEnv) (rest : List Event)
    (e : Error) (h : (collectFormData env.now env.page).2 = some e) :
    (collectFormData env.now env.page).1 = none ∧
    tick s env = s ∧
    monitorLoop s (Event.tick env :: rest) = monitorLoop s rest ∧
    (∀ (now : Time) (page : Page),
      ((∃ e, page (lit "input[name=\"name\"]") = Except.error e) ∨
       (∃ e, page (lit "input[name=\"email\"]") = Except.error e) ∨
       (∃ e, page (lit "input[name=\"phone\"]") = Except.error e) ∨
       (∃ e, page (lit "textarea[name=\"message\"]") = Except.error e)) →
      ∃ err, collectFormData now page = (none, some err)) := by
  have hcase : collectFormData env.now env.page = (none, some e) := by
    rcases collectFormData_cases env.now env.page with ⟨e1, he⟩ | ⟨c, hc⟩
    · rw [he] at h ⊢; cases h; rfl
    · rw [hc] at h; cases h
  have ht : tick s env = s := tick_of_error s env e none hcase
  refine ⟨by rw [hcase], ht, ?_, fun now page hp => collectFormData_error now page hp⟩
  simp only [monitorLoop, ht]

theorem failed_read_tick_is_skipped_witness :
    (collectFormData envFailing.now envFailing.page).1 = none ∧
    tick (monitorFormInput [Event.tick (envWithName (lit "A"))]) envFailing =
      monitorFormInput [Event.tick (envWithName (lit "A"))] ∧
    monitorLoop (monitorFormInput [Event.tick (envWithName (lit "A"))])
        (Event.tick envFailing :: [Event.tick (envWithName (lit "B"))]) =
      monitorLoop (monitorFormInput [Event.tick (envWithName (lit "A"))])
        [Event.tick (envWithName (lit "B"))] ∧
    (∀ (now : Time) (page : Page),
      ((∃ e, page (lit "input[name=\"name\"]") = Except.error e) ∨
       (∃ e, page (lit "input[name=\"email\"]") = Except.error e) ∨
       (∃ e, page (lit "input[name=\"phone\"]") = Except.error e) ∨
       (∃ e, page (lit "textarea[name=\"message\"]") = Except.error e)) →
      ∃ err, collectFormData now page = (none, some err)) :=
  failed_read_tick_is_skipped (monitorFormInput [Event.tick (envWithName (lit "A"))]) envFailing
    [Event.tick (envWithName (lit "B"))] "context canceled" (by decide)

/-- C8: on a poll tick with a successful read `c`: if a tracked field of `c`
differs from the previous snapshot, the previous snapshot becomes `c` itself
(timestamp included) and exactly one call `saveToJSON(c, "form_data.json")` is
added, with the write it makes; if no tracked field differs, the state,
previous snapshot and its timestamp included, is unchanged and nothing is
written. -/
theorem tick_frame (s : Monitor) (env : TickEnv) (c : FormData)
    (h : collectFormData env.now env.page = (some c, none)) :
    ((s.previousData.Name ≠ c.Name ∨ s.previousData.Email ≠ c.Email ∨
        s.previousData.Phone ≠ c.Phone ∨ s.previousData.Message ≠ c.Message) →
      (tick s env).previousData = c ∧
      (tick s env).saved = s.saved ++ [{ data := c, filename := lit "form_data.json" }] ∧
      (tick s env).disk = s.disk ++ (saveToJSON c (lit "form_data.json") env.WriteFile).1 ∧
      (saveToJSON c (lit "form_data.json") env.WriteFile).1.length ≤ 1) ∧
    ((s.previousData.Name = c.Name ∧ s.previousData.Email = c.Email ∧
        s.previousData.Phone = c.Phone ∧ s.previousData.Message = c.Message) →
      tick s env = s) := by
  rw [tick_of_read s env c h]
  constructor
  · intro hd
    rw [if_pos ((hasChanged_eq_true_iff _ _).2 hd)]
    exact ⟨rfl, rfl, rfl, saveToJSON_calls_le_one _ _ _⟩
  · intro hs
    have : hasChanged s.previousData c = false := (hasChanged_eq_false_iff _ _).2 hs
    simp [this]

theorem tick_frame_witness :
    ((FormData.zero.Name ≠ (snapshotNamed (lit "A")).Name ∨
        FormData.zero.Email ≠ (snapshotNamed (lit "A")).Email ∨
        FormData.zero.Phone ≠ (snapshotNamed (lit "A")).Phone ∨
        FormData.zero.Message ≠ (snapshotNamed (lit "A")).Message) →
      (tick (monitorFormInput []) (envWithName (lit "A"))).previousData = snapshotNamed (lit "A") ∧
      (tick (monitorFormInput []) (envWithName (lit "A"))).saved =
        (monitorFormInput []).saved ++
          [{ data := snapshotNamed (lit "A"), filename := lit "form_data.json" }] ∧
      (tick (monitorFormInput []) (envWithName (lit "A"))).disk =
        (monitorFormInput []).disk ++
          (saveToJSON (snapshotNamed (lit "A")) (lit "form_data.json")
            (envWithName (lit "A")).WriteFile).1 ∧
      (saveToJSON (snapshotNamed (lit "A")) (lit "form_data.json")
          (envWithName (lit "A")).WriteFile).1.length ≤ 1) ∧
    ((FormData.zero.Name = (snapshotNamed (lit "A")).Name ∧
        FormData.zero.Email = (snapshotNamed (lit "A")).Email ∧
        FormData.zero.Phone = (snapshotNamed (lit "A")).Phone ∧
        FormData.zero.Message = (snapshotNamed (lit "A")).Message) →
      tick (monitorFormInput []) (envWithName (lit "A")) = monitorFormInput []) :=
  tick_frame (monitorFormInput []) (envWithName (lit "A")) (snapshotNamed (lit "A")) (by decide)

/-- C9: for every finite sequence of poll ticks (successful reads and failed
ones) run from the start, the snapshots passed to `saveToJSON` are, in order,
the successful reads that differ in a tracked field from the successful read
before them (the zero snapshot before the first), whatever `saveToJSON`
returns; and after a tick with a successful read `c` the snapshot written
last, if there is one, agrees with `c` in the four fields. -/
theorem saved_are_the_changed_reads (envs : List TickEnv) :
    (monitorFormInput (envs.map Event.tick)).saved.map SaveCall.data =
        changedReads FormData.zero (successfulReads envs) ∧
    (∀ (env : TickEnv) (c : FormData),
        collectFormData env.now env.page = (some c, none) →
        ∀ w, (monitorFormInput ((envs ++ [env]).map Event.tick)).saved.getLast? = some w →
          w.data.Name = c.Name ∧ w.data.Email = c.Email ∧ w.data.Phone = c.Phone ∧
            w.data.Message = c.Message) := by
  refine ⟨?_, ?_⟩
  · simpa [monitorFormInput] using
      monitorLoop_saved envs { previousData := FormData.zero, saved := [], disk := [] }
  · intro env c hc w hw
    have hinv : LastSavedIsPrevious (monitorFormInput ((envs ++ [env]).map Event.tick)) :=
      monitorLoop_lastSaved _ _ (by intro w hw; simp at hw)
    rw [hinv w hw]
    simp only [monitorFormInput, monitorLoop_ticks_append, List.map_cons, List.map_nil, monitorLoop]
    exact tick_previous_sameFields _ env c hc


/-- C10: the map `collectFormDataDynamic` builds from the records of the page
script has a key `n` exactly when some record has a `"name"` that is the
non-empty string `n`; the value under `n` is the `"value"` of the last such
record; and the records whose name is missing, not a string or empty can be
removed without changing the map. -/
theorem dynamic_map_holds_last_named_values (result : List GoMap) :
    ∃ formData : GoMap,
      collectFormDataDynamic (Except.ok result) = (some formData, none) ∧
      (∀ n : GoString, (formData n).isSome ↔
        ∃ field ∈ result, field.index (lit "name") = Any.string n ∧ n ≠ []) ∧
      (∀ (n : GoString) (field : GoMap), (result.filter (isNamed n)).getLast? = some field →
        formData n = some (field.index (lit "value"))) ∧
      collectFormDataDynamic (Except.ok (result.filter hasName)) = (some formData, none) := by
  refine ⟨result.foldl convertField GoMap.make, rfl, ?_, ?_, ?_⟩
  · intro n
    rw [foldl_convertField_apply]
    constructor
    · intro h
      cases hl : (result.filter (isNamed n)).getLast? with
      | none => rw [hl] at h; simp [GoMap.make] at h
      | some field =>
        have hmem : field ∈ result.filter (isNamed n) := List.mem_of_getLast?_eq_some hl
        rw [List.mem_filter] at hmem
        refine ⟨field, hmem.1, ?_⟩
        have hn := hmem.2
        unfold isNamed at hn
        split at hn
        · rename_i s hs
          simp only [decide_eq_true_eq] at hn
          rw [hs, hn.1]
          exact ⟨rfl, hn.1 ▸ hn.2⟩
        · cases hn
    · rintro ⟨field, hmem, hname, hne⟩
      have hin : field ∈ result.filter (isNamed n) := by
        rw [List.mem_filter]
        refine ⟨hmem, ?_⟩
        unfold isNamed
        rw [hname]
        simp [hne]
      cases hl : (result.filter (isNamed n)).getLast? with
      | none =>
        rw [List.getLast?_eq_none_iff] at hl
        rw [hl] at hin
        cases hin
      | some f => simp
  · intro n field hl
    rw [foldl_convertField_apply, hl]
  · simp only [collectFormDataDynamic]
    rw [← foldl_convertField_filter]

/-! ## UTF-8 sequences -/

theorem shl_or (a b k : Nat) (hb : b < 2 ^ k) : (a <<< k) ||| b = a * 2 ^ k + b := by
  rw [Nat.shiftLeft_eq, Nat.mul_comm, ← Nat.mul_add_lt_is_or hb]

theorem and_mask (x k : Nat) : x &&& (2 ^ k - 1) = x % 2 ^ k := Nat.and_pow_two_sub_one_eq_mod x k

theorem and_3F (x : Nat) : x &&& 0x3F = x % 64 := and_mask x 6

theorem and_1F (x : Nat) : x &&& 0x1F = x % 32 := and_mask x 5

theorem and_0F (x : Nat) : x &&& 0x0F = x % 16 := and_mask x 4

theorem and_07 (x : Nat) : x &&& 0x07 = x % 8 := and_mask x 3

theorem and_01 (x : Nat) : x &&& 0x01 = x % 2 := and_mask x 1

theorem or_80 (y : Nat) (h : y < 64) : 0x80 ||| y = 0x80 + y := by
  have := shl_or 2 y 6 (by simpa using h)
  simpa [Nat.shiftLeft_eq] using this

theorem or_C0 (y : Nat) (h : y < 32) : 0xC0 ||| y = 0xC0 + y := by
  have := shl_or 6 y 5 (by simpa using h)
  simpa [Nat.shiftLeft_eq] using this

theorem or_E0 (y : Nat) (h : y < 16) : 0xE0 ||| y = 0xE0 + y := by
  have := shl_or 14 y 4 (by simpa using h)
  simpa [Nat.shiftLeft_eq] using this

theorem or_F0 (y : Nat) (h : y < 8) : 0xF0 ||| y = 0xF0 + y := by
  have := shl_or 30 y 3 (by simpa using h)
  simpa [Nat.shiftLeft_eq] using this

set_option maxRecDepth 100000 in

theorem first_cases : ∀ b : Byte, 0x80 ≤ b.val →
    first b.val = 0xF1 ∨
    (first b.val = 0x02 ∧ 0xC2 ≤ b.val ∧ b.val ≤ 0xDF) ∨
    (first b.val = 0x13 ∧ b.val = 0xE0) ∨
    (first b.val = 0x03 ∧ ((0xE1 ≤ b.val ∧ b.val ≤ 0xEC) ∨ b.val = 0xEE ∨ b.val = 0xEF)) ∨
    (first b.val = 0x23 ∧ b.val = 0xED) ∨
    (first b.val = 0x34 ∧ b.val = 0xF0) ∨
    (first b.val = 0x04 ∧ 0xF1 ≤ b.val ∧ b.val ≤ 0xF3) ∨
    (first b.val = 0x44 ∧ b.val = 0xF4) := by decide

theorem rune2_eq (s0 s1 : Byte) : rune2 s0 s1 = (s0.val % 32) * 64 + s1.val % 64 := by
  unfold rune2
  rw [and_1F, and_3F, shl_or _ _ 6 (by have := Nat.mod_lt s1.val (show 64 > 0 by decide); simpa using this)]
  rfl

theorem byte_eq (n : Nat) (b : Byte) (h : n = b.val) : byte n = b := by
  apply Fin.ext
  simp only [byte]
  have := b.isLt
  omega

theorem encode_rune2 (s0 s1 : Byte) (h0 : 0xC2 ≤ s0.val ∧ s0.val ≤ 0xDF)
    (h1 : 0x80 ≤ s1.val ∧ s1.val ≤ 0xBF) : EncodeRune (rune2 s0 s1) = [s0, s1] := by
  have hr := rune2_eq s0 s1
  have hlo : 0x80 ≤ rune2 s0 s1 := by omega
  have hhi : rune2 s0 s1 ≤ 0x7FF := by omega
  unfold EncodeRune
  rw [if_neg (by omega), if_pos hhi]
  simp only [byte, Nat.shiftRight_eq_div_pow, and_3F]
  congr 1
  · apply Fin.ext
    simp only
    rw [or_C0 _ (by omega)]
    omega
  · congr 1
    apply Fin.ext
    simp only
    rw [or_80 _ (by omega)]
    omega

theorem rune3_eq (s0 s1 s2 : Byte) :
    rune3 s0 s1 s2 = (s0.val % 16) * 4096 + (s1.val % 64) * 64 + s2.val % 64 := by
  unfold rune3
  rw [and_0F, and_3F, and_3F]
  have h1 : s1.val % 64 < 64 := Nat.mod_lt _ (by decide)
  have h2 : s2.val % 64 < 64 := Nat.mod_lt _ (by decide)
  have e1 : ((s1.val % 64) <<< 6) = (s1.val % 64) * 64 := by rw [Nat.shiftLeft_eq]
  rw [e1, shl_or _ _ 12 (by simp only [Nat.reducePow]; omega)]
  have e2 : s0.val % 16 * 2 ^ 12 + s1.val % 64 * 64 = (s0.val % 16 * 64 + s1.val % 64) <<< 6 := by
    rw [Nat.shiftLeft_eq]; simp only [Nat.reducePow]; omega
  rw [e2, shl_or _ _ 6 (by simpa using h2)]
  simp only [Nat.reducePow]; omega

theorem rune4_eq (s0 s1 s2 s3 : Byte) :
    rune4 s0 s1 s2 s3 =
      (s0.val % 8) * 262144 + (s1.val % 64) * 4096 + (s2.val % 64) * 64 + s3.val % 64 := by
  unfold rune4
  rw [and_07, and_3F, and_3F, and_3F]
  have h1 : s1.val % 64 < 64 := Nat.mod_lt _ (by decide)
  have h2 : s2.val % 64 < 64 := Nat.mod_lt _ (by decide)
  have h3 : s3.val % 64 < 64 := Nat.mod_lt _ (by decide)
  have e1 : ((s1.val % 64) <<< 12) = (s1.val % 64) * 4096 := by rw [Nat.shiftLeft_eq]
  have e0 : ((s2.val % 64) <<< 6) = (s2.val % 64) * 64 := by rw [Nat.shiftLeft_eq]
  rw [e1, e0, shl_or _ _ 18 (by simp only [Nat.reducePow]; omega)]
  have e2 : s0.val % 8 * 2 ^ 18 + s1.val % 64 * 4096
      = (s0.val % 8 * 64 + s1.val % 64) <<< 12 := by
    rw [Nat.shiftLeft_eq]; simp only [Nat.reducePow]; omega
  rw [e2, shl_or _ _ 12 (by simp only [Nat.reducePow]; omega)]
  have e3 : (s0.val % 8 * 64 + s1.val % 64) * 2 ^ 12 + s2.val % 64 * 64
      = ((s0.val % 8 * 64 + s1.val % 64) * 64 + s2.val % 64) <<< 6 := by
    rw [Nat.shiftLeft_eq]; simp only [Nat.reducePow]; omega
  rw [e3, shl_or _ _ 6 (by simpa using h3)]
  simp only [Nat.reducePow]; omega

theorem encode_rune3 (s0 s1 s2 : Byte) (h0 : 0xE0 ≤ s0.val ∧ s0.val ≤ 0xEF)
    (h1 : 0x80 ≤ s1.val ∧ s1.val ≤ 0xBF) (h2 : 0x80 ≤ s2.val ∧ s2.val ≤ 0xBF)
    (hE0 : s0.val = 0xE0 → 0xA0 ≤ s1.val) (hED : s0.val = 0xED → s1.val ≤ 0x9F) :
    EncodeRune (rune3 s0 s1 s2) = [s0, s1, s2] := by
  have hr := rune3_eq s0 s1 s2
  have hlo : 0x800 ≤ rune3 s0 s1 s2 := by
    by_cases h : s0.val = 0xE0
    · have := hE0 h; omega
    · omega
  have hhi : rune3 s0 s1 s2 ≤ 0xFFFF := by omega
  have hsur : ¬ (rune3 s0 s1 s2 > 0x10FFFF ∨ (0xD800 ≤ rune3 s0 s1 s2 ∧ rune3 s0 s1 s2 ≤ 0xDFFF)) := by
    by_cases h : s0.val = 0xED
    · have := hED h; omega
    · omega
  unfold EncodeRune
  rw [if_neg (by omega), if_neg (by omega)]
  simp only [if_neg hsur, if_pos hhi]
  simp only [byte, Nat.shiftRight_eq_div_pow, and_3F]
  congr 1
  · apply Fin.ext
    simp only
    rw [or_E0 _ (by omega)]
    omega
  · congr 1
    · apply Fin.ext
      simp only
      rw [or_80 _ (by omega)]
      omega
    · congr 1
      apply Fin.ext
      simp only
      rw [or_80 _ (by omega)]
      omega

theorem encode_rune4 (s0 s1 s2 s3 : Byte) (h0 : 0xF0 ≤ s0.val ∧ s0.val ≤ 0xF4)
    (h1 : 0x80 ≤ s1.val ∧ s1.val ≤ 0xBF) (h2 : 0x80 ≤ s2.val ∧ s2.val ≤ 0xBF)
    (h3 : 0x80 ≤ s3.val ∧ s3.val ≤ 0xBF)
    (hF0 : s0.val = 0xF0 → 0x90 ≤ s1.val) (hF4 : s0.val = 0xF4 → s1.val ≤ 0x8F) :
    EncodeRune (rune4 s0 s1 s2 s3) = [s0, s1, s2, s3] := by
  have hr := rune4_eq s0 s1 s2 s3
  have hlo : 0x10000 ≤ rune4 s0 s1 s2 s3 := by
    by_cases h : s0.val = 0xF0
    · have := hF0 h; omega
    · omega
  have hhi : rune4 s0 s1 s2 s3 ≤ 0x10FFFF := by
    by_cases h : s0.val = 0xF4
    · have := hF4 h; omega
    · omega
  have hsur : ¬ (rune4 s0 s1 s2 s3 > 0x10FFFF ∨
      (0xD800 ≤ rune4 s0 s1 s2 s3 ∧ rune4 s0 s1 s2 s3 ≤ 0xDFFF)) := by omega
  unfold EncodeRune
  rw [if_neg (by omega), if_neg (by omega)]
  simp only [if_neg hsur]
  rw [if_neg (by omega)]
  simp only [byte, Nat.shiftRight_eq_div_pow, and_3F]
  congr 1
  · apply Fin.ext
    simp only
    rw [or_F0 _ (by omega)]
    omega
  · congr 1
    · apply Fin.ext
      simp only
      rw [or_80 _ (by omega)]
      omega
    · congr 1
      · apply Fin.ext
        simp only
        rw [or_80 _ (by omega)]
        omega
      · congr 1
        apply Fin.ext
        simp only
        rw [or_80 _ (by omega)]
        omega

theorem and7_02 : (0x02 &&& 7 : Nat) = 2 := by decide

theorem and7_13 : (0x13 &&& 7 : Nat) = 3 := by decide

theorem and7_03 : (0x03 &&& 7 : Nat) = 3 := by decide

theorem and7_23 : (0x23 &&& 7 : Nat) = 3 := by decide

theorem and7_34 : (0x34 &&& 7 : Nat) = 4 := by decide

theorem and7_04 : (0x04 &&& 7 : Nat) = 4 := by decide

theorem and7_44 : (0x44 &&& 7 : Nat) = 4 := by decide

theorem and1_F1 : (0xF1 &&& 1 : Nat) = 1 := by decide

set_option maxRecDepth 100000 in

theorem first_of_lead : ∀ b : Byte,
    (0xC2 ≤ b.val ∧ b.val ≤ 0xDF → first b.val = 0x02) ∧
    (b.val = 0xE0 → first b.val = 0x13) ∧
    (0xE1 ≤ b.val ∧ b.val ≤ 0xEF ∧ b.val ≠ 0xED → first b.val = 0x03) ∧
    (b.val = 0xED → first b.val = 0x23) ∧
    (b.val = 0xF0 → first b.val = 0x34) ∧
    (0xF1 ≤ b.val ∧ b.val ≤ 0xF3 → first b.val = 0x04) ∧
    (b.val = 0xF4 → first b.val = 0x44) := by decide

theorem decode_of_seq2 (s0 s1 : Byte) (h : Seq2 s0 s1) (u : List Byte) :
    DecodeRuneInString (s0 :: s1 :: u) = (rune2 s0 s1, 2) := by
  obtain ⟨h0, h1⟩ := h
  have hx := (first_of_lead s0).1 h0
  simp only [DecodeRuneInString, hx, and7_02, acceptRanges, rune2]
  simp
  rw [if_neg (by omega), if_neg (by omega)]

theorem decode_of_seq3 (s0 s1 s2 : Byte) (h : Seq3 s0 s1 s2) (u : List Byte) :
    DecodeRuneInString (s0 :: s1 :: s2 :: u) = (rune3 s0 s1 s2, 3) := by
  obtain ⟨h0, h1, h2, hE0, hED⟩ := h
  by_cases a : s0.val = 0xE0
  · have hx := (first_of_lead s0).2.1 a
    have := hE0 a
    simp only [DecodeRuneInString, hx, and7_13, acceptRanges, rune3]
    simp
    rw [if_neg (by omega), if_neg (by omega), if_neg (by omega)]
  · by_cases b : s0.val = 0xED
    · have hx := (first_of_lead s0).2.2.2.1 b
      have := hED b
      simp only [DecodeRuneInString, hx, and7_23, acceptRanges, rune3]
      simp
      rw [if_neg (by omega), if_neg (by omega), if_neg (by omega)]
    · have hx := (first_of_lead s0).2.2.1 ⟨by omega, by omega, b⟩
      simp only [DecodeRuneInString, hx, and7_03, acceptRanges, rune3]
      simp
      rw [if_neg (by omega), if_neg (by omega), if_neg (by omega)]

theorem decode_of_seq4 (s0 s1 s2 s3 : Byte) (h : Seq4 s0 s1 s2 s3) (u : List Byte) :
    DecodeRuneInString (s0 :: s1 :: s2 :: s3 :: u) = (rune4 s0 s1 s2 s3, 4) := by
  obtain ⟨h0, h1, h2, h3, hF0, hF4⟩ := h
  by_cases a : s0.val = 0xF0
  · have hx := (first_of_lead s0).2.2.2.2.1 a
    have := hF0 a
    simp only [DecodeRuneInString, hx, and7_34, acceptRanges, rune4]
    simp
    rw [if_neg (by omega), if_neg (by omega), if_neg (by omega), if_neg (by omega)]
  · by_cases b : s0.val = 0xF4
    · have hx := (first_of_lead s0).2.2.2.2.2.2 b
      have := hF4 b
      simp only [DecodeRuneInString, hx, and7_44, acceptRanges, rune4]
      simp
      rw [if_neg (by omega), if_neg (by omega), if_neg (by omega), if_neg (by omega)]
    · have hx := (first_of_lead s0).2.2.2.2.2.1 ⟨by omega, by omega⟩
      simp only [DecodeRuneInString, hx, and7_04, acceptRanges, rune4]
      simp
      rw [if_neg (by omega), if_neg (by omega), if_neg (by omega), if_neg (by omega)]

/-- A decode of a non-ASCII lead byte that is not an error consumed a
well-formed sequence of two, three or four bytes. -/
theorem decode_multibyte (s0 : Byte) (t : List Byte) (h0 : 0x80 ≤ s0.val)
    (hv : ¬ ((DecodeRuneInString (s0 :: t)).1 = RuneError ∧
      (DecodeRuneInString (s0 :: t)).2 = 1)) :
    (∃ s1 t1, t = s1 :: t1 ∧ Seq2 s0 s1) ∨
    (∃ s1 s2 t2, t = s1 :: s2 :: t2 ∧ Seq3 s0 s1 s2) ∨
    (∃ s1 s2 s3 t3, t = s1 :: s2 :: s3 :: t3 ∧ Seq4 s0 s1 s2 s3) := by
  rcases first_cases s0 h0 with hx | ⟨hx, hb⟩ | ⟨hx, hb⟩ | ⟨hx, hb⟩ | ⟨hx, hb⟩ |
    ⟨hx, hb⟩ | ⟨hx, hb⟩ | ⟨hx, hb⟩
  · exfalso; apply hv
    simp [DecodeRuneInString, hx, and1_F1]
  · left
    cases t with
    | nil => exfalso; apply hv; simp [DecodeRuneInString, hx, and7_02]
    | cons s1 t1 =>
      refine ⟨s1, t1, rfl, hb, ?_⟩
      by_contra hc
      have hs1 : s1.val < 0x80 ∨ 0xBF < s1.val := by omega
      apply hv
      simp [DecodeRuneInString, hx, and7_02, acceptRanges, hs1]
  · right; left
    cases t with
    | nil => exfalso; apply hv; simp [DecodeRuneInString, hx, and7_13]
    | cons s1 t1 =>
      by_cases hs1 : s1.val < 0xA0 ∨ 0xBF < s1.val
      · exfalso; apply hv
        simp [DecodeRuneInString, hx, and7_13, acceptRanges, hs1]
      cases t1 with
      | nil => exfalso; apply hv; simp [DecodeRuneInString, hx, and7_13]
      | cons s2 t2 =>
        by_cases hs2 : s2.val < 0x80 ∨ 0xBF < s2.val
        · exfalso; apply hv
          simp [DecodeRuneInString, hx, and7_13, acceptRanges, hs1, hs2]
        exact ⟨s1, s2, t2, rfl, by omega, by omega, by omega, by omega, by omega⟩
  · right; left
    cases t with
    | nil => exfalso; apply hv; simp [DecodeRuneInString, hx, and7_03]
    | cons s1 t1 =>
      by_cases hs1 : s1.val < 0x80 ∨ 0xBF < s1.val
      · exfalso; apply hv
        simp [DecodeRuneInString, hx, and7_03, acceptRanges, hs1]
      cases t1 with
      | nil => exfalso; apply hv; simp [DecodeRuneInString, hx, and7_03]
      | cons s2 t2 =>
        by_cases hs2 : s2.val < 0x80 ∨ 0xBF < s2.val
        · exfalso; apply hv
          simp [DecodeRuneInString, hx, and7_03, acceptRanges, hs1, hs2]
        exact ⟨s1, s2, t2, rfl, by omega, by omega, by omega, by omega, by omega⟩
  · right; left
    cases t with
    | nil => exfalso; apply hv; simp [DecodeRuneInString, hx, and7_23]
    | cons s1 t1 =>
      by_cases hs1 : s1.val < 0x80 ∨ 0x9F < s1.val
      · exfalso; apply hv
        simp [DecodeRuneInString, hx, and7_23, acceptRanges, hs1]
      cases t1 with
      | nil => exfalso; apply hv; simp [DecodeRuneInString, hx, and7_23]
      | cons s2 t2 =>
        by_cases hs2 : s2.val < 0x80 ∨ 0xBF < s2.val
        · exfalso; apply hv
          simp [DecodeRuneInString, hx, and7_23, acceptRanges, hs1, hs2]
        exact ⟨s1, s2, t2, rfl, by omega, by omega, by omega, by omega, by omega⟩
  · right; right
    cases t with
    | nil => exfalso; apply hv; simp [DecodeRuneInString, hx, and7_34]
    | cons s1 t1 =>
      by_cases hs1 : s1.val < 0x90 ∨ 0xBF < s1.val
      · exfalso; apply hv
        simp [DecodeRuneInString, hx, and7_34, acceptRanges, hs1]
      cases t1 with
      | nil => exfalso; apply hv; simp [DecodeRuneInString, hx, and7_34]
      | cons s2 t2 =>
        by_cases hs2 : s2.val < 0x80 ∨ 0xBF < s2.val
        · exfalso; apply hv
          simp [DecodeRuneInString, hx, and7_34, acceptRanges, hs1, hs2]
        cases t2 with
        | nil => exfalso; apply hv; simp [DecodeRuneInString, hx, and7_34]
        | cons s3 t3 =>
          by_cases hs3 : s3.val < 0x80 ∨ 0xBF < s3.val
          · exfalso; apply hv
            simp [DecodeRuneInString, hx, and7_34, acceptRanges, hs1, hs2, hs3]
          exact ⟨s1, s2, s3, t3, rfl, by omega, by omega, by omega, by omega, by omega, by omega⟩
  · right; right
    cases t with
    | nil => exfalso; apply hv; simp [DecodeRuneInString, hx, and7_04]
    | cons s1 t1 =>
      by_cases hs1 : s1.val < 0x80 ∨ 0xBF < s1.val
      · exfalso; apply hv
        simp [DecodeRuneInString, hx, and7_04, acceptRanges, hs1]
      cases t1 with
      | nil => exfalso; apply hv; simp [DecodeRuneInString, hx, and7_04]
      | cons s2 t2 =>
        by_cases hs2 : s2.val < 0x80 ∨ 0xBF < s2.val
        · exfalso; apply hv
          simp [DecodeRuneInString, hx, and7_04, acceptRanges, hs1, hs2]
        cases t2 with
        | nil => exfalso; apply hv; simp [DecodeRuneInString, hx, and7_04]
        | cons s3 t3 =>
          by_cases hs3 : s3.val < 0x80 ∨ 0xBF < s3.val
          · exfalso; apply hv
            simp [DecodeRuneInString, hx, and7_04, acceptRanges, hs1, hs2, hs3]
          exact ⟨s1, s2, s3, t3, rfl, by omega, by omega, by omega, by omega, by omega, by omega⟩
  · right; right
    cases t with
    | nil => exfalso; apply hv; simp [DecodeRuneInString, hx, and7_44]
    | cons s1 t1 =>
      by_cases hs1 : s1.val < 0x80 ∨ 0x8F < s1.val
      · exfalso; apply hv
        simp [DecodeRuneInString, hx, and7_44, acceptRanges, hs1]
      cases t1 with
      | nil => exfalso; apply hv; simp [DecodeRuneInString, hx, and7_44]
      | cons s2 t2 =>
        by_cases hs2 : s2.val < 0x80 ∨ 0xBF < s2.val
        · exfalso; apply hv
          simp [DecodeRuneInString, hx, and7_44, acceptRanges, hs1, hs2]
        cases t2 with
        | nil => exfalso; apply hv; simp [DecodeRuneInString, hx, and7_44]
        | cons s3 t3 =>
          by_cases hs3 : s3.val < 0x80 ∨ 0xBF < s3.val
          · exfalso; apply hv
            simp [DecodeRuneInString, hx, and7_44, acceptRanges, hs1, hs2, hs3]
          exact ⟨s1, s2, s3, t3, rfl, by omega, by omega, by omega, by omega, by omega, by omega⟩

set_option maxRecDepth 100000 in
theorem first_all : ∀ b : Byte,
    first b.val = 0xF0 ∨ first b.val = 0xF1 ∨ first b.val = 0x02 ∨ first b.val = 0x13 ∨
    first b.val = 0x03 ∨ first b.val = 0x23 ∨ first b.val = 0x34 ∨ first b.val = 0x04 ∨
    first b.val = 0x44 := by decide

theorem and1_F0 : (0xF0 &&& 1 : Nat) = 0 := by decide

/-- Only the first four bytes matter to the decoder. -/
theorem decode_take4 (l : List Byte) :
    DecodeRuneInString (l.take 4) = DecodeRuneInString l := by
  match l with
  | [] => rfl
  | [_] => rfl
  | [_, _] => rfl
  | [_, _, _] => rfl
  | [_, _, _, _] => rfl
  | s0 :: s1 :: s2 :: s3 :: s4 :: u =>
    simp only [List.take_succ_cons, List.take_zero]
    have h2 : ¬ (u.length + 1 + 1 + 1 + 1 + 1 < 2) := by omega
    have h3 : ¬ (u.length + 1 + 1 + 1 + 1 + 1 < 3) := by omega
    have h4 : ¬ (u.length + 1 + 1 + 1 + 1 + 1 < 4) := by omega
    rcases first_all s0 with hx | hx | hx | hx | hx | hx | hx | hx | hx <;>
      simp [DecodeRuneInString, hx, and1_F0, and1_F1, and7_02, and7_13, and7_03, and7_23,
        and7_34, and7_04, and7_44, acceptRanges, h2, h3, h4]

theorem rune2_le (s0 s1 : Byte) : rune2 s0 s1 ≤ 0x7FF := by
  have := rune2_eq s0 s1; omega

theorem rune4_ge (s0 s1 s2 s3 : Byte) (h : Seq4 s0 s1 s2 s3) : 0x10000 ≤ rune4 s0 s1 s2 s3 := by
  obtain ⟨h0, h1, h2, h3, hF0, hF4⟩ := h
  have hr := rune4_eq s0 s1 s2 s3
  by_cases a : s0.val = 0xF0
  · have := hF0 a; omega
  · omega

/-- A valid string that starts with a non-ASCII byte starts with a well-formed
sequence of two, three or four bytes. -/
theorem validLoop_multibyte (fuel : Nat) (s0 : Byte) (t : List Byte) (h0 : 0x80 ≤ s0.val)
    (hv : validLoop (fuel + 1) (s0 :: t) = true) :
    (∃ s1 t1, t = s1 :: t1 ∧ Seq2 s0 s1) ∨
    (∃ s1 s2 t2, t = s1 :: s2 :: t2 ∧ Seq3 s0 s1 s2) ∨
    (∃ s1 s2 s3 t3, t = s1 :: s2 :: s3 :: t3 ∧ Seq4 s0 s1 s2 s3) := by
  have hb0 : ¬ s0.val < 0x80 := by omega
  rcases first_cases s0 h0 with hx | ⟨hx, hb⟩ | ⟨hx, hb⟩ | ⟨hx, hb⟩ | ⟨hx, hb⟩ |
    ⟨hx, hb⟩ | ⟨hx, hb⟩ | ⟨hx, hb⟩
  · exfalso
    simp [validLoop, hx, hb0] at hv
  · left
    cases t with
    | nil => exfalso; simp [validLoop, hx, and7_02, hb0] at hv
    | cons s1 t1 =>
      by_cases hs1 : s1.val < 0x80 ∨ 0xBF < s1.val
      · exfalso; simp [validLoop, hx, and7_02, acceptRanges, hs1, hb0] at hv
      exact ⟨s1, t1, rfl, ⟨hb, by omega⟩⟩
  · right; left
    cases t with
    | nil => exfalso; simp [validLoop, hx, and7_13, hb0] at hv
    | cons s1 t1 =>
      by_cases hs1 : s1.val < 0xA0 ∨ 0xBF < s1.val
      · exfalso; simp [validLoop, hx, and7_13, acceptRanges, hs1, hb0] at hv
      cases t1 with
      | nil => exfalso; simp [validLoop, hx, and7_13, hb0] at hv
      | cons s2 t2 =>
        by_cases hs2 : s2.val < 0x80 ∨ 0xBF < s2.val
        · exfalso; simp [validLoop, hx, and7_13, acceptRanges, hs1, hs2, hb0] at hv
        exact ⟨s1, s2, t2, rfl, by omega, by omega, by omega, by omega, by omega⟩
  · right; left
    cases t with
    | nil => exfalso; simp [validLoop, hx, and7_03, hb0] at hv
    | cons s1 t1 =>
      by_cases hs1 : s1.val < 0x80 ∨ 0xBF < s1.val
      · exfalso; simp [validLoop, hx, and7_03, acceptRanges, hs1, hb0] at hv
      cases t1 with
      | nil => exfalso; simp [validLoop, hx, and7_03, hb0] at hv
      | cons s2 t2 =>
        by_cases hs2 : s2.val < 0x80 ∨ 0xBF < s2.val
        · exfalso; simp [validLoop, hx, and7_03, acceptRanges, hs1, hs2, hb0] at hv
        exact ⟨s1, s2, t2, rfl, by omega, by omega, by omega, by omega, by omega⟩
  · right; left
    cases t with
    | nil => exfalso; simp [validLoop, hx, and7_23, hb0] at hv
    | cons s1 t1 =>
      by_cases hs1 : s1.val < 0x80 ∨ 0x9F < s1.val
      · exfalso; simp [validLoop, hx, and7_23, acceptRanges, hs1, hb0] at hv
      cases t1 with
      | nil => exfalso; simp [validLoop, hx, and7_23, hb0] at hv
      | cons s2 t2 =>
        by_cases hs2 : s2.val < 0x80 ∨ 0xBF < s2.val
        · exfalso; simp [validLoop, hx, and7_23, acceptRanges, hs1, hs2, hb0] at hv
        exact ⟨s1, s2, t2, rfl, by omega, by omega, by omega, by omega, by omega⟩
  · right; right
    cases t with
    | nil => exfalso; simp [validLoop, hx, and7_34, hb0] at hv
    | cons s1 t1 =>
      by_cases hs1 : s1.val < 0x90 ∨ 0xBF < s1.val
      · exfalso; simp [validLoop, hx, and7_34, acceptRanges, hs1, hb0] at hv
      cases t1 with
      | nil => exfalso; simp [validLoop, hx, and7_34, hb0] at hv
      | cons s2 t2 =>
        by_cases hs2 : s2.val < 0x80 ∨ 0xBF < s2.val
        · exfalso; simp [validLoop, hx, and7_34, acceptRanges, hs1, hs2, hb0] at hv
        cases t2 with
        | nil => exfalso; simp [validLoop, hx, and7_34, hb0] at hv
        | cons s3 t3 =>
          by_cases hs3 : s3.val < 0x80 ∨ 0xBF < s3.val
          · exfalso; simp [validLoop, hx, and7_34, acceptRanges, hs1, hs2, hs3, hb0] at hv
          exact ⟨s1, s2, s3, t3, rfl, by omega, by omega, by omega, by omega, by omega, by omega⟩
  · right; right
    cases t with
    | nil => exfalso; simp [validLoop, hx, and7_04, hb0] at hv
    | cons s1 t1 =>
      by_cases hs1 : s1.val < 0x80 ∨ 0xBF < s1.val
      · exfalso; simp [validLoop, hx, and7_04, acceptRanges, hs1, hb0] at hv
      cases t1 with
      | nil => exfalso; simp [validLoop, hx, and7_04, hb0] at hv
      | cons s2 t2 =>
        by_cases hs2 : s2.val < 0x80 ∨ 0xBF < s2.val
        · exfalso; simp [validLoop, hx, and7_04, acceptRanges, hs1, hs2, hb0] at hv
        cases t2 with
        | nil => exfalso; simp [validLoop, hx, and7_04, hb0] at hv
        | cons s3 t3 =>
          by_cases hs3 : s3.val < 0x80 ∨ 0xBF < s3.val
          · exfalso; simp [validLoop, hx, and7_04, acceptRanges, hs1, hs2, hs3, hb0] at hv
          exact ⟨s1, s2, s3, t3, rfl, by omega, by omega, by omega, by omega, by omega, by omega⟩
  · right; right
    cases t with
    | nil => exfalso; simp [validLoop, hx, and7_44, hb0] at hv
    | cons s1 t1 =>
      by_cases hs1 : s1.val < 0x80 ∨ 0x8F < s1.val
      · exfalso; simp [validLoop, hx, and7_44, acceptRanges, hs1, hb0] at hv
      cases t1 with
      | nil => exfalso; simp [validLoop, hx, and7_44, hb0] at hv
      | cons s2 t2 =>
        by_cases hs2 : s2.val < 0x80 ∨ 0xBF < s2.val
        · exfalso; simp [validLoop, hx, and7_44, acceptRanges, hs1, hs2, hb0] at hv
        cases t2 with
        | nil => exfalso; simp [validLoop, hx, and7_44, hb0] at hv
        | cons s3 t3 =>
          by_cases hs3 : s3.val < 0x80 ∨ 0xBF < s3.val
          · exfalso; simp [validLoop, hx, and7_44, acceptRanges, hs1, hs2, hs3, hb0] at hv
          exact ⟨s1, s2, s3, t3, rfl, by omega, by omega, by omega, by omega, by omega, by omega⟩

theorem validLoop_ascii (fuel : Nat) (b : Byte) (t : List Byte) (hb : b.val < 0x80) :
    validLoop (fuel + 1) (b :: t) = validLoop fuel t := by
  simp [validLoop, hb]

theorem validLoop_seq2 (fuel : Nat) (s0 s1 : Byte) (t : List Byte) (h : Seq2 s0 s1) :
    validLoop (fuel + 1) (s0 :: s1 :: t) = validLoop fuel t := by
  obtain ⟨h0, h1⟩ := h
  have hx := (first_of_lead s0).1 h0
  have hb0 : ¬ s0.val < 0x80 := by omega
  have hs1 : ¬ (s1.val < 0x80 ∨ 0xBF < s1.val) := by omega
  simp [validLoop, hx, and7_02, acceptRanges, hb0, hs1]

theorem validLoop_seq3 (fuel : Nat) (s0 s1 s2 : Byte) (t : List Byte) (h : Seq3 s0 s1 s2) :
    validLoop (fuel + 1) (s0 :: s1 :: s2 :: t) = validLoop fuel t := by
  obtain ⟨h0, h1, h2, hE0, hED⟩ := h
  have hb0 : ¬ s0.val < 0x80 := by omega
  have hs2 : ¬ (s2.val < 0x80 ∨ 0xBF < s2.val) := by omega
  by_cases a : s0.val = 0xE0
  · have hx := (first_of_lead s0).2.1 a
    have := hE0 a
    have hs1 : ¬ (s1.val < 0xA0 ∨ 0xBF < s1.val) := by omega
    simp [validLoop, hx, and7_13, acceptRanges, hb0, hs1, hs2]
  · by_cases b : s0.val = 0xED
    · have hx := (first_of_lead s0).2.2.2.1 b
      have := hED b
      have hs1 : ¬ (s1.val < 0x80 ∨ 0x9F < s1.val) := by omega
      simp [validLoop, hx, and7_23, acceptRanges, hb0, hs1, hs2]
    · have hx := (first_of_lead s0).2.2.1 ⟨by omega, by omega, b⟩
      have hs1 : ¬ (s1.val < 0x80 ∨ 0xBF < s1.val) := by omega
      simp [validLoop, hx, and7_03, acceptRanges, hb0, hs1, hs2]

theorem validLoop_seq4 (fuel : Nat) (s0 s1 s2 s3 : Byte) (t : List Byte)
    (h : Seq4 s0 s1 s2 s3) :
    validLoop (fuel + 1) (s0 :: s1 :: s2 :: s3 :: t) = validLoop fuel t := by
  obtain ⟨h0, h1, h2, h3, hF0, hF4⟩ := h
  have hb0 : ¬ s0.val < 0x80 := by omega
  have hs2 : ¬ (s2.val < 0x80 ∨ 0xBF < s2.val) := by omega
  have hs3 : ¬ (s3.val < 0x80 ∨ 0xBF < s3.val) := by omega
  by_cases a : s0.val = 0xF0
  · have hx := (first_of_lead s0).2.2.2.2.1 a
    have := hF0 a
    have hs1 : ¬ (s1.val < 0x90 ∨ 0xBF < s1.val) := by omega
    simp [validLoop, hx, and7_34, acceptRanges, hb0, hs1, hs2, hs3]
  · by_cases b : s0.val = 0xF4
    · have hx := (first_of_lead s0).2.2.2.2.2.2 b
      have := hF4 b
      have hs1 : ¬ (s1.val < 0x80 ∨ 0x8F < s1.val) := by omega
      simp [validLoop, hx, and7_44, acceptRanges, hb0, hs1, hs2, hs3]
    · have hx := (first_of_lead s0).2.2.2.2.2.1 ⟨by omega, by omega⟩
      have hs1 : ¬ (s1.val < 0x80 ∨ 0xBF < s1.val) := by omega
      simp [validLoop, hx, and7_04, acceptRanges, hb0, hs1, hs2, hs3]

/-- The loop of `appendString` writes its source chunk by chunk; on valid
UTF-8 no chunk is a replacement. -/
theorem appendStringLoop_encoded (v : Bool) (fuel : Nat) (src : List Byte)
    (hf : src.length ≤ fuel) (hv : v = true → validLoop fuel src = true) :
    Encoded v src (appendStringLoop fuel src) := by
  induction fuel using Nat.strong_induction_on generalizing src with
  | _ fuel ih =>
    cases src with
    | nil => cases fuel <;> exact Encoded.nil _
    | cons b rest =>
      cases fuel with
      | zero => simp at hf
      | succ fuel =>
        simp only [List.length_cons, Nat.add_le_add_iff_right] at hf
        simp only [appendStringLoop, decode_take4]
        by_cases hb : b.val < 0x80
        · rw [if_pos hb]
          have hv1 : v = true → validLoop fuel rest = true := by
            intro h; rw [← validLoop_ascii fuel b rest hb]; exact hv h
          by_cases hs : htmlSafeSet b.val = true
          · rw [if_pos hs]
            exact Encoded.safe _ b rest _ hb hs (ih fuel (Nat.lt_succ_self _) rest hf hv1)
          · rw [if_neg hs]
            exact Encoded.esc _ b rest _ hb (by simpa using hs)
              (ih fuel (Nat.lt_succ_self _) rest hf hv1)
        · rw [if_neg hb]
          by_cases hd : (DecodeRuneInString (b :: rest)).1 = RuneError ∧
              (DecodeRuneInString (b :: rest)).2 = 1
          · rw [if_pos hd]
            cases v with
            | false =>
              exact Encoded.bad b rest _ (by omega)
                (ih fuel (Nat.lt_succ_self _) rest hf (by intro h; cases h))
            | true =>
              exfalso
              have hval := hv rfl
              rcases validLoop_multibyte fuel b rest (by omega) hval with ⟨s1, t1, ht, hq⟩ |
                ⟨s1, s2, t2, ht, hq⟩ | ⟨s1, s2, s3, t3, ht, hq⟩
              · subst ht; rw [decode_of_seq2 b s1 hq] at hd; simp at hd
              · subst ht; rw [decode_of_seq3 b s1 s2 hq] at hd; simp at hd
              · subst ht; rw [decode_of_seq4 b s1 s2 s3 hq] at hd; simp at hd
          · rw [if_neg hd]
            rcases decode_multibyte b rest (by omega) hd with ⟨s1, t1, ht, hq⟩ |
              ⟨s1, s2, t2, ht, hq⟩ | ⟨s1, s2, s3, t3, ht, hq⟩
            · subst ht
              have hlen : t1.length ≤ fuel := by simp at hf; omega
              have h28 := rune2_le b s1
              have hv1 : v = true → validLoop fuel t1 = true := by
                intro h; rw [← validLoop_seq2 fuel b s1 t1 hq]; exact hv h
              rw [decode_of_seq2 b s1 hq]
              simp only [show ¬ (rune2 b s1 = 0x2028 ∨ rune2 b s1 = 0x2029) by omega, if_false]
              exact Encoded.seq2 _ b s1 t1 _ hq (ih fuel (Nat.lt_succ_self _) t1 hlen hv1)
            · subst ht
              have hlen : t2.length ≤ fuel := by simp at hf; omega
              have hv1 : v = true → validLoop fuel t2 = true := by
                intro h; rw [← validLoop_seq3 fuel b s1 s2 t2 hq]; exact hv h
              rw [decode_of_seq3 b s1 s2 hq]
              by_cases hsep : rune3 b s1 s2 = 0x2028 ∨ rune3 b s1 s2 = 0x2029
              · simp only [hsep, if_true]
                exact Encoded.sep _ b s1 s2 t2 _ hq hsep
                  (ih fuel (Nat.lt_succ_self _) t2 hlen hv1)
              · simp only [hsep, if_false]
                exact Encoded.seq3 _ b s1 s2 t2 _ hq (fun h => hsep (Or.inl h))
                  (fun h => hsep (Or.inr h)) (ih fuel (Nat.lt_succ_self _) t2 hlen hv1)
            · subst ht
              have hlen : t3.length ≤ fuel := by simp at hf; omega
              have hge := rune4_ge b s1 s2 s3 hq
              have hv1 : v = true → validLoop fuel t3 = true := by
                intro h; rw [← validLoop_seq4 fuel b s1 s2 s3 t3 hq]; exact hv h
              rw [decode_of_seq4 b s1 s2 s3 hq]
              simp only [show ¬ (rune4 b s1 s2 s3 = 0x2028 ∨ rune4 b s1 s2 s3 = 0x2029) by omega,
                if_false]
              exact Encoded.seq4 _ b s1 s2 s3 t3 _ hq (ih fuel (Nat.lt_succ_self _) t3 hlen hv1)

/-! ## The scanner inside a string literal -/

theorem quiet_append (s : Scanner) (a b : List Byte) :
    quiet s (a ++ b) = (quiet s a).bind (fun s1 => quiet s1 b) := by
  induction a generalizing s with
  | nil => rfl
  | cons c t ih =>
    simp only [List.cons_append, quiet]
    split
    · exact ih _
    · rfl

theorem quiet_append_of (s s1 s2 : Scanner) (a b : List Byte) (ha : quiet s a = some s1)
    (hb : quiet s1 b = some s2) : quiet s (a ++ b) = some s2 := by
  rw [quiet_append, ha]; exact hb

theorem run_inString_plain (et : Bool) (ps : List Nat) (er : Option Error) (c : Byte)
    (hc : plainByte c = true) :
    (inString et ps er).run c = (inString et ps er, scanContinue) := by
  simp only [plainByte, decide_eq_true_eq] at hc
  obtain ⟨h1, h2, h3⟩ := hc
  simp only [inString, Scanner.run, stateInString, h2, h3, if_false]
  rw [if_neg (by omega)]

theorem quiet_plain (et : Bool) (ps : List Nat) (er : Option Error) (l : List Byte)
    (hl : ∀ c ∈ l, plainByte c = true) :
    quiet (inString et ps er) l = some (inString et ps er) := by
  induction l with
  | nil => rfl
  | cons c t ih =>
    simp only [quiet, run_inString_plain et ps er c (hl c (List.mem_cons_self _ _)), if_true]
    exact ih (fun c hc => hl c (List.mem_cons_of_mem _ hc))

theorem isHexDigit_hex : ∀ n : Fin 16, isHexDigit (hex n.val) = true := by decide

theorem isHexDigit_hex_shift (b : Byte) : isHexDigit (hex (b.val >>> 4)) = true := by
  have : b.val >>> 4 < 16 := by
    rw [Nat.shiftRight_eq_div_pow]; have := b.isLt; omega
  exact isHexDigit_hex ⟨_, this⟩

theorem isHexDigit_hex_and (n : Nat) : isHexDigit (hex (n &&& 0xF)) = true := by
  have : n &&& 0xF < 16 := by rw [and_0F]; omega
  exact isHexDigit_hex ⟨_, this⟩

theorem quiet_escapeByte (et : Bool) (ps : List Nat) (er : Option Error) (b : Byte) :
    quiet (inString et ps er) (escapeByte b) = some (inString et ps er) := by
  have k4 := isHexDigit_hex_shift b
  have k5 := isHexDigit_hex_and b.val
  have k0 : isHexDigit 0x30 = true := by decide
  unfold escapeByte
  split_ifs with h1 h2 h3 h4 h5 h6
  · rcases h1 with h1 | h1 <;>
      simp [inString, quiet, Scanner.run, stateInString, stateInStringEsc, scanContinue, h1,
        Fin.coe_ofNat_eq_mod]
  all_goals
    simp [inString, quiet, Scanner.run, stateInString, stateInStringEsc, stateInStringEscHex,
      scanContinue, Fin.coe_ofNat_eq_mod, *]

theorem quiet_replacement (et : Bool) (ps : List Nat) (er : Option Error) :
    quiet (inString et ps er) (lit "\\ufffd") = some (inString et ps er) := by
  have e : lit "\\ufffd" = [0x5C, 0x75, 0x66, 0x66, 0x66, 0x64] := by decide
  have k6 : isHexDigit 0x66 = true := by decide
  have k7 : isHexDigit 0x64 = true := by decide
  rw [e]
  simp [inString, quiet, Scanner.run, stateInString, stateInStringEsc, stateInStringEscHex,
    scanContinue, Fin.coe_ofNat_eq_mod, k6, k7]

theorem quiet_separator (et : Bool) (ps : List Nat) (er : Option Error) (n : Nat) :
    quiet (inString et ps er) (lit "\\u202" ++ [hex (n &&& 0xF)]) = some (inString et ps er) := by
  have e : lit "\\u202" = [0x5C, 0x75, 0x32, 0x30, 0x32] := by decide
  have h5 := isHexDigit_hex_and n
  have k0 : isHexDigit 0x30 = true := by decide
  have k2 : isHexDigit 0x32 = true := by decide
  rw [e]
  simp [inString, quiet, Scanner.run, stateInString, stateInStringEsc, stateInStringEscHex,
    scanContinue, Fin.coe_ofNat_eq_mod, h5, k0, k2]

theorem plainByte_of_ge (c : Byte) (h : 0x80 ≤ c.val) : plainByte c = true := by
  simp only [plainByte, decide_eq_true_eq]; omega

theorem plainByte_of_safe (c : Byte) (h : htmlSafeSet c.val = true) : plainByte c = true := by
  simp only [htmlSafeSet, decide_eq_true_eq] at h
  simp only [plainByte, decide_eq_true_eq]; omega

/-- The scanner reads the body `appendString` writes as string content: it
answers every byte with `scanContinue` and is back inside the string at the
end. -/
theorem quiet_encoded (v : Bool) (src out : List Byte) (h : Encoded v src out)
    (et : Bool) (ps : List Nat) (er : Option Error) :
    quiet (inString et ps er) out = some (inString et ps er) := by
  induction h with
  | nil => rfl
  | safe v b rest out hb hs _ ih =>
    exact quiet_append_of _ _ _ [b] out
      (quiet_plain et ps er [b] (by simpa using plainByte_of_safe b hs)) ih
  | esc v b rest out hb hs _ ih =>
    exact quiet_append_of _ _ _ _ out (quiet_escapeByte et ps er b) ih
  | bad b rest out hb _ ih =>
    exact quiet_append_of _ _ _ _ out (quiet_replacement et ps er) ih
  | seq2 v s0 s1 rest out hq _ ih =>
    obtain ⟨h0, h1⟩ := hq
    refine quiet_append_of _ _ _ [s0, s1] out (quiet_plain et ps er _ ?_) ih
    intro c hc
    simp only [List.mem_cons, List.mem_singleton, List.not_mem_nil, or_false] at hc
    rcases hc with rfl | rfl <;> exact plainByte_of_ge _ (by omega)
  | seq3 v s0 s1 s2 rest out hq _ _ _ ih =>
    obtain ⟨h0, h1, h2, _, _⟩ := hq
    refine quiet_append_of _ _ _ [s0, s1, s2] out (quiet_plain et ps er _ ?_) ih
    intro c hc
    simp only [List.mem_cons, List.mem_singleton, List.not_mem_nil, or_false] at hc
    rcases hc with rfl | rfl | rfl <;> exact plainByte_of_ge _ (by omega)
  | sep v s0 s1 s2 rest out hq _ _ ih =>
    exact quiet_append_of _ _ _ _ out (quiet_separator et ps er _) ih
  | seq4 v s0 s1 s2 s3 rest out hq _ ih =>
    obtain ⟨h0, h1, h2, h3, _, _⟩ := hq
    refine quiet_append_of _ _ _ [s0, s1, s2, s3] out (quiet_plain et ps er _ ?_) ih
    intro c hc
    simp only [List.mem_cons, List.mem_singleton, List.not_mem_nil, or_false] at hc
    rcases hc with rfl | rfl | rfl | rfl <;> exact plainByte_of_ge _ (by omega)

/-! ## The loop of `appendIndent` -/

theorem indentLoop_of_indentAll (pfx indent : GoString) (a rest : List Byte)
    (st st1 : IndentState) (h : indentAll pfx indent a st = some st1) :
    indentLoop pfx indent (a ++ rest) st = indentLoop pfx indent rest st1 := by
  induction a generalizing st with
  | nil => simp only [indentAll, Option.some.injEq] at h; subst h; rfl
  | cons c t ih =>
    simp only [indentAll] at h
    split at h
    · rename_i hc
      simp only [List.cons_append, indentLoop, hc, if_true]
      exact ih _ h
    · cases h

theorem indentAll_append (pfx indent : GoString) (a b : List Byte) (st : IndentState) :
    indentAll pfx indent (a ++ b) st =
      (indentAll pfx indent a st).bind (indentAll pfx indent b) := by
  induction a generalizing st with
  | nil => rfl
  | cons c t ih =>
    simp only [List.cons_append, indentAll]
    split
    · exact ih _
    · rfl

theorem indentByte_shift (pfx indent : GoString) (d : List Byte) (st : IndentState) (c : Byte) :
    indentByte pfx indent (st.shift d) c =
      ((indentByte pfx indent st c).1.shift d, (indentByte pfx indent st c).2) := by
  obtain ⟨scan, ni, depth, dst⟩ := st
  simp only [indentByte, IndentState.shift]
  generalize scan.run c = sv
  by_cases h1 : sv.2 = scanSkipSpace
  · simp only [h1, if_true]
  by_cases h2 : sv.2 = scanError
  · have hne : ¬ scanError = scanSkipSpace := by decide
    simp only [h2, hne, if_true, if_false]
  simp only [h1, h2, if_false]
  by_cases h3 : ni = true ∧ sv.2 ≠ scanEndObject ∧ sv.2 ≠ scanEndArray
  · simp only [h3, and_self, ne_eq, not_false_eq_true, if_true]
    split_ifs <;> simp [appendNewline, List.append_assoc]
  · simp only [h3, if_false]
    split_ifs <;> simp [appendNewline, List.append_assoc]

theorem indentAll_shift (pfx indent : GoString) (d : List Byte) (a : List Byte)
    (st st1 : IndentState) (h : indentAll pfx indent a st = some st1) :
    indentAll pfx indent a (st.shift d) = some (st1.shift d) := by
  induction a generalizing st with
  | nil => simp only [indentAll, Option.some.injEq] at h; subst h; rfl
  | cons c t ih =>
    simp only [indentAll] at h ⊢
    rw [indentByte_shift]
    split at h
    · rename_i hc
      simp only [hc, if_true]
      exact ih _ h
    · cases h

theorem indentAll_quiet (pfx indent : GoString) (l : List Byte) (s s1 : Scanner)
    (depth : Int) (dst : List Byte) (h : quiet s l = some s1) :
    indentAll pfx indent l { scan := s, needIndent := false, depth := depth, dst := dst } =
      some { scan := s1, needIndent := false, depth := depth, dst := dst ++ l } := by
  induction l generalizing s dst with
  | nil => simp only [quiet, Option.some.injEq] at h; subst h; simp [indentAll]
  | cons c t ih =>
    simp only [quiet] at h
    split at h
    · rename_i hc
      have hb : indentByte pfx indent
          { scan := s, needIndent := false, depth := depth, dst := dst } c =
          ({ scan := (s.run c).1, needIndent := false, depth := depth, dst := dst ++ [c] },
            true) := by
        simp [indentByte, hc, scanContinue, scanSkipSpace, scanError]
      simp only [indentAll, hb, if_true]
      rw [ih _ _ h]
      simp
    · cases h

/-! ## The text of a timestamp -/

theorem timeByte_digit (n : Nat) (h : n < 10) : timeByte (byte (0x30 + n)) = true := by
  simp only [timeByte, byte, decide_eq_true_eq]
  left; omega

theorem decimalDigits_timeByte (fuel u : Nat) : ∀ c ∈ decimalDigits fuel u, timeByte c = true := by
  induction fuel generalizing u with
  | zero =>
    intro c hc
    simp only [decimalDigits, List.mem_singleton] at hc
    subst hc
    exact timeByte_digit _ (Nat.mod_lt _ (by decide))
  | succ fuel ih =>
    intro c hc
    simp only [decimalDigits] at hc
    split at hc
    · simp only [List.mem_append, List.mem_singleton] at hc
      rcases hc with hc | hc
      · exact ih _ c hc
      · subst hc; exact timeByte_digit _ (Nat.mod_lt _ (by decide))
    · simp only [List.mem_singleton] at hc
      subst hc; exact timeByte_digit _ (by omega)

theorem decimalDigits_nonzero (fuel u : Nat) (hf : u ≤ fuel) (hu : u ≠ 0) :
    ∃ c ∈ decimalDigits fuel u, c.val ≠ 0x30 := by
  induction fuel generalizing u with
  | zero => omega
  | succ fuel ih =>
    simp only [decimalDigits]
    split
    · obtain ⟨c, hc, hne⟩ := ih (u / 10) (by omega) (by omega)
      exact ⟨c, List.mem_append_left _ hc, hne⟩
    · refine ⟨_, List.mem_singleton_self _, ?_⟩
      simp only [byte]; omega

/-- The bytes `appendInt` adds are digits and a sign. -/
theorem appendInt_eq (b : List Byte) (x : Int) (width : Nat) :
    ∃ y, appendInt b x width = b ++ y ∧ (∀ c ∈ y, timeByte c = true) ∧
      y = appendInt [] x width := by
  refine ⟨appendInt [] x width, ?_, ?_, rfl⟩
  · simp only [appendInt]
    split <;> simp [List.append_assoc]
  · intro c hc
    simp only [appendInt] at hc
    have hd := decimalDigits_timeByte x.natAbs x.natAbs
    split at hc
    · simp only [List.nil_append, List.mem_append, List.mem_cons, List.mem_singleton,
        List.not_mem_nil, or_false, List.mem_replicate] at hc
      rcases hc with (hc | hc) | hc
      · subst hc; decide
      · rw [hc.2]; decide
      · exact hd c hc
    · simp only [List.nil_append, List.mem_append, List.mem_replicate] at hc
      rcases hc with hc | hc
      · rw [hc.2]; decide
      · exact hd c hc

theorem trimZeros_append (b y : List Byte) (h : ∃ c ∈ y, c.val ≠ 0x30) :
    trimZeros (b ++ y) = b ++ trimZeros y ∧ trimZeros y ≠ [] ∧
      (∀ c ∈ trimZeros y, c ∈ y) := by
  induction y using List.reverseRecOn with
  | nil => obtain ⟨c, hc, _⟩ := h; cases hc
  | append_singleton y a ih =>
    by_cases ha : a.val = 0x30
    · have hex : ∃ c ∈ y, c.val ≠ 0x30 := by
        obtain ⟨c, hc, hne⟩ := h
        simp only [List.mem_append, List.mem_singleton] at hc
        rcases hc with hc | hc
        · exact ⟨c, hc, hne⟩
        · subst hc; exact absurd ha hne
      obtain ⟨i1, i2, i3⟩ := ih hex
      have e1 : trimZeros (b ++ (y ++ [a])) = trimZeros (b ++ y) := by
        simp [trimZeros, List.dropWhile, ha]
      have e2 : trimZeros (y ++ [a]) = trimZeros y := by
        simp [trimZeros, List.dropWhile, ha]
      rw [e1, e2]
      exact ⟨i1, i2, fun c hc => List.mem_append_left _ (i3 c hc)⟩
    · have e1 : trimZeros (b ++ (y ++ [a])) = b ++ (y ++ [a]) := by
        simp [trimZeros, List.dropWhile, ha]
      have e2 : trimZeros (y ++ [a]) = y ++ [a] := by
        simp [trimZeros, List.dropWhile, ha]
      rw [e1, e2]
      exact ⟨rfl, by simp, fun c hc => hc⟩

/-- The bytes `appendNano` adds are a period and digits. -/
theorem appendNano_eq (b : List Byte) (nanosec : Nat) :
    ∃ y, appendNano b nanosec = b ++ y ∧ (∀ c ∈ y, timeByte c = true) := by
  unfold appendNano
  split
  · exact ⟨[], by simp, by simp⟩
  · rename_i hn
    obtain ⟨y, hy, hyt, hyd⟩ := appendInt_eq (b ++ [0x2E]) nanosec 9
    have hnz : ∃ c ∈ ([0x2E] : List Byte) ++ y, c.val ≠ 0x30 := by
      obtain ⟨c, hc, hne⟩ := decimalDigits_nonzero nanosec nanosec (le_refl _) hn
      refine ⟨c, ?_, hne⟩
      rw [hyd]
      simp only [appendInt, Int.natAbs_ofNat, List.nil_append]
      have : ¬ ((nanosec : Int) < 0) := by omega
      simp only [this, if_false, List.mem_append, List.mem_cons]
      right; right; exact hc
    have hall : ∀ c ∈ ([0x2E] : List Byte) ++ y, timeByte c = true := by
      intro c hc
      simp only [List.singleton_append, List.mem_cons] at hc
      rcases hc with hc | hc
      · subst hc; decide
      · exact hyt c hc
    obtain ⟨t1, t2, t3⟩ := trimZeros_append b ([0x2E] ++ y) hnz
    have hb : appendInt (b ++ [0x2E]) (nanosec : Int) 9 = b ++ ([0x2E] ++ y) := by
      rw [hy, List.append_assoc]
    simp only [hb, t1]
    split
    · refine ⟨(trimZeros ([0x2E] ++ y)).dropLast, ?_, ?_⟩
      · rw [List.dropLast_append_of_ne_nil _ t2]
      · intro c hc
        exact hall c (t3 c (List.mem_of_mem_dropLast hc))
    · exact ⟨trimZeros ([0x2E] ++ y), rfl, fun c hc => hall c (t3 c hc)⟩

theorem TimeExt.refl (b : List Byte) : TimeExt b b := ⟨[], by simp, by simp⟩

theorem TimeExt.trans {a b c : List Byte} (h : TimeExt a b) (k : TimeExt b c) : TimeExt a c := by
  obtain ⟨y, hy, hyt⟩ := h
  obtain ⟨z, hz, hzt⟩ := k
  refine ⟨y ++ z, by rw [hz, hy, List.append_assoc], ?_⟩
  intro c hc
  rcases List.mem_append.1 hc with hc | hc
  · exact hyt c hc
  · exact hzt c hc

theorem TimeExt.byte (b : List Byte) (c : Byte) (hc : timeByte c = true) : TimeExt b (b ++ [c]) :=
  ⟨[c], rfl, by simpa using hc⟩

theorem TimeExt.appendInt (b : List Byte) (x : Int) (width : Nat) :
    TimeExt b (appendInt b x width) := by
  obtain ⟨y, hy, hyt, _⟩ := appendInt_eq b x width
  exact ⟨y, hy, hyt⟩

theorem TimeExt.appendNano (b : List Byte) (n : Nat) : TimeExt b (appendNano b n) := by
  obtain ⟨y, hy, hyt⟩ := appendNano_eq b n
  exact ⟨y, hy, hyt⟩

theorem appendFormatRFC3339_ext (b : List Byte) (t : Time) :
    TimeExt b (appendFormatRFC3339 b t) := by
  have step1 := TimeExt.appendInt b t.year 4
  have step2 := step1.trans (TimeExt.byte _ 0x2D (by decide))
  have step3 := step2.trans (TimeExt.appendInt _ t.month 2)
  have step4 := step3.trans (TimeExt.byte _ 0x2D (by decide))
  have step5 := step4.trans (TimeExt.appendInt _ t.day 2)
  have step6 := step5.trans (TimeExt.byte _ 0x54 (by decide))
  have step7 := step6.trans (TimeExt.appendInt _ t.hour 2)
  have step8 := step7.trans (TimeExt.byte _ 0x3A (by decide))
  have step9 := step8.trans (TimeExt.appendInt _ t.min 2)
  have step10 := step9.trans (TimeExt.byte _ 0x3A (by decide))
  have step11 := step10.trans (TimeExt.appendInt _ t.sec 2)
  have step12 := step11.trans (TimeExt.appendNano _ t.nsec)
  simp only [appendFormatRFC3339]
  split
  · exact step12.trans (TimeExt.byte _ 0x5A (by decide))
  · split
    · have s13 := step12.trans (TimeExt.byte _ 0x2D (by decide))
      have s14 := s13.trans (TimeExt.appendInt _ (Int.tdiv (-(Int.tdiv t.offset 60)) 60) 2)
      have s15 := s14.trans (TimeExt.byte _ 0x3A (by decide))
      exact s15.trans (TimeExt.appendInt _ (Int.tmod (-(Int.tdiv t.offset 60)) 60) 2)
    · have s13 := step12.trans (TimeExt.byte _ 0x2B (by decide))
      have s14 := s13.trans (TimeExt.appendInt _ (Int.tdiv (Int.tdiv t.offset 60) 60) 2)
      have s15 := s14.trans (TimeExt.byte _ 0x3A (by decide))
      exact s15.trans (TimeExt.appendInt _ (Int.tmod (Int.tdiv t.offset 60) 60) 2)

/-- What `Time.MarshalJSON` returns when it succeeds: a quoted text made of
timestamp bytes. -/
theorem MarshalJSON_ok (t : Time) (ts : List Byte) (h : t.MarshalJSON = Except.ok ts) :
    ∃ tb, ts = 0x22 :: (tb ++ [0x22]) ∧ ∀ c ∈ tb, timeByte c = true := by
  obtain ⟨y, hy, hyt⟩ := appendFormatRFC3339_ext [0x22] t
  have hr : (appendStrictRFC3339 [0x22] t).1 = appendFormatRFC3339 [0x22] t := by
    simp only [appendStrictRFC3339]
    split_ifs <;> rfl
  simp only [Time.MarshalJSON] at h
  split at h
  · cases h
  · simp only [Except.ok.injEq] at h
    rw [hr, hy] at h
    exact ⟨y, by rw [← h]; simp, hyt⟩

/-! ## Compacting the text of a timestamp -/

theorem timeByte_plain (c : Byte) (h : timeByte c = true) : plainByte c = true := by
  simp only [timeByte, decide_eq_true_eq] at h
  simp only [plainByte, decide_eq_true_eq]
  omega

theorem compactByte_timeByte (src : List Byte) (i : Nat) (st : CompactState) (c : Byte)
    (hc : timeByte c = true) (hq : (st.scan.run c).2 = scanContinue) :
    compactByte src i st c = ({ st with scan := (st.scan.run c).1 }, true) := by
  simp only [timeByte, decide_eq_true_eq] at hc
  have h1 : ¬ (c.val = 0x3C ∨ c.val = 0x3E ∨ c.val = 0x26) := by omega
  have h2 : ¬ (c.val = 0xE2 ∧ i + 2 < src.length ∧ (src.getD (i + 1) 0).val = 0x80
        ∧ (src.getD (i + 2) 0).val &&& 0xFE = 0xA8) := by
    intro h; have := h.1; omega
  have h3 : ¬ (scanContinue ≥ scanSkipSpace) := by decide
  simp only [compactByte, h1, h2, if_false, hq, h3]

theorem compactLoop_timeBytes (src : List Byte) (l rest : List Byte) (i : Nat)
    (st : CompactState) (s1 : Scanner) (hl : ∀ c ∈ l, timeByte c = true)
    (hq : quiet st.scan l = some s1) :
    compactLoop src (l ++ rest) i st = compactLoop src rest (i + l.length) { st with scan := s1 } := by
  induction l generalizing i st with
  | nil =>
    simp only [quiet, Option.some.injEq] at hq
    subst hq
    simp
  | cons c t ih =>
    simp only [quiet] at hq
    split at hq
    · rename_i hc
      simp only [List.cons_append, compactLoop,
        compactByte_timeByte src i st c (hl c (List.mem_cons_self _ _)) hc, if_true]
      have key := ih (i + 1) { st with scan := (st.scan.run c).1 }
        (fun c hc => hl c (List.mem_cons_of_mem _ hc)) hq
      simp only [List.length_cons]
      rw [show i + (t.length + 1) = i + 1 + t.length by omega]
      exact key
    · cases hq

/-- `appendCompact` returns the text of a timestamp as it is. -/
theorem appendCompact_time (tb : List Byte) (h : ∀ c ∈ tb, timeByte c = true) :
    appendCompact (0x22 :: (tb ++ [0x22])) = Except.ok (0x22 :: (tb ++ [0x22])) := by
  have hq : quiet (inString false [] none) tb = some (inString false [] none) :=
    quiet_plain false [] none tb (fun c hc => timeByte_plain c (h c hc))
  have hfirst : compactByte (0x22 :: (tb ++ [0x22])) 0
      { scan := Scanner.reset, start := 0, dst := [] } 0x22 =
      ({ scan := inString false [] none, start := 0, dst := [] }, true) := by
    simp [compactByte, Scanner.reset, Scanner.run, stateBeginValue, isSpace, inString,
      scanBeginLiteral, scanSkipSpace, Fin.coe_ofNat_eq_mod]
  have hlast : compactByte (0x22 :: (tb ++ [0x22])) (0 + 1 + tb.length)
      { scan := inString false [] none, start := 0, dst := [] } 0x22 =
      ({ scan := { step := Step.stateEndValue, endTop := false, parseState := [], err := none },
         start := 0, dst := [] }, true) := by
    simp [compactByte, Scanner.run, stateInString, inString,
      scanContinue, scanSkipSpace, Fin.coe_ofNat_eq_mod]
  have hloop : compactLoop (0x22 :: (tb ++ [0x22])) (0x22 :: (tb ++ [0x22])) 0
      { scan := Scanner.reset, start := 0, dst := [] } =
      { scan := { step := Step.stateEndValue, endTop := false, parseState := [], err := none },
        start := 0, dst := [] } := by
    rw [compactLoop]
    simp only [hfirst, if_true]
    rw [compactLoop_timeBytes _ tb [0x22] (0 + 1) _ _ h hq]
    simp only [compactLoop, hlast, if_true]
  simp only [appendCompact, hloop]
  have heof : Scanner.eof
      { step := Step.stateEndValue, endTop := false, parseState := [], err := none } =
      ({ step := Step.stateEndTop, endTop := true, parseState := [], err := none }, scanEnd) := by
    decide
  simp [heof, scanEnd, scanError, slice]

/-! ## Marshalling a snapshot -/

theorem indentAll_from (pfx indent : GoString) (k : List Byte) (s s1 : Scanner) (ni ni1 : Bool)
    (dp dp1 : Int) (K : List Byte)
    (h : indentAll pfx indent k { scan := s, needIndent := ni, depth := dp, dst := [] } =
      some { scan := s1, needIndent := ni1, depth := dp1, dst := K })
    (D : List Byte) :
    indentAll pfx indent k { scan := s, needIndent := ni, depth := dp, dst := D } =
      some { scan := s1, needIndent := ni1, depth := dp1, dst := D ++ K } := by
  have := indentAll_shift pfx indent D k _ _ h
  simpa [IndentState.shift] using this

theorem marshalerEncoder_ok (t : Time) (ts : List Byte) (h : t.MarshalJSON = Except.ok ts) :
    marshalerEncoder t = Except.ok ts := by
  obtain ⟨tb, hts, htb⟩ := MarshalJSON_ok t ts h
  simp only [marshalerEncoder, h, hts, appendCompact_time tb htb]

theorem Marshal_ok (v : FormData) (tb : List Byte)
    (h : v.Timestamp.MarshalJSON = Except.ok (0x22 :: (tb ++ [0x22]))) :
    Marshal v = Except.ok (compactDoc (appendStringLoop v.Name.length v.Name)
      (appendStringLoop v.Email.length v.Email) (appendStringLoop v.Phone.length v.Phone)
      (appendStringLoop v.Message.length v.Message) tb) := by
  have e1 : lit "\"name\":" = [0x22, 0x6E, 0x61, 0x6D, 0x65, 0x22, 0x3A] := by decide
  have e2 : lit "\"email\":" = [0x22, 0x65, 0x6D, 0x61, 0x69, 0x6C, 0x22, 0x3A] := by decide
  have e3 : lit "\"phone\":" = [0x22, 0x70, 0x68, 0x6F, 0x6E, 0x65, 0x22, 0x3A] := by decide
  have e4 : lit "\"message\":" = [0x22, 0x6D, 0x65, 0x73, 0x73, 0x61, 0x67, 0x65, 0x22, 0x3A] := by
    decide
  have e5 : lit "\"timestamp\":" =
      [0x22, 0x74, 0x69, 0x6D, 0x65, 0x73, 0x74, 0x61, 0x6D, 0x70, 0x22, 0x3A] := by decide
  have f1 : lit "\x7b\"name\":\"" = [0x7B, 0x22, 0x6E, 0x61, 0x6D, 0x65, 0x22, 0x3A, 0x22] := by
    decide
  have f2 : lit "\",\"email\":\"" =
      [0x22, 0x2C, 0x22, 0x65, 0x6D, 0x61, 0x69, 0x6C, 0x22, 0x3A, 0x22] := by decide
  have f3 : lit "\",\"phone\":\"" =
      [0x22, 0x2C, 0x22, 0x70, 0x68, 0x6F, 0x6E, 0x65, 0x22, 0x3A, 0x22] := by decide
  have f4 : lit "\",\"message\":\"" =
      [0x22, 0x2C, 0x22, 0x6D, 0x65, 0x73, 0x73, 0x61, 0x67, 0x65, 0x22, 0x3A, 0x22] := by decide
  have f5 : lit "\",\"timestamp\":\"" =
      [0x22, 0x2C, 0x22, 0x74, 0x69, 0x6D, 0x65, 0x73, 0x74, 0x61, 0x6D, 0x70, 0x22, 0x3A, 0x22] := by
    decide
  have f6 : lit "\"\x7d" = [0x22, 0x7D] := by decide
  simp only [Marshal, marshalerEncoder_ok _ _ h, appendString, compactDoc, e1, e2, e3, e4, e5,
    f1, f2, f3, f4, f5, f6, List.append_assoc, List.cons_append, List.nil_append]

/-- The scanner inside the value of an object member. -/
theorem indent_compactDoc (b1 b2 b3 b4 tb : List Byte)
    (h1 : quiet (inString false [parseObjectValue] none) b1 =
      some (inString false [parseObjectValue] none))
    (h2 : quiet (inString false [parseObjectValue] none) b2 =
      some (inString false [parseObjectValue] none))
    (h3 : quiet (inString false [parseObjectValue] none) b3 =
      some (inString false [parseObjectValue] none))
    (h4 : quiet (inString false [parseObjectValue] none) b4 =
      some (inString false [parseObjectValue] none))
    (h5 : quiet (inString false [parseObjectValue] none) tb =
      some (inString false [parseObjectValue] none)) :
    appendIndent (compactDoc b1 b2 b3 b4 tb) [] (lit "  ") =
      Except.ok (indentedDoc b1 b2 b3 b4 tb) := by
  have k0 := indentAll_from [] (lit "  ") (lit "\x7b\"name\":\"") Scanner.reset
    (inString false [parseObjectValue] none) false false 0 1 (lit "\x7b\n  \"name\": \"")
    (by decide)
  have k1 := indentAll_from [] (lit "  ") (lit "\",\"email\":\"")
    (inString false [parseObjectValue] none) (inString false [parseObjectValue] none)
    false false 1 1 (lit "\",\n  \"email\": \"") (by decide)
  have k2 := indentAll_from [] (lit "  ") (lit "\",\"phone\":\"")
    (inString false [parseObjectValue] none) (inString false [parseObjectValue] none)
    false false 1 1 (lit "\",\n  \"phone\": \"") (by decide)
  have k3 := indentAll_from [] (lit "  ") (lit "\",\"message\":\"")
    (inString false [parseObjectValue] none) (inString false [parseObjectValue] none)
    false false 1 1 (lit "\",\n  \"message\": \"") (by decide)
  have k4 := indentAll_from [] (lit "  ") (lit "\",\"timestamp\":\"")
    (inString false [parseObjectValue] none) (inString false [parseObjectValue] none)
    false false 1 1 (lit "\",\n  \"timestamp\": \"") (by decide)
  have k5 := indentAll_from [] (lit "  ") (lit "\"\x7d")
    (inString false [parseObjectValue] none)
    { step := Step.stateEndTop, endTop := true, parseState := [], err := none }
    false false 1 0 (lit "\"\n\x7d") (by decide)
  have hall : indentAll [] (lit "  ") (compactDoc b1 b2 b3 b4 tb)
      { scan := Scanner.reset, needIndent := false, depth := 0, dst := [] } =
      some { scan := { step := Step.stateEndTop, endTop := true, parseState := [], err := none },
             needIndent := false, depth := 0, dst := indentedDoc b1 b2 b3 b4 tb } := by
    simp only [compactDoc, indentAll_append, k0, k1, k2, k3, k4, k5, Option.some_bind,
      indentAll_quiet [] (lit "  ") _ _ _ _ _ h1, indentAll_quiet [] (lit "  ") _ _ _ _ _ h2,
      indentAll_quiet [] (lit "  ") _ _ _ _ _ h3, indentAll_quiet [] (lit "  ") _ _ _ _ _ h4,
      indentAll_quiet [] (lit "  ") _ _ _ _ _ h5, indentedDoc, List.nil_append]
  have hloop : indentLoop [] (lit "  ") (compactDoc b1 b2 b3 b4 tb)
      { scan := Scanner.reset, needIndent := false, depth := 0, dst := [] } =
      { scan := { step := Step.stateEndTop, endTop := true, parseState := [], err := none },
        needIndent := false, depth := 0, dst := indentedDoc b1 b2 b3 b4 tb } := by
    have := indentLoop_of_indentAll [] (lit "  ") _ [] _ _ hall
    rw [List.append_nil] at this
    exact this
  have heof : Scanner.eof
      { step := Step.stateEndTop, endTop := true, parseState := [], err := none } =
      ({ step := Step.stateEndTop, endTop := true, parseState := [], err := none }, scanEnd) := by
    decide
  simp only [appendIndent, hloop, heof]
  simp [scanEnd, scanError]

theorem hexValue_hex : ∀ n : Fin 16, hexValue (hex n.val) = some n.val := by decide

theorem getu4_escape (hi lo : Nat) (hhi : hi < 16) (hlo : lo < 16) (a b : Nat) (ha : a < 16)
    (hb : b < 16) (t : List Byte) :
    getu4 (0x5C :: 0x75 :: hex a :: hex b :: hex hi :: hex lo :: t) =
      ((((a : Int) * 16 + b) * 16 + hi) * 16 + lo) := by
  have e1 := hexValue_hex ⟨a, ha⟩
  have e2 := hexValue_hex ⟨b, hb⟩
  have e3 := hexValue_hex ⟨hi, hhi⟩
  have e4 := hexValue_hex ⟨lo, hlo⟩
  simp only at e1 e2 e3 e4
  simp [getu4, getu4Loop, e1, e2, e3, e4, Fin.coe_ofNat_eq_mod]

theorem hex_0 : hex 0 = 0x30 := by decide
theorem hex_2 : hex 2 = 0x32 := by decide

theorem byte_val_self (b : Byte) : byte b.val = b := byte_eq _ b rfl

theorem encodeRune_ascii (b : Byte) (h : b.val < 0x80) : EncodeRune b.val = [b] := by
  simp only [EncodeRune, show b.val ≤ 0x7F by omega, if_true, byte_val_self]

theorem shift_and_eq (b : Byte) : (b.val >>> 4) * 16 + (b.val &&& 0xF) = b.val := by
  rw [Nat.shiftRight_eq_div_pow, and_0F]
  simp only [Nat.reducePow]
  omega

theorem unquoteLoop_escape (fuel : Nat) (e : Byte) (t1 : List Byte) :
    unquoteLoop (fuel + 1) (0x5C :: e :: t1) =
      (if e.val = 0x22 ∨ e.val = 0x5C ∨ e.val = 0x2F ∨ e.val = 0x27 then
          (unquoteLoop fuel t1).map (fun out => e :: out)
        else if e.val = 0x62 then (unquoteLoop fuel t1).map (fun out => 0x08 :: out)
        else if e.val = 0x66 then (unquoteLoop fuel t1).map (fun out => 0x0C :: out)
        else if e.val = 0x6E then (unquoteLoop fuel t1).map (fun out => 0x0A :: out)
        else if e.val = 0x72 then (unquoteLoop fuel t1).map (fun out => 0x0D :: out)
        else if e.val = 0x74 then (unquoteLoop fuel t1).map (fun out => 0x09 :: out)
        else if e.val = 0x75 then
          let rr := getu4 (0x5C :: e :: t1)
          if rr < 0 then none
          else
            let rest := ((0x5C : Byte) :: e :: t1).drop 6
            if IsSurrogate rr then
              let dec := utf16DecodeRune rr (getu4 rest)
              if dec ≠ 0xFFFD then
                (unquoteLoop fuel (rest.drop 6)).map (fun out => EncodeRune dec.toNat ++ out)
              else (unquoteLoop fuel rest).map (fun out => EncodeRune 0xFFFD ++ out)
            else (unquoteLoop fuel rest).map (fun out => EncodeRune rr.toNat ++ out)
        else none) := rfl

theorem unquoteLoop_other (fuel : Nat) (c : Byte) (t : List Byte) (h : c.val ≠ 0x5C) :
    unquoteLoop (fuel + 1) (c :: t) =
      (if c.val = 0x22 ∨ c.val < 0x20 then none
       else if c.val < 0x80 then (unquoteLoop fuel t).map (fun out => c :: out)
       else
        (unquoteLoop fuel ((c :: t).drop (DecodeRuneInString (c :: t)).2)).map
          (fun out => EncodeRune (DecodeRuneInString (c :: t)).1 ++ out)) := by
  show (if c.val = 0x5C then _ else _) = _
  rw [if_neg h]

/-- One turn of the second loop of `unquoteBytes` on an escape written by
`escapeByte`. -/
theorem unquoteLoop_escapeByte (fuel : Nat) (b : Byte) (hb : b.val < 0x80) (out : List Byte) :
    unquoteLoop (fuel + 1) (escapeByte b ++ out) =
      (unquoteLoop fuel out).map (fun o => b :: o) := by
  unfold escapeByte
  split_ifs with h1 h2 h3 h4 h5 h6
  · simp only [List.cons_append, List.nil_append]
    rw [unquoteLoop_escape, if_pos (by omega)]
  · have : b = 0x08 := Fin.ext h2
    subst this
    simp only [List.cons_append, List.nil_append]
    rw [unquoteLoop_escape]
    simp [Fin.coe_ofNat_eq_mod]
  · have : b = 0x0C := Fin.ext h3
    subst this
    simp only [List.cons_append, List.nil_append]
    rw [unquoteLoop_escape]
    simp [Fin.coe_ofNat_eq_mod]
  · have : b = 0x0A := Fin.ext h4
    subst this
    simp only [List.cons_append, List.nil_append]
    rw [unquoteLoop_escape]
    simp [Fin.coe_ofNat_eq_mod]
  · have : b = 0x0D := Fin.ext h5
    subst this
    simp only [List.cons_append, List.nil_append]
    rw [unquoteLoop_escape]
    simp [Fin.coe_ofNat_eq_mod]
  · have : b = 0x09 := Fin.ext h6
    subst this
    simp only [List.cons_append, List.nil_append]
    rw [unquoteLoop_escape]
    simp [Fin.coe_ofNat_eq_mod]
  · have hhi : b.val >>> 4 < 16 := by
      rw [Nat.shiftRight_eq_div_pow]; have := b.isLt; omega
    have hlo : b.val &&& 0xF < 16 := by rw [and_0F]; omega
    have hg := getu4_escape (b.val >>> 4) (b.val &&& 0xF) hhi hlo 0 0 (by decide) (by decide) out
    rw [hex_0] at hg
    have hg2 : getu4 (0x5C :: 0x75 :: 0x30 :: 0x30 :: hex (b.val >>> 4) :: hex (b.val &&& 0xF)
        :: out) = (b.val : Int) := by
      rw [hg]
      have := shift_and_eq b
      omega
    have hns : IsSurrogate (b.val : Int) = false := by
      simp only [IsSurrogate, decide_eq_false_iff_not]; omega
    have hnn : ¬ ((b.val : Int) < 0) := by omega
    simp only [List.cons_append, List.nil_append]
    rw [unquoteLoop_escape]
    simp [Fin.coe_ofNat_eq_mod, hg2, hns, hnn, encodeRune_ascii b hb]

theorem unquoteLoop_separator (fuel : Nat) (s0 s1 s2 : Byte) (hq : Seq3 s0 s1 s2)
    (hsep : rune3 s0 s1 s2 = 0x2028 ∨ rune3 s0 s1 s2 = 0x2029) (out : List Byte) :
    unquoteLoop (fuel + 1) (lit "\\u202" ++ [hex (rune3 s0 s1 s2 &&& 0xF)] ++ out) =
      (unquoteLoop fuel out).map (fun o => s0 :: s1 :: s2 :: o) := by
  have e : lit "\\u202" = [0x5C, 0x75, 0x32, 0x30, 0x32] := by decide
  obtain ⟨h0, h1, h2, hE0, hED⟩ := hq
  have henc := encode_rune3 s0 s1 s2 h0 h1 h2 hE0 hED
  have hlo : rune3 s0 s1 s2 &&& 0xF < 16 := by rw [and_0F]; omega
  have hg := getu4_escape 2 (rune3 s0 s1 s2 &&& 0xF) (by decide) hlo 2 0 (by decide)
    (by decide) out
  rw [hex_0, hex_2] at hg
  have hg2 : getu4 (0x5C :: 0x75 :: 0x32 :: 0x30 :: 0x32 :: hex (rune3 s0 s1 s2 &&& 0xF) :: out)
      = (rune3 s0 s1 s2 : Int) := by
    rw [hg, and_0F]
    rcases hsep with h | h <;> rw [h] <;> rfl
  have hns : IsSurrogate (rune3 s0 s1 s2 : Int) = false := by
    simp only [IsSurrogate, decide_eq_false_iff_not]
    rcases hsep with h | h <;> rw [h] <;> omega
  have hnn : ¬ ((rune3 s0 s1 s2 : Int) < 0) := by omega
  rw [e]
  simp only [List.cons_append, List.nil_append]
  rw [unquoteLoop_escape]
  simp [Fin.coe_ofNat_eq_mod, hg2, hns, hnn, henc]

/-- The second loop of `unquoteBytes` gives back the source of what
`appendString` wrote for valid UTF-8. -/
theorem unquoteLoop_encoded (v : Bool) (src out : List Byte) (h : Encoded v src out)
    (hv : v = true) : ∀ fuel, out.length ≤ fuel → unquoteLoop fuel out = some src := by
  induction h with
  | nil => intro fuel _; cases fuel <;> rfl
  | safe v b rest out hb hs _ ih =>
    intro fuel hf
    cases fuel with
    | zero => simp at hf
    | succ fuel =>
      simp only [htmlSafeSet, decide_eq_true_eq] at hs
      rw [unquoteLoop_other fuel b out (by omega), if_neg (by omega), if_pos hb,
        ih hv fuel (by simp at hf; omega)]
      rfl
  | esc v b rest out hb hs _ ih =>
    intro fuel hf
    cases fuel with
    | zero =>
      exfalso
      have : 0 < (escapeByte b).length := by
        unfold escapeByte; split_ifs <;> simp
      rw [List.length_append] at hf
      omega
    | succ fuel =>
      have hlen : out.length ≤ fuel := by
        have : 2 ≤ (escapeByte b).length := by
          unfold escapeByte; split_ifs <;> simp
        rw [List.length_append] at hf
        omega
      rw [unquoteLoop_escapeByte fuel b hb out, ih hv fuel hlen]
      rfl
  | bad b rest out hb _ ih => cases hv
  | seq2 v s0 s1 rest out hq _ ih =>
    intro fuel hf
    cases fuel with
    | zero => simp at hf
    | succ fuel =>
      have h0 := hq.1
      rw [unquoteLoop_other fuel s0 (s1 :: out) (by omega), if_neg (by omega), if_neg (by omega),
        decode_of_seq2 s0 s1 hq]
      simp only [List.drop_succ_cons, List.drop_zero]
      rw [ih hv fuel (by simp at hf; omega), encode_rune2 s0 s1 hq.1 hq.2]
      rfl
  | seq3 v s0 s1 s2 rest out hq _ _ _ ih =>
    intro fuel hf
    cases fuel with
    | zero => simp at hf
    | succ fuel =>
      obtain ⟨h0, h1, h2, hE0, hED⟩ := hq
      rw [unquoteLoop_other fuel s0 (s1 :: s2 :: out) (by omega), if_neg (by omega),
        if_neg (by omega), decode_of_seq3 s0 s1 s2 ⟨h0, h1, h2, hE0, hED⟩]
      simp only [List.drop_succ_cons, List.drop_zero]
      rw [ih hv fuel (by simp at hf; omega), encode_rune3 s0 s1 s2 h0 h1 h2 hE0 hED]
      rfl
  | sep v s0 s1 s2 rest out hq hsep _ ih =>
    intro fuel hf
    cases fuel with
    | zero => simp at hf
    | succ fuel =>
      have hlen : out.length ≤ fuel := by
        have : (lit "\\u202").length = 5 := by decide
        simp only [List.length_append, List.length_singleton] at hf
        omega
      rw [unquoteLoop_separator fuel s0 s1 s2 hq hsep out, ih hv fuel hlen]
      rfl
  | seq4 v s0 s1 s2 s3 rest out hq _ ih =>
    intro fuel hf
    cases fuel with
    | zero => simp at hf
    | succ fuel =>
      obtain ⟨h0, h1, h2, h3, hF0, hF4⟩ := hq
      rw [unquoteLoop_other fuel s0 (s1 :: s2 :: s3 :: out) (by omega), if_neg (by omega),
        if_neg (by omega), decode_of_seq4 s0 s1 s2 s3 ⟨h0, h1, h2, h3, hF0, hF4⟩]
      simp only [List.drop_succ_cons, List.drop_zero]
      rw [ih hv fuel (by simp at hf; omega), encode_rune4 s0 s1 s2 s3 h0 h1 h2 h3 hF0 hF4]
      rfl

theorem unquoteScan_cons (fuel : Nat) (c : Byte) (t : List Byte) (r : Nat) :
    unquoteScan (fuel + 1) (c :: t) r =
      (if c.val = 0x5C ∨ c.val = 0x22 ∨ c.val < 0x20 then r
       else if c.val < 0x80 then unquoteScan fuel t (r + 1)
       else
        if (DecodeRuneInString (c :: t)).1 = RuneError ∧ (DecodeRuneInString (c :: t)).2 = 1 then r
        else unquoteScan fuel ((c :: t).drop (DecodeRuneInString (c :: t)).2)
          (r + (DecodeRuneInString (c :: t)).2)) := rfl

theorem unquoteScan_backslash (fuel : Nat) (t : List Byte) (r : Nat) :
    unquoteScan fuel (0x5C :: t) r = r := by
  cases fuel with
  | zero => rfl
  | succ fuel => rw [unquoteScan_cons]; simp [Fin.coe_ofNat_eq_mod]

theorem escapeByte_head (b : Byte) : ∃ t, escapeByte b = 0x5C :: t := by
  unfold escapeByte
  split_ifs <;> exact ⟨_, rfl⟩

theorem encoded_nil_out (v : Bool) (src : List Byte) (h : Encoded v src []) : src = [] := by
  generalize ho : ([] : List Byte) = out at h
  cases h with
  | nil => rfl
  | esc v b rest out hb hs _ =>
    obtain ⟨t, ht⟩ := escapeByte_head b
    rw [ht] at ho; cases ho
  | bad b rest out hb _ =>
    have e : lit "\\ufffd" = [0x5C, 0x75, 0x66, 0x66, 0x66, 0x64] := by decide
    rw [e] at ho; cases ho
  | sep v s0 s1 s2 rest out hq hsep _ =>
    have e : lit "\\u202" = [0x5C, 0x75, 0x32, 0x30, 0x32] := by decide
    rw [e] at ho; cases ho
  | _ => cases ho

/-- The first loop of `unquoteBytes` stops at the first escape; up to there the
literal is its own source. -/
theorem unquoteScan_encoded (v : Bool) (src out : List Byte) (h : Encoded v src out)
    (hv : v = true) : ∀ fuel r0, out.length ≤ fuel →
    ∃ pre srcRest outRest, out = pre ++ outRest ∧ src = pre ++ srcRest ∧
      Encoded v srcRest outRest ∧ unquoteScan fuel out r0 = r0 + pre.length := by
  induction h with
  | nil v => intro fuel r0 _; exact ⟨[], [], [], rfl, rfl, Encoded.nil v, by cases fuel <;> rfl⟩
  | safe v b rest out hb hs hrest ih =>
    intro fuel r0 hf
    cases fuel with
    | zero => simp at hf
    | succ fuel =>
      obtain ⟨pre, srcRest, outRest, e1, e2, e3, e4⟩ := ih hv fuel (r0 + 1) (by simp at hf; omega)
      refine ⟨b :: pre, srcRest, outRest, by rw [e1]; rfl, by rw [e2]; rfl, e3, ?_⟩
      simp only [htmlSafeSet, decide_eq_true_eq] at hs
      rw [unquoteScan_cons, if_neg (by omega), if_pos hb, e4, List.length_cons]
      omega
  | esc v b rest out hb hs hrest ih =>
    intro fuel r0 hf
    refine ⟨[], b :: rest, escapeByte b ++ out, rfl, rfl, Encoded.esc v b rest out hb hs hrest, ?_⟩
    obtain ⟨t, ht⟩ := escapeByte_head b
    rw [ht, List.cons_append, unquoteScan_backslash]
    rfl
  | bad b rest out hb _ ih => cases hv
  | seq2 v s0 s1 rest out hq hrest ih =>
    intro fuel r0 hf
    cases fuel with
    | zero => simp at hf
    | succ fuel =>
      obtain ⟨pre, srcRest, outRest, e1, e2, e3, e4⟩ := ih hv fuel (r0 + 2) (by simp at hf; omega)
      refine ⟨s0 :: s1 :: pre, srcRest, outRest, by rw [e1]; rfl, by rw [e2]; rfl, e3, ?_⟩
      have h0 := hq.1
      rw [unquoteScan_cons, if_neg (by omega), if_neg (by omega), decode_of_seq2 s0 s1 hq]
      simp only [List.drop_succ_cons, List.drop_zero]
      rw [if_neg (by simp), e4]
      simp only [List.length_cons]
      omega
  | seq3 v s0 s1 s2 rest out hq _ _ hrest ih =>
    intro fuel r0 hf
    cases fuel with
    | zero => simp at hf
    | succ fuel =>
      obtain ⟨pre, srcRest, outRest, e1, e2, e3, e4⟩ := ih hv fuel (r0 + 3) (by simp at hf; omega)
      refine ⟨s0 :: s1 :: s2 :: pre, srcRest, outRest, by rw [e1]; rfl, by rw [e2]; rfl, e3, ?_⟩
      have h0 := hq.1
      rw [unquoteScan_cons, if_neg (by omega), if_neg (by omega), decode_of_seq3 s0 s1 s2 hq]
      simp only [List.drop_succ_cons, List.drop_zero]
      rw [if_neg (by simp), e4]
      simp only [List.length_cons]
      omega
  | sep v s0 s1 s2 rest out hq hsep hrest ih =>
    intro fuel r0 hf
    refine ⟨[], s0 :: s1 :: s2 :: rest, _, rfl, rfl, Encoded.sep v s0 s1 s2 rest out hq hsep hrest,
      ?_⟩
    have e : lit "\\u202" = [0x5C, 0x75, 0x32, 0x30, 0x32] := by decide
    rw [e]
    simp only [List.cons_append, List.nil_append]
    rw [unquoteScan_backslash]
    rfl
  | seq4 v s0 s1 s2 s3 rest out hq hrest ih =>
    intro fuel r0 hf
    cases fuel with
    | zero => simp at hf
    | succ fuel =>
      obtain ⟨pre, srcRest, outRest, e1, e2, e3, e4⟩ := ih hv fuel (r0 + 4) (by simp at hf; omega)
      refine ⟨s0 :: s1 :: s2 :: s3 :: pre, srcRest, outRest, by rw [e1]; rfl, by rw [e2]; rfl, e3,
        ?_⟩
      have h0 := hq.1
      rw [unquoteScan_cons, if_neg (by omega), if_neg (by omega),
        decode_of_seq4 s0 s1 s2 s3 hq]
      simp only [List.drop_succ_cons, List.drop_zero]
      rw [if_neg (by simp), e4]
      simp only [List.length_cons]
      omega

/-- `unquoteBytes` gives back the source of the literal `appendString` wrote
for valid UTF-8. -/
theorem unquoteBytes_encoded (src out : List Byte) (h : Encoded true src out) :
    unquoteBytes (0x22 :: (out ++ [0x22])) = some src := by
  obtain ⟨pre, srcRest, outRest, e1, e2, e3, e4⟩ :=
    unquoteScan_encoded true src out h rfl out.length 0 (le_refl _)
  have hbody : ((0x22 :: (out ++ [0x22])).drop 1).dropLast = out := by
    simp
  have hlen : ¬ ((0x22 :: (out ++ [0x22])).length < 2) := by simp
  have hhead : (0x22 :: (out ++ [0x22])).head? = some 0x22 := rfl
  have hlast : (0x22 :: (out ++ [0x22])).getLast? = some 0x22 := by
    have : (0x22 : Byte) :: (out ++ [0x22]) = (0x22 :: out) ++ [0x22] := rfl
    rw [this]
    exact List.getLast?_concat _
  simp only [unquoteBytes, hlen, hhead, hlast, hbody, ne_eq, not_true_eq_false, or_self,
    if_false, e4, Nat.zero_add]
  by_cases hr : pre.length = out.length
  · rw [if_pos hr]
    have : outRest = [] := by
      have := congrArg List.length e1
      simp only [List.length_append] at this
      exact List.length_eq_zero.1 (by omega)
    subst this
    have hs := encoded_nil_out _ _ e3
    subst hs
    simp at e1 e2
    rw [e1, e2]
  · rw [if_neg hr]
    have hd : out.drop pre.length = outRest := by rw [e1]; simp
    have ht : out.take pre.length = pre := by rw [e1]; simp
    have hl : outRest.length ≤ out.length := by rw [e1]; simp
    rw [hd, ht, unquoteLoop_encoded true srcRest outRest e3 rfl out.length hl, e2]
    rfl

/-! ## Reading back what `MarshalIndent` wrote -/

theorem rescanString_cons (c : Byte) (t : List Byte) :
    rescanString (c :: t) =
      (if c.val = 0x5C then
        match t with
        | [] => ([c], [])
        | e :: t1 => (c :: e :: (rescanString t1).1, (rescanString t1).2)
      else if c.val = 0x22 then ([c], t)
      else (c :: (rescanString t).1, (rescanString t).2)) := by
  cases t <;> rfl

theorem rescanString_quote (t : List Byte) : rescanString (0x22 :: t) = ([0x22], t) := by
  rw [rescanString_cons]
  simp [Fin.coe_ofNat_eq_mod]

theorem rescanString_escape (e : Byte) (t : List Byte) :
    rescanString (0x5C :: e :: t) = (0x5C :: e :: (rescanString t).1, (rescanString t).2) := by
  rw [rescanString_cons]
  simp [Fin.coe_ofNat_eq_mod]

theorem rescanString_plain (p t : List Byte) (hp : ∀ c ∈ p, plainByte c = true) :
    rescanString (p ++ t) = (p ++ (rescanString t).1, (rescanString t).2) := by
  induction p with
  | nil => rfl
  | cons c p ih =>
    have hc := hp c (List.mem_cons_self _ _)
    simp only [plainByte, decide_eq_true_eq] at hc
    rw [List.cons_append, rescanString_cons, if_neg (by omega), if_neg (by omega),
      ih (fun c hc => hp c (List.mem_cons_of_mem _ hc))]
    rfl

set_option maxRecDepth 100000 in
theorem plainByte_hex : ∀ n : Fin 16, plainByte (hex n.val) = true := by decide

theorem rescanString_escapeByte (b : Byte) (t : List Byte) :
    rescanString (escapeByte b ++ t) = (escapeByte b ++ (rescanString t).1, (rescanString t).2) := by
  have hhi : b.val >>> 4 < 16 := by
    rw [Nat.shiftRight_eq_div_pow]; have := b.isLt; omega
  have hlo : b.val &&& 0xF < 16 := by rw [and_0F]; omega
  have p1 := plainByte_hex ⟨_, hhi⟩
  have p2 := plainByte_hex ⟨_, hlo⟩
  unfold escapeByte
  split_ifs
  all_goals simp only [List.cons_append, List.nil_append, rescanString_escape]
  have := rescanString_plain [0x30, 0x30, hex (b.val >>> 4), hex (b.val &&& 0xF)] t (by
    intro c hc
    simp only [List.mem_cons, List.mem_singleton, List.not_mem_nil, or_false] at hc
    rcases hc with rfl | rfl | rfl | rfl
    · decide
    · decide
    · exact p1
    · exact p2)
  simp only [List.cons_append, List.nil_append] at this
  rw [this]

/-- Passing over a literal that `appendString` wrote ends at its closing
quote. -/
theorem rescanString_encoded (v : Bool) (src out : List Byte) (h : Encoded v src out)
    (t : List Byte) : rescanString (out ++ 0x22 :: t) = (out ++ [0x22], t) := by
  induction h with
  | nil => exact rescanString_quote t
  | safe v b rest out hb hs _ ih =>
    have := rescanString_plain [b] (out ++ 0x22 :: t) (by simpa using plainByte_of_safe b hs)
    simp only [List.cons_append, List.nil_append, List.singleton_append] at this ⊢
    rw [this, ih]
  | esc v b rest out hb hs _ ih =>
    rw [List.append_assoc, rescanString_escapeByte, ih, List.append_assoc]
  | bad b rest out hb _ ih =>
    have e : lit "\\ufffd" = [0x5C, 0x75, 0x66, 0x66, 0x66, 0x64] := by decide
    have := rescanString_plain [0x66, 0x66, 0x66, 0x64] (out ++ 0x22 :: t) (by
      intro c hc
      simp only [List.mem_cons, List.mem_singleton, List.not_mem_nil, or_false] at hc
      rcases hc with rfl | rfl | rfl | rfl <;> decide)
    simp only [List.cons_append, List.nil_append] at this
    rw [e]
    simp only [List.cons_append, List.nil_append, rescanString_escape, this, ih]
  | seq2 v s0 s1 rest out hq _ ih =>
    obtain ⟨h0, h1⟩ := hq
    have := rescanString_plain [s0, s1] (out ++ 0x22 :: t) (by
      intro c hc
      simp only [List.mem_cons, List.mem_singleton, List.not_mem_nil, or_false] at hc
      rcases hc with rfl | rfl <;> exact plainByte_of_ge _ (by omega))
    simp only [List.cons_append, List.nil_append] at this ⊢
    rw [this, ih]
  | seq3 v s0 s1 s2 rest out hq _ _ _ ih =>
    obtain ⟨h0, h1, h2, _, _⟩ := hq
    have := rescanString_plain [s0, s1, s2] (out ++ 0x22 :: t) (by
      intro c hc
      simp only [List.mem_cons, List.mem_singleton, List.not_mem_nil, or_false] at hc
      rcases hc with rfl | rfl | rfl <;> exact plainByte_of_ge _ (by omega))
    simp only [List.cons_append, List.nil_append] at this ⊢
    rw [this, ih]
  | sep v s0 s1 s2 rest out hq hsep _ ih =>
    have e : lit "\\u202" = [0x5C, 0x75, 0x32, 0x30, 0x32] := by decide
    have hlo : rune3 s0 s1 s2 &&& 0xF < 16 := by rw [and_0F]; omega
    have p2 := plainByte_hex ⟨_, hlo⟩
    have := rescanString_plain [0x32, 0x30, 0x32, hex (rune3 s0 s1 s2 &&& 0xF)]
      (out ++ 0x22 :: t) (by
        intro c hc
        simp only [List.mem_cons, List.mem_singleton, List.not_mem_nil, or_false] at hc
        rcases hc with rfl | rfl | rfl | rfl
        · decide
        · decide
        · decide
        · exact p2)
    simp only [List.cons_append, List.nil_append] at this
    rw [e]
    simp only [List.cons_append, List.nil_append, List.append_assoc, rescanString_escape, this, ih]
  | seq4 v s0 s1 s2 s3 rest out hq _ ih =>
    obtain ⟨h0, h1, h2, h3, _, _⟩ := hq
    have := rescanString_plain [s0, s1, s2, s3] (out ++ 0x22 :: t) (by
      intro c hc
      simp only [List.mem_cons, List.mem_singleton, List.not_mem_nil, or_false] at hc
      rcases hc with rfl | rfl | rfl | rfl <;> exact plainByte_of_ge _ (by omega))
    simp only [List.cons_append, List.nil_append] at this ⊢
    rw [this, ih]

theorem checkValidLoop_append (a rest : List Byte) (s s1 : Scanner)
    (h : checkValidLoop a s = (s1, false)) :
    checkValidLoop (a ++ rest) s = checkValidLoop rest s1 := by
  induction a generalizing s with
  | nil => simp only [checkValidLoop, Prod.mk.injEq, and_true] at h; subst h; rfl
  | cons c t ih =>
    simp only [checkValidLoop] at h
    split at h
    · simp at h
    · rename_i hc
      simp only [List.cons_append, checkValidLoop, hc, if_false]
      exact ih _ h

theorem checkValidLoop_quiet (l : List Byte) (s s1 : Scanner) (h : quiet s l = some s1) :
    checkValidLoop l s = (s1, false) := by
  induction l generalizing s with
  | nil => simp only [quiet, Option.some.injEq] at h; subst h; rfl
  | cons c t ih =>
    simp only [quiet] at h
    split at h
    · rename_i hc
      have hne : ¬ (s.run c).2 = scanError := by rw [hc]; decide
      simp only [checkValidLoop, hne, if_false]
      exact ih _ h
    · cases h

/-- The scanner accepts the indented text of a snapshot. -/
theorem checkValid_indentedDoc (b1 b2 b3 b4 tb : List Byte)
    (h1 : quiet (inString false [parseObjectValue] none) b1 =
      some (inString false [parseObjectValue] none))
    (h2 : quiet (inString false [parseObjectValue] none) b2 =
      some (inString false [parseObjectValue] none))
    (h3 : quiet (inString false [parseObjectValue] none) b3 =
      some (inString false [parseObjectValue] none))
    (h4 : quiet (inString false [parseObjectValue] none) b4 =
      some (inString false [parseObjectValue] none))
    (h5 : quiet (inString false [parseObjectValue] none) tb =
      some (inString false [parseObjectValue] none)) :
    checkValid (indentedDoc b1 b2 b3 b4 tb) = none := by
  have k0 : checkValidLoop (lit "\x7b\n  \"name\": \"") Scanner.reset =
      (inString false [parseObjectValue] none, false) := by decide
  have k1 : checkValidLoop (lit "\",\n  \"email\": \"") (inString false [parseObjectValue] none) =
      (inString false [parseObjectValue] none, false) := by decide
  have k2 : checkValidLoop (lit "\",\n  \"phone\": \"") (inString false [parseObjectValue] none) =
      (inString false [parseObjectValue] none, false) := by decide
  have k3 : checkValidLoop (lit "\",\n  \"message\": \"")
      (inString false [parseObjectValue] none) =
      (inString false [parseObjectValue] none, false) := by decide
  have k4 : checkValidLoop (lit "\",\n  \"timestamp\": \"")
      (inString false [parseObjectValue] none) =
      (inString false [parseObjectValue] none, false) := by decide
  have k5 : checkValidLoop (lit "\"\n\x7d") (inString false [parseObjectValue] none) =
      ({ step := Step.stateEndTop, endTop := true, parseState := [], err := none }, false) := by
    decide
  have hloop : checkValidLoop (indentedDoc b1 b2 b3 b4 tb) Scanner.reset =
      ({ step := Step.stateEndTop, endTop := true, parseState := [], err := none }, false) := by
    simp only [indentedDoc, List.append_assoc]
    rw [checkValidLoop_append _ _ _ _ k0, checkValidLoop_append _ _ _ _ (checkValidLoop_quiet _ _ _ h1),
      checkValidLoop_append _ _ _ _ k1, checkValidLoop_append _ _ _ _ (checkValidLoop_quiet _ _ _ h2),
      checkValidLoop_append _ _ _ _ k2, checkValidLoop_append _ _ _ _ (checkValidLoop_quiet _ _ _ h3),
      checkValidLoop_append _ _ _ _ k3, checkValidLoop_append _ _ _ _ (checkValidLoop_quiet _ _ _ h4),
      checkValidLoop_append _ _ _ _ k4, checkValidLoop_append _ _ _ _ (checkValidLoop_quiet _ _ _ h5),
      k5]
  have heof : Scanner.eof
      { step := Step.stateEndTop, endTop := true, parseState := [], err := none } =
      ({ step := Step.stateEndTop, endTop := true, parseState := [], err := none }, scanEnd) := by
    decide
  simp only [checkValid, hloop, heof]
  simp [scanEnd, scanError]

theorem scanWhileLoop_upTo (op : Nat) (p : List Byte) (s s1 : Scanner) (c : Byte) (o : Nat)
    (h : scanWhilePrefix op p s = some (c, s1, o)) (rest : List Byte) (d : DecodeState)
    (hd : d.scan = s) :
    scanWhileLoop op (p ++ rest) d = { d with rest := rest, last := c, scan := s1, opcode := o } := by
  induction p generalizing s d with
  | nil => simp [scanWhilePrefix] at h
  | cons a t ih =>
    subst hd
    simp only [scanWhilePrefix] at h
    split at h
    · rename_i hne
      split at h
      · rename_i ht
        subst ht
        simp only [Option.some.injEq, Prod.mk.injEq] at h
        obtain ⟨e1, e2, e3⟩ := h
        subst e1 e2 e3
        simp only [List.cons_append, List.nil_append, scanWhileLoop]
        rw [if_pos hne]
        rfl
      · cases h
    · rename_i hne
      simp only [List.cons_append, scanWhileLoop]
      rw [if_neg hne]
      exact ih _ h _ rfl

theorem rescanLiteral_string (d : DecodeState) (body : List Byte) (c : Byte) (rest1 : List Byte)
    (hlast : d.last = 0x22) (hrest : d.rest = body ++ 0x22 :: c :: rest1)
    (hre : rescanString (body ++ 0x22 :: c :: rest1) = (body ++ [0x22], c :: rest1)) :
    d.rescanLiteral = (0x22 :: (body ++ [0x22]),
      { d with rest := rest1, last := c, scan := (stateEndValue d.scan c).1,
               opcode := (stateEndValue d.scan c).2 }) := by
  simp only [DecodeState.rescanLiteral, hlast, hrest, hre, Fin.coe_ofNat_eq_mod, Nat.reduceMod,
    if_true]

theorem objectLoop_succ (h : Host) (fuel : Nat) (d : DecodeState) (v : FormData) :
    objectLoop h (fuel + 1) d v =
      (if (d.scanWhile scanSkipSpace).opcode = scanEndObject then
          Decoded.next (d.scanWhile scanSkipSpace) v
        else if (d.scanWhile scanSkipSpace).opcode ≠ scanBeginLiteral then Decoded.panic v
        else
          match unquoteBytes ((d.scanWhile scanSkipSpace).rescanLiteral).1 with
          | none => Decoded.panic v
          | some key =>
            if (if ((d.scanWhile scanSkipSpace).rescanLiteral).2.opcode = scanSkipSpace then
                  ((d.scanWhile scanSkipSpace).rescanLiteral).2.scanWhile scanSkipSpace
                else ((d.scanWhile scanSkipSpace).rescanLiteral).2).opcode ≠ scanObjectKey then
              Decoded.panic v
            else
              match fieldValue h
                  ((if ((d.scanWhile scanSkipSpace).rescanLiteral).2.opcode = scanSkipSpace then
                      ((d.scanWhile scanSkipSpace).rescanLiteral).2.scanWhile scanSkipSpace
                    else ((d.scanWhile scanSkipSpace).rescanLiteral).2).scanWhile scanSkipSpace)
                  v (lookupField h.foldRune key) with
              | Decoded.next d4 v1 =>
                if (if d4.opcode = scanSkipSpace then d4.scanWhile scanSkipSpace else d4).opcode
                    = scanEndObject then
                  Decoded.next (if d4.opcode = scanSkipSpace then d4.scanWhile scanSkipSpace else d4)
                    v1
                else if (if d4.opcode = scanSkipSpace then d4.scanWhile scanSkipSpace
                    else d4).opcode ≠ scanObjectValue then Decoded.panic v1
                else objectLoop h fuel
                  (if d4.opcode = scanSkipSpace then d4.scanWhile scanSkipSpace else d4) v1
              | other => other) := by
  rfl

theorem encoded_plain (key : List Byte)
    (hk : ∀ c ∈ key, c.val < 0x80 ∧ htmlSafeSet c.val = true) : Encoded true key key := by
  induction key with
  | nil => exact Encoded.nil _
  | cons c t ih =>
    exact Encoded.safe _ c t t (hk c (List.mem_cons_self _ _)).1 (hk c (List.mem_cons_self _ _)).2
      (ih (fun c hc => hk c (List.mem_cons_of_mem _ hc)))

theorem literalStore_string (h : Host) (d : DecodeState) (body src : List Byte) (v : FormData)
    (f : Field) (hf : f ≠ Field.Timestamp)
    (hu : unquoteBytes (0x22 :: (body ++ [0x22])) = some src) :
    literalStore h d (0x22 :: (body ++ [0x22])) v (some f) = Decoded.next d (setString v f src) := by
  cases f <;> first | exact absurd rfl hf | simp [literalStore, hu, Fin.coe_ofNat_eq_mod]

/-- One turn of the object loop on a member with a string value that a comma
follows. -/
theorem objectLoop_member (h : Host) (fuel : Nat) (s0 : Scanner)
    (hs0 : scanWhilePrefix scanSkipSpace [0x0A, 0x20, 0x20, 0x22] s0 =
      some (0x22, inString false [parseObjectKey] none, scanBeginLiteral))
    (key : List Byte) (f : Field) (hf : lookupField h.foldRune key = some f)
    (hfs : f ≠ Field.Timestamp) (hkey : Encoded true key key)
    (src body : List Byte) (hb : Encoded true src body)
    (rest1 : List Byte) (last0 : Byte) (op0 : Nat) (v : FormData) :
    objectLoop h (fuel + 1)
        { rest := [0x0A, 0x20, 0x20, 0x22] ++ (key ++ 0x22 :: 0x3A ::
            ([0x20, 0x22] ++ (body ++ 0x22 :: 0x2C :: rest1)))
          last := last0, scan := s0, opcode := op0, savedError := none } v =
      objectLoop h fuel
        { rest := rest1, last := 0x2C
          scan := { step := Step.stateBeginString, endTop := false,
                    parseState := [parseObjectKey], err := none }
          opcode := scanObjectValue, savedError := none } (setString v f src) := by
  have e1 : (DecodeState.scanWhile
      { rest := [0x0A, 0x20, 0x20, 0x22] ++ (key ++ 0x22 :: 0x3A ::
            ([0x20, 0x22] ++ (body ++ 0x22 :: 0x2C :: rest1)))
        last := last0, scan := s0, opcode := op0, savedError := none } scanSkipSpace) =
      { rest := key ++ 0x22 :: 0x3A :: ([0x20, 0x22] ++ (body ++ 0x22 :: 0x2C :: rest1))
        last := 0x22, scan := inString false [parseObjectKey] none, opcode := scanBeginLiteral
        savedError := none } := by
    simp only [DecodeState.scanWhile]
    rw [scanWhileLoop_upTo _ _ _ _ _ _ hs0 _ _ rfl]
  have e2 := rescanLiteral_string
      { rest := key ++ 0x22 :: 0x3A :: ([0x20, 0x22] ++ (body ++ 0x22 :: 0x2C :: rest1))
        last := 0x22, scan := inString false [parseObjectKey] none, opcode := scanBeginLiteral
        savedError := none } key 0x3A ([0x20, 0x22] ++ (body ++ 0x22 :: 0x2C :: rest1)) rfl rfl
      (rescanString_encoded true key key hkey _)
  have e3 : stateEndValue (inString false [parseObjectKey] none) 0x3A =
      ({ step := Step.stateBeginValue, endTop := false, parseState := [parseObjectValue],
         err := none }, scanObjectKey) := by decide
  have e4 : scanWhilePrefix scanSkipSpace [0x20, 0x22]
      { step := Step.stateBeginValue, endTop := false, parseState := [parseObjectValue],
        err := none } = some (0x22, inString false [parseObjectValue] none, scanBeginLiteral) := by
    decide
  have e5 : (DecodeState.scanWhile
      { rest := [0x20, 0x22] ++ (body ++ 0x22 :: 0x2C :: rest1), last := 0x3A
        scan := { step := Step.stateBeginValue, endTop := false,
                  parseState := [parseObjectValue], err := none }
        opcode := scanObjectKey, savedError := none } scanSkipSpace) =
      { rest := body ++ 0x22 :: 0x2C :: rest1, last := 0x22
        scan := inString false [parseObjectValue] none, opcode := scanBeginLiteral
        savedError := none } := by
    simp only [DecodeState.scanWhile]
    rw [scanWhileLoop_upTo _ _ _ _ _ _ e4 _ _ rfl]
  have e6 := rescanLiteral_string
      { rest := body ++ 0x22 :: 0x2C :: rest1, last := 0x22
        scan := inString false [parseObjectValue] none, opcode := scanBeginLiteral
        savedError := none } body 0x2C rest1 rfl rfl (rescanString_encoded true src body hb _)
  have e7 : stateEndValue (inString false [parseObjectValue] none) 0x2C =
      ({ step := Step.stateBeginString, endTop := false, parseState := [parseObjectKey],
         err := none }, scanObjectValue) := by decide
  have e8 : fieldValue h
      { rest := body ++ 0x22 :: 0x2C :: rest1, last := 0x22
        scan := inString false [parseObjectValue] none, opcode := scanBeginLiteral
        savedError := none } v (some f) =
      Decoded.next
        { rest := rest1, last := 0x2C
          scan := { step := Step.stateBeginString, endTop := false,
                    parseState := [parseObjectKey], err := none }
          opcode := scanObjectValue, savedError := none } (setString v f src) := by
    have hop : ¬ (scanBeginLiteral = scanBeginArray ∨ scanBeginLiteral = scanBeginObject) := by
      decide
    simp only [fieldValue, hop, if_false, if_true, e6, e7]
    exact literalStore_string h _ body src v f hfs (unquoteBytes_encoded src body hb)
  have n1 : ¬ (scanBeginLiteral = scanEndObject) := by decide
  have n2 : ¬ (scanBeginLiteral ≠ scanBeginLiteral) := by decide
  have n3 : ¬ (scanObjectKey = scanSkipSpace) := by decide
  have n4 : ¬ (scanObjectKey ≠ scanObjectKey) := by decide
  have n5 : ¬ (scanObjectValue = scanSkipSpace) := by decide
  have n6 : ¬ (scanObjectValue = scanEndObject) := by decide
  have n7 : ¬ (scanObjectValue ≠ scanObjectValue) := by decide
  rw [objectLoop_succ]
  simp only [e1, n1, n2, if_false, e2, e3, unquoteBytes_encoded key key hkey, n3, n4, e5, hf, e8,
    n5, n6, n7]

theorem lookupField_name (f : Nat → Nat) : lookupField f (lit "name") = some Field.Name := by
  simp [lookupField, structFields, List.find?]
theorem lookupField_email (f : Nat → Nat) : lookupField f (lit "email") = some Field.Email := by
  have h1 : ¬ lit "name" = lit "email" := by decide
  simp [lookupField, structFields, List.find?, h1]
theorem lookupField_phone (f : Nat → Nat) : lookupField f (lit "phone") = some Field.Phone := by
  have h1 : ¬ lit "name" = lit "phone" := by decide
  have h2 : ¬ lit "email" = lit "phone" := by decide
  simp [lookupField, structFields, List.find?, h1, h2]
theorem lookupField_message (f : Nat → Nat) :
    lookupField f (lit "message") = some Field.Message := by
  have h1 : ¬ lit "name" = lit "message" := by decide
  have h2 : ¬ lit "email" = lit "message" := by decide
  have h3 : ¬ lit "phone" = lit "message" := by decide
  simp [lookupField, structFields, List.find?, h1, h2, h3]
theorem lookupField_timestamp (f : Nat → Nat) :
    lookupField f (lit "timestamp") = some Field.Timestamp := by
  have h1 : ¬ lit "name" = lit "timestamp" := by decide
  have h2 : ¬ lit "email" = lit "timestamp" := by decide
  have h3 : ¬ lit "phone" = lit "timestamp" := by decide
  have h4 : ¬ lit "message" = lit "timestamp" := by decide
  simp [lookupField, structFields, List.find?, h1, h2, h3, h4]

/-- The turn of the object loop on the `timestamp` member, the last one. -/
theorem objectLoop_timestamp (h : Host) (fuel : Nat) (tb : List Byte)
    (htb : ∀ c ∈ tb, timeByte c = true) (last0 : Byte) (op0 : Nat) (v : FormData) :
    objectLoop h (fuel + 1)
        { rest := [0x0A, 0x20, 0x20, 0x22] ++ (lit "timestamp" ++ 0x22 :: 0x3A ::
            ([0x20, 0x22] ++ (tb ++ 0x22 :: 0x0A :: [0x7D])))
          last := last0
          scan := { step := Step.stateBeginString, endTop := false,
                    parseState := [parseObjectKey], err := none }
          opcode := op0, savedError := none } v =
      match h.UnmarshalJSON (0x22 :: (tb ++ [0x22])) v.Timestamp with
      | (t, some err) => Decoded.stop err { v with Timestamp := t }
      | (t, none) =>
        Decoded.next
          { rest := [], last := 0x7D
            scan := { step := Step.stateEndTop, endTop := true, parseState := [], err := none }
            opcode := scanEndObject, savedError := none } { v with Timestamp := t } := by
  have hkey : Encoded true (lit "timestamp") (lit "timestamp") :=
    encoded_plain _ (by set_option maxRecDepth 100000 in decide)
  have hs0 : scanWhilePrefix scanSkipSpace [0x0A, 0x20, 0x20, 0x22]
      { step := Step.stateBeginString, endTop := false, parseState := [parseObjectKey],
        err := none } = some (0x22, inString false [parseObjectKey] none, scanBeginLiteral) := by
    decide
  have e1 : (DecodeState.scanWhile
      { rest := [0x0A, 0x20, 0x20, 0x22] ++ (lit "timestamp" ++ 0x22 :: 0x3A ::
            ([0x20, 0x22] ++ (tb ++ 0x22 :: 0x0A :: [0x7D])))
        last := last0
        scan := { step := Step.stateBeginString, endTop := false,
                  parseState := [parseObjectKey], err := none }
        opcode := op0, savedError := none } scanSkipSpace) =
      { rest := lit "timestamp" ++ 0x22 :: 0x3A :: ([0x20, 0x22] ++ (tb ++ 0x22 :: 0x0A :: [0x7D]))
        last := 0x22, scan := inString false [parseObjectKey] none, opcode := scanBeginLiteral
        savedError := none } := by
    simp only [DecodeState.scanWhile]
    rw [scanWhileLoop_upTo _ _ _ _ _ _ hs0 _ _ rfl]
  have e2 := rescanLiteral_string
      { rest := lit "timestamp" ++ 0x22 :: 0x3A :: ([0x20, 0x22] ++ (tb ++ 0x22 :: 0x0A :: [0x7D]))
        last := 0x22, scan := inString false [parseObjectKey] none, opcode := scanBeginLiteral
        savedError := none } (lit "timestamp") 0x3A ([0x20, 0x22] ++ (tb ++ 0x22 :: 0x0A :: [0x7D]))
      rfl rfl (rescanString_encoded true _ _ hkey _)
  have e3 : stateEndValue (inString false [parseObjectKey] none) 0x3A =
      ({ step := Step.stateBeginValue, endTop := false, parseState := [parseObjectValue],
         err := none }, scanObjectKey) := by decide
  have e4 : scanWhilePrefix scanSkipSpace [0x20, 0x22]
      { step := Step.stateBeginValue, endTop := false, parseState := [parseObjectValue],
        err := none } = some (0x22, inString false [parseObjectValue] none, scanBeginLiteral) := by
    decide
  have e5 : (DecodeState.scanWhile
      { rest := [0x20, 0x22] ++ (tb ++ 0x22 :: 0x0A :: [0x7D]), last := 0x3A
        scan := { step := Step.stateBeginValue, endTop := false,
                  parseState := [parseObjectValue], err := none }
        opcode := scanObjectKey, savedError := none } scanSkipSpace) =
      { rest := tb ++ 0x22 :: 0x0A :: [0x7D], last := 0x22
        scan := inString false [parseObjectValue] none, opcode := scanBeginLiteral
        savedError := none } := by
    simp only [DecodeState.scanWhile]
    rw [scanWhileLoop_upTo _ _ _ _ _ _ e4 _ _ rfl]
  have hre : rescanString (tb ++ 0x22 :: 0x0A :: [0x7D]) = (tb ++ [0x22], 0x0A :: [0x7D]) := by
    rw [rescanString_plain tb _ (fun c hc => timeByte_plain c (htb c hc)), rescanString_quote]
  have e6 := rescanLiteral_string
      { rest := tb ++ 0x22 :: 0x0A :: [0x7D], last := 0x22
        scan := inString false [parseObjectValue] none, opcode := scanBeginLiteral
        savedError := none } tb 0x0A [0x7D] rfl rfl hre
  have e7 : stateEndValue (inString false [parseObjectValue] none) 0x0A =
      ({ step := Step.stateEndValue, endTop := false, parseState := [parseObjectValue],
         err := none }, scanSkipSpace) := by decide
  have e9 : scanWhilePrefix scanSkipSpace [0x7D]
      { step := Step.stateEndValue, endTop := false, parseState := [parseObjectValue],
        err := none } =
      some (0x7D, { step := Step.stateEndTop, endTop := true, parseState := [], err := none },
        scanEndObject) := by decide
  have e10 : ∀ sv : Option Error, (DecodeState.scanWhile
      { rest := [0x7D], last := 0x0A
        scan := { step := Step.stateEndValue, endTop := false,
                  parseState := [parseObjectValue], err := none }
        opcode := scanSkipSpace, savedError := sv } scanSkipSpace) =
      { rest := [], last := 0x7D
        scan := { step := Step.stateEndTop, endTop := true, parseState := [], err := none }
        opcode := scanEndObject, savedError := sv } := by
    intro sv
    simp only [DecodeState.scanWhile]
    have := scanWhileLoop_upTo _ _ _ _ _ _ e9 []
      { rest := [0x7D], last := 0x0A
        scan := { step := Step.stateEndValue, endTop := false,
                  parseState := [parseObjectValue], err := none }
        opcode := scanSkipSpace, savedError := sv } rfl
    simpa using this
  have hf := lookupField_timestamp h.foldRune
  have e8 : fieldValue h
      { rest := tb ++ 0x22 :: 0x0A :: [0x7D], last := 0x22
        scan := inString false [parseObjectValue] none, opcode := scanBeginLiteral
        savedError := none } v (some Field.Timestamp) =
      match h.UnmarshalJSON (0x22 :: (tb ++ [0x22])) v.Timestamp with
      | (t, some err) => Decoded.stop err { v with Timestamp := t }
      | (t, none) =>
        Decoded.next
          { rest := [0x7D], last := 0x0A
            scan := { step := Step.stateEndValue, endTop := false,
                      parseState := [parseObjectValue], err := none }
            opcode := scanSkipSpace, savedError := none } { v with Timestamp := t } := by
    have hop : ¬ (scanBeginLiteral = scanBeginArray ∨ scanBeginLiteral = scanBeginObject) := by
      decide
    simp only [fieldValue, hop, if_false, if_true, e6, e7, literalStore]
  have n1 : ¬ (scanBeginLiteral = scanEndObject) := by decide
  have n2 : ¬ (scanBeginLiteral ≠ scanBeginLiteral) := by decide
  have n3 : ¬ (scanObjectKey = scanSkipSpace) := by decide
  have n4 : ¬ (scanObjectKey ≠ scanObjectKey) := by decide
  rw [objectLoop_succ]
  simp only [e1, n1, n2, if_false, e2, e3, unquoteBytes_encoded _ _ hkey, n3, n4, e5, hf, e8]
  generalize h.UnmarshalJSON (0x22 :: (tb ++ [0x22])) v.Timestamp = r
  rcases r with ⟨t, _ | err⟩
  · simp only [if_true, e10]
  · rfl

theorem indentedDoc_members (b1 b2 b3 b4 tb : List Byte) :
    indentedDoc b1 b2 b3 b4 tb =
      [0x7B] ++ docMembers b1 b2 b3 b4 tb := by
  have g1 : lit "\x7b\n  \"name\": \"" =
      0x7B :: 0x0A :: 0x20 :: 0x20 :: 0x22 :: (lit "name" ++ [0x22, 0x3A, 0x20, 0x22]) := by decide
  have g2 : lit "\",\n  \"email\": \"" =
      0x22 :: 0x2C :: 0x0A :: 0x20 :: 0x20 :: 0x22 :: (lit "email" ++ [0x22, 0x3A, 0x20, 0x22]) := by
    decide
  have g3 : lit "\",\n  \"phone\": \"" =
      0x22 :: 0x2C :: 0x0A :: 0x20 :: 0x20 :: 0x22 :: (lit "phone" ++ [0x22, 0x3A, 0x20, 0x22]) := by
    decide
  have g4 : lit "\",\n  \"message\": \"" =
      0x22 :: 0x2C :: 0x0A :: 0x20 :: 0x20 :: 0x22 :: (lit "message" ++ [0x22, 0x3A, 0x20, 0x22]) := by
    decide
  have g5 : lit "\",\n  \"timestamp\": \"" =
      0x22 :: 0x2C :: 0x0A :: 0x20 :: 0x20 :: 0x22 ::
        (lit "timestamp" ++ [0x22, 0x3A, 0x20, 0x22]) := by decide
  have g6 : lit "\"\n\x7d" = [0x22, 0x0A, 0x7D] := by decide
  simp only [indentedDoc, docMembers, g1, g2, g3, g4, g5, g6, List.append_assoc, List.cons_append,
    List.nil_append]

theorem scanWhileLoop_upTo_mk (op : Nat) (p : List Byte) (s s1 : Scanner) (c : Byte) (o : Nat)
    (h : scanWhilePrefix op p s = some (c, s1, o)) (rest rest0 : List Byte) (last0 : Byte)
    (op0 : Nat) (sv : Option Error) :
    scanWhileLoop op (p ++ rest)
        { rest := rest0, last := last0, scan := s, opcode := op0, savedError := sv } =
      { rest := rest, last := c, scan := s1, opcode := o, savedError := sv } :=
  scanWhileLoop_upTo op p s s1 c o h rest _ rfl

set_option maxRecDepth 100000 in
/-- The object loop over the members of the indented text of a snapshot. -/
theorem objectLoop_indentedDoc (h : Host) (n e p m b1 b2 b3 b4 tb : List Byte)
    (h1 : Encoded true n b1) (h2 : Encoded true e b2) (h3 : Encoded true p b3)
    (h4 : Encoded true m b4) (htb : ∀ c ∈ tb, timeByte c = true) (v0 : FormData)
    (fuel : Nat) (hfuel : 5 ≤ fuel) (last0 : Byte) (op0 : Nat) :
    objectLoop h fuel
        { rest := docMembers b1 b2 b3 b4 tb
          last := last0
          scan := { step := Step.stateBeginStringOrEmpty, endTop := false,
                    parseState := [parseObjectKey], err := none }
          opcode := op0, savedError := none } v0 =
      match h.UnmarshalJSON (0x22 :: (tb ++ [0x22])) v0.Timestamp with
      | (t, some err) =>
        Decoded.stop err { Name := n, Email := e, Phone := p, Message := m, Timestamp := t }
      | (t, none) =>
        Decoded.next
          { rest := [], last := 0x7D
            scan := { step := Step.stateEndTop, endTop := true, parseState := [], err := none }
            opcode := scanEndObject, savedError := none }
          { Name := n, Email := e, Phone := p, Message := m, Timestamp := t } := by
  have hs1 : scanWhilePrefix scanSkipSpace [0x0A, 0x20, 0x20, 0x22]
      { step := Step.stateBeginStringOrEmpty, endTop := false, parseState := [parseObjectKey],
        err := none } = some (0x22, inString false [parseObjectKey] none, scanBeginLiteral) := by
    decide
  have hs2 : scanWhilePrefix scanSkipSpace [0x0A, 0x20, 0x20, 0x22]
      { step := Step.stateBeginString, endTop := false, parseState := [parseObjectKey],
        err := none } = some (0x22, inString false [parseObjectKey] none, scanBeginLiteral) := by
    decide
  have kn : Encoded true (lit "name") (lit "name") := encoded_plain _ (by decide)
  have ke : Encoded true (lit "email") (lit "email") := encoded_plain _ (by decide)
  have kp : Encoded true (lit "phone") (lit "phone") := encoded_plain _ (by decide)
  have km : Encoded true (lit "message") (lit "message") := encoded_plain _ (by decide)
  obtain ⟨F, hF⟩ : ∃ F, fuel = F + 5 := ⟨fuel - 5, by omega⟩
  subst hF
  unfold docMembers
  rw [objectLoop_member h _ _ hs1 (lit "name") Field.Name (lookupField_name _) (by decide) kn n
      b1 h1,
    objectLoop_member h _ _ hs2 (lit "email") Field.Email (lookupField_email _) (by decide) ke e
      b2 h2,
    objectLoop_member h _ _ hs2 (lit "phone") Field.Phone (lookupField_phone _) (by decide) kp p
      b3 h3,
    objectLoop_member h _ _ hs2 (lit "message") Field.Message (lookupField_message _) (by decide)
      km m b4 h4,
    objectLoop_timestamp h _ tb htb]
  simp only [setString]

theorem topValue_object_next (h : Host) (d : DecodeState) (v : FormData) (rest : List Byte)
    (d1 : DecodeState) (v1 : FormData) (hop : d.opcode = scanBeginObject) (hrest : d.rest = rest)
    (hr : objectLoop h (rest.length + 1) d v = Decoded.next d1 v1) :
    topValue h d v = Decoded.next d1.scanNext v1 := by
  have hb : ¬ (scanBeginObject = scanBeginArray) := by decide
  unfold topValue
  rw [hop, if_neg hb, if_pos rfl, hrest, hr]

theorem topValue_object_stop (h : Host) (d : DecodeState) (v : FormData) (rest : List Byte)
    (err : Error) (v1 : FormData) (hop : d.opcode = scanBeginObject) (hrest : d.rest = rest)
    (hr : objectLoop h (rest.length + 1) d v = Decoded.stop err v1) :
    topValue h d v = Decoded.stop err v1 := by
  have hb : ¬ (scanBeginObject = scanBeginArray) := by decide
  unfold topValue
  rw [hop, if_neg hb, if_pos rfl, hrest, hr]

theorem Unmarshal_next (h : Host) (data : List Byte) (v : FormData) (d d1 : DecodeState)
    (v1 : FormData) (hvalid : checkValid data = none)
    (hd : scanWhileLoop scanSkipSpace data
      { rest := data, last := 0, scan := Scanner.reset, opcode := 0, savedError := none } = d)
    (ht : topValue h d v = Decoded.next d1 v1) :
    Unmarshal h data v = some (v1, d1.savedError) := by
  simp only [Unmarshal, hvalid, DecodeState.scanWhile, hd, ht]

theorem Unmarshal_stop (h : Host) (data : List Byte) (v : FormData) (d : DecodeState)
    (err : Error) (v1 : FormData) (hvalid : checkValid data = none)
    (hd : scanWhileLoop scanSkipSpace data
      { rest := data, last := 0, scan := Scanner.reset, opcode := 0, savedError := none } = d)
    (ht : topValue h d v = Decoded.stop err v1) :
    Unmarshal h data v = some (v1, some err) := by
  simp only [Unmarshal, hvalid, DecodeState.scanWhile, hd, ht]

theorem docMembers_length (b1 b2 b3 b4 tb : List Byte) :
    5 ≤ (docMembers b1 b2 b3 b4 tb).length + 1 := by
  simp only [docMembers, List.length_append, List.length_cons]
  omega

/-- Reading back the indented text of a snapshot fills the four strings with the
sources of the four literals and hands the timestamp literal to
`UnmarshalJSON`. -/
theorem Unmarshal_indentedDoc (h : Host) (n e p m b1 b2 b3 b4 tb : List Byte)
    (h1 : Encoded true n b1) (h2 : Encoded true e b2) (h3 : Encoded true p b3)
    (h4 : Encoded true m b4) (htb : ∀ c ∈ tb, timeByte c = true) (v0 : FormData) :
    Unmarshal h (indentedDoc b1 b2 b3 b4 tb) v0 =
      some ({ Name := n, Email := e, Phone := p, Message := m
              Timestamp := (h.UnmarshalJSON (0x22 :: (tb ++ [0x22])) v0.Timestamp).1 },
            (h.UnmarshalJSON (0x22 :: (tb ++ [0x22])) v0.Timestamp).2) := by
  have hvalid := checkValid_indentedDoc b1 b2 b3 b4 tb
    (quiet_encoded _ _ _ h1 _ _ _) (quiet_encoded _ _ _ h2 _ _ _) (quiet_encoded _ _ _ h3 _ _ _)
    (quiet_encoded _ _ _ h4 _ _ _)
    (quiet_plain _ _ _ tb (fun c hc => timeByte_plain c (htb c hc)))
  have hstart : scanWhilePrefix scanSkipSpace [0x7B]
      { step := Step.stateBeginValue, endTop := false, parseState := [], err := none } =
      some (0x7B, { step := Step.stateBeginStringOrEmpty, endTop := false,
                    parseState := [parseObjectKey], err := none }, scanBeginObject) := by decide
  have hd := scanWhileLoop_upTo_mk _ _ _ _ _ _ hstart (docMembers b1 b2 b3 b4 tb)
    (indentedDoc b1 b2 b3 b4 tb) 0 0 none
  rw [← indentedDoc_members] at hd
  have key := objectLoop_indentedDoc h n e p m b1 b2 b3 b4 tb h1 h2 h3 h4 htb v0
    ((docMembers b1 b2 b3 b4 tb).length + 1) (docMembers_length b1 b2 b3 b4 tb) 0x7B
    scanBeginObject
  rcases hr : h.UnmarshalJSON (0x22 :: (tb ++ [0x22])) v0.Timestamp with ⟨t, _ | err⟩
  · rw [hr] at key
    exact Unmarshal_next h _ v0 _ _ _ hvalid hd
      (topValue_object_next h _ v0 _ _ _ rfl rfl key)
  · rw [hr] at key
    exact Unmarshal_stop h _ v0 _ _ _ hvalid hd
      (topValue_object_stop h _ v0 _ _ _ rfl rfl key)

/-! ## Reading back what `saveToJSON` wrote -/

theorem MarshalIndent_indentedDoc (v : FormData) (tb : List Byte)
    (h : v.Timestamp.MarshalJSON = Except.ok (0x22 :: (tb ++ [0x22])))
    (htb : ∀ c ∈ tb, timeByte c = true) :
    MarshalIndent v [] (lit "  ") =
      Except.ok (indentedDoc (appendStringLoop v.Name.length v.Name)
        (appendStringLoop v.Email.length v.Email) (appendStringLoop v.Phone.length v.Phone)
        (appendStringLoop v.Message.length v.Message) tb) := by
  have q := fun (s : GoString) =>
    quiet_encoded false s _ (appendStringLoop_encoded false s.length s (le_refl _)
      (by intro hh; cases hh)) false [parseObjectValue] none
  have qt := quiet_plain false [parseObjectValue] none tb (fun c hc => timeByte_plain c (htb c hc))
  simp only [MarshalIndent, Marshal_ok v tb h,
    indent_compactDoc _ _ _ _ tb (q v.Name) (q v.Email) (q v.Phone) (q v.Message) qt]

/-- C3 (amended): for every snapshot `d` whose `Name`, `Email`, `Phone` and
`Message` are valid UTF-8 and whose timestamp can be marshalled, `saveToJSON`
makes one call of `os.WriteFile`, and `json.Unmarshal` of the bytes written, into
any `FormData`, does not panic and leaves a snapshot whose `Name`, `Email`,
`Phone` and `Message` are those of `d`; its `Timestamp` and the error returned
are what `(*time.Time).UnmarshalJSON` makes of the timestamp text written. -/
theorem saved_snapshot_reads_back (d : FormData) (filename : GoString)
    (WriteFile : GoString → List Byte → Nat → Option Error) (h : Host) (v0 : FormData)
    (ts : List Byte)
    (hn : ValidString d.Name = true) (he : ValidString d.Email = true)
    (hp : ValidString d.Phone = true) (hm : ValidString d.Message = true)
    (hts : d.Timestamp.MarshalJSON = Except.ok ts) :
    ∃ data : List Byte,
      (saveToJSON d filename WriteFile).1 = [{ name := filename, data := data, perm := 0o644 }] ∧
      Unmarshal h data v0 =
        some ({ Name := d.Name, Email := d.Email, Phone := d.Phone, Message := d.Message
                Timestamp := (h.UnmarshalJSON ts v0.Timestamp).1 },
              (h.UnmarshalJSON ts v0.Timestamp).2) := by
  obtain ⟨tb, htseq, htb⟩ := MarshalJSON_ok d.Timestamp ts hts
  subst htseq
  have enc := fun (s : GoString) (hs : ValidString s = true) =>
    appendStringLoop_encoded true s.length s (le_refl _) (fun _ => hs)
  refine ⟨_, ?_, Unmarshal_indentedDoc h d.Name d.Email d.Phone d.Message _ _ _ _ tb
    (enc _ hn) (enc _ he) (enc _ hp) (enc _ hm) htb v0⟩
  simp only [saveToJSON, MarshalIndent_indentedDoc d tb hts htb]

theorem saved_snapshot_reads_back_witness :
    ∃ data : List Byte,
      (saveToJSON sampleSnapshot (lit "form_data.json") (fun _ _ _ => none)).1 =
        [{ name := lit "form_data.json", data := data, perm := 0o644 }] ∧
      Unmarshal sampleHost data FormData.zero =
        some ({ Name := sampleSnapshot.Name, Email := sampleSnapshot.Email
                Phone := sampleSnapshot.Phone, Message := sampleSnapshot.Message
                Timestamp :=
                  (sampleHost.UnmarshalJSON (lit "\"2024-03-09T12:00:00Z\"")
                    FormData.zero.Timestamp).1 },
              (sampleHost.UnmarshalJSON (lit "\"2024-03-09T12:00:00Z\"")
                FormData.zero.Timestamp).2) :=
  saved_snapshot_reads_back sampleSnapshot (lit "form_data.json") (fun _ _ _ => none) sampleHost
    FormData.zero (lit "\"2024-03-09T12:00:00Z\"") (by decide) (by decide) (by decide) (by decide)
    rfl

set_option maxRecDepth 100000 in
/-- C3 (as stated) fails on a string that is not valid UTF-8: for the snapshot
whose `Name` is the single byte `0xFF`, `saveToJSON` writes the name as
`"\ufffd"`, and reading the file back gives the three bytes `EF BF BD` of
U+FFFD, not the byte `0xFF`. -/
theorem invalid_utf8_name_not_read_back :
    (saveToJSON (snapshotNamed [0xFF]) (lit "form_data.json") (fun _ _ _ => none)).1 =
      [{ name := lit "form_data.json"
         data := lit ("\x7b\n  \"name\": \"\\ufffd\",\n  \"email\": \"\",\n  \"phone\": \"\",\n" ++
           "  \"message\": \"\",\n  \"timestamp\": \"2024-03-09T12:00:00Z\"\n\x7d")
         perm := 0o644 }] ∧
    Unmarshal sampleHost
        (lit ("\x7b\n  \"name\": \"\\ufffd\",\n  \"email\": \"\",\n  \"phone\": \"\",\n" ++
          "  \"message\": \"\",\n  \"timestamp\": \"2024-03-09T12:00:00Z\"\n\x7d"))
        FormData.zero =
      some ({ Name := [0xEF, 0xBF, 0xBD], Email := [], Phone := [], Message := []
              Timestamp := Time.zero }, none) ∧
    ([0xEF, 0xBF, 0xBD] : GoString) ≠ (snapshotNamed [0xFF]).Name := by
  refine ⟨?_, ?_, by decide⟩
  · decide
  · decide

end Browsea
